import Mathlib

/-!
The type-to-codec cache of package `rlp` (`rlp/typecache.go`).

A shallow embedding of `typecache.go` and theorems about it.

* Go strings are modelled by `String` (sequences of Unicode code points).
* A `reflect.Type` is modelled by an identity (`RType`, a number) together
  with a table `Env.rtype` giving what `reflect` reports about it.
* A `*typeinfo` is an address into `Mem.heap`; the package variable
  `typeCache` is `Mem.typeCache`. `Mem.trace` is a ghost log of the calls of
  `generate`, `makeDecoder` and `makeWriter`.
* `makeDecoder` and `makeWriter` are defined outside `typecache.go`; they are
  parameters (`Generators`). A generator may call `cachedTypedInfo1` and
  `structFields` and read the records (`GenBody`).
* Stateful code returns a `Run`: a result, a Go panic, or the exhaustion of the
  recursion budget that `cachedTypedInfo1` takes as its first argument.
* `cachedTypeInfo` is modelled as run by one thread.
-/

namespace rlp

/-! ## Library functions used by the source -/

/-- Go `unicode.IsSpace`. -/
def IsSpace (c : Char) : Bool :=
  let r := c.toNat
  if r ≤ 0xFF then
    r = 0x09 || r = 0x0A || r = 0x0B || r = 0x0C || r = 0x0D || r = 0x20 || r = 0x85 || r = 0xA0
  else
    r = 0x1680 || (0x2000 ≤ r && r ≤ 0x200A) || r = 0x2028 || r = 0x2029 || r = 0x202F
      || r = 0x205F || r = 0x3000

/-- Go `strings.TrimSpace`: drop leading and trailing white space. -/
def TrimSpace (s : String) : String :=
  String.mk ((s.data.dropWhile IsSpace).rdropWhile IsSpace)

/-- Splitting a character sequence around every occurrence of `sep`. -/
def splitChars (sep : Char) : List Char → List (List Char)
  | [] => [[]]
  | c :: cs =>
    if c = sep then [] :: splitChars sep cs
    else
      match splitChars sep cs with
      | [] => [[c]]
      | h :: t => (c :: h) :: t

/-- Go `strings.Split(s, sep)` for a one-character separator: the substrings
between the separators; `n` separators give `n + 1` substrings. -/
def Split (s : String) (sep : Char) : List String :=
  (splitChars sep s.data).map String.mk

/-- Lower-case hexadecimal digit (`lowerhex` of package `strconv`). -/
def lowerhex (n : Nat) : Char :=
  if n % 16 < 10 then Char.ofNat (48 + n % 16) else Char.ofNat (87 + n % 16)

/-- The hexadecimal digits of `r`, `n` of them, most significant first. -/
def hexDigits (r : Nat) : Nat → List Char
  | 0 => []
  | n + 1 => lowerhex (r / 16 ^ n) :: hexDigits r n

/-- Go `strconv.appendEscapedRune` with `quote = '"'`, `ASCIIonly = false`,
`graphicOnly = false`; `IsPrint` is `strconv.IsPrint`. -/
def appendEscapedRune (IsPrint : Char → Bool) (c : Char) : List Char :=
  let r := c.toNat
  if c = '"' || c = '\\' then ['\\', c]
  else if IsPrint c then [c]
  else if r = 7 then ['\\', 'a']
  else if r = 8 then ['\\', 'b']
  else if r = 12 then ['\\', 'f']
  else if r = 10 then ['\\', 'n']
  else if r = 13 then ['\\', 'r']
  else if r = 9 then ['\\', 't']
  else if r = 11 then ['\\', 'v']
  else if r < 32 || r = 0x7F then '\\' :: 'x' :: hexDigits r 2
  else if r < 0x10000 then '\\' :: 'u' :: hexDigits r 4
  else '\\' :: 'U' :: hexDigits r 8

/-- Go `strconv.Quote`, which is how `fmt` renders the verb `%q` for a string. -/
def Quote (IsPrint : Char → Bool) (s : String) : String :=
  String.mk ('"' :: (s.data.flatMap (appendEscapedRune IsPrint) ++ ['"']))

/-- Go `strings.Contains(s, sub)`. -/
def Contains (s sub : String) : Prop := sub.data <:+: s.data

instance (s sub : String) : Decidable (Contains s sub) := by
  unfold Contains; infer_instance

/-! ## Reflection data -/

/-- Go `reflect.Kind`. -/
inductive Kind where
  | Invalid | Bool | Int | Int8 | Int16 | Int32 | Int64
  | Uint | Uint8 | Uint16 | Uint32 | Uint64 | Uintptr
  | Float32 | Float64 | Complex64 | Complex128
  | Array | Chan | Func | Interface | Map | Pointer | Slice | String | Struct
  | UnsafePointer
  deriving DecidableEq, Repr

/-- Position of a kind in the declaration order of `reflect.Kind`. -/
def Kind.toNat : Kind → Nat
  | .Invalid => 0 | .Bool => 1 | .Int => 2 | .Int8 => 3 | .Int16 => 4 | .Int32 => 5
  | .Int64 => 6 | .Uint => 7 | .Uint8 => 8 | .Uint16 => 9 | .Uint32 => 10 | .Uint64 => 11
  | .Uintptr => 12 | .Float32 => 13 | .Float64 => 14 | .Complex64 => 15 | .Complex128 => 16
  | .Array => 17 | .Chan => 18 | .Func => 19 | .Interface => 20 | .Map => 21
  | .Pointer => 22 | .Slice => 23 | .String => 24 | .Struct => 25 | .UnsafePointer => 26

/-- The identity of a `reflect.Type`; two types are the same iff the identities are equal. -/
abbrev RType := Nat

/-- Go `reflect.StructField`, the parts the source reads. `Tag` is the value of
`f.Tag.Get("rlp")`. -/
structure StructField where
  Name : String
  PkgPath : String
  Typ : RType
  Tag : String
  deriving DecidableEq, Repr

/-- What `reflect` reports about one type. -/
structure rtype where
  /-- Result of `typ.String()`, which is how `fmt` renders `%v` for a type. -/
  str : String
  kind : Kind
  /-- Declared fields, for a struct type. -/
  fields : List StructField
  deriving DecidableEq, Repr

/-- The run-time library facts the source depends on. -/
structure Env where
  rtype : RType → rtype
  /-- Go `strconv.IsPrint`. -/
  IsPrint : Char → Bool

/-- Go `typ.NumField()`; it panics (`none`) when `typ` is not a struct type. -/
def NumField (env : Env) (typ : RType) : Option Nat :=
  if (env.rtype typ).kind = Kind.Struct then some (env.rtype typ).fields.length else none

/-- Go `typ.Field(i)`; it panics (`none`) when `typ` is not a struct type or
`i` is out of range. -/
def Field (env : Env) (typ : RType) (i : Nat) : Option StructField :=
  if (env.rtype typ).kind = Kind.Struct then (env.rtype typ).fields[i]? else none

/-! ## Data model of `typecache.go` -/

/-- Go `error`: `none` is `nil`, `some msg` an error with message `msg`. -/
abbrev error := Option String

/-- `type decoder func(*Stream, reflect.Value) error`: `none` is the nil
function, `some n` a function value identified by `n`. -/
abbrev decoder := Option Nat

/-- `type writer func(reflect.Value, *encbuf) error`. -/
abbrev writer := Option Nat

/-- Source `typeinfo`: the four slots of a codec record. -/
structure typeinfo where
  decoder : decoder
  decoderErr : error
  writer : writer
  writerErr : error
  deriving DecidableEq, Repr

/-- Source `tags`: the options parsed from a field's directive. -/
structure tags where
  nilOK : Bool
  tail : Bool
  ignored : Bool
  deriving DecidableEq, Repr

/-- The zero value `tags{}`. -/
def tags.zero : tags := ⟨false, false, false⟩

/-- Source `typekey`: the embedded `reflect.Type` (here `Typ`) and `tags`. -/
structure typekey where
  Typ : RType
  tags : tags
  deriving DecidableEq, Repr

/-- Source `field`: a field's index and the address of its record. -/
structure field where
  index : Nat
  info : Nat
  deriving DecidableEq, Repr

/-! ## `parseStructTag` and `lastPublicField` -/

/-- The error of line 112. -/
def errTailNotLast (env : Env) (typ : RType) (f : StructField) : String :=
  "rlp: invalid struct tag \"tail\" for " ++ (env.rtype typ).str ++ "." ++ f.Name
    ++ " (must be on last field)"

/-- The error of line 115. -/
def errTailNotSlice (env : Env) (typ : RType) (f : StructField) : String :=
  "rlp: invalid struct tag \"tail\" for " ++ (env.rtype typ).str ++ "." ++ f.Name
    ++ " (field type is not slice)"

/-- The error of line 118. -/
def errUnknownTag (env : Env) (typ : RType) (f : StructField) (t : String) : String :=
  "rlp: unknown struct tag " ++ Quote env.IsPrint t ++ " on " ++ (env.rtype typ).str
    ++ "." ++ f.Name

/-- The `for ... range strings.Split(...)` loop of `parseStructTag`, over the
tokens still to be read, `ts` being the options set so far. -/
def parseStructTagLoop (env : Env) (typ : RType) (f : StructField) (fi lastPublic : Nat) :
    List String → tags → tags × error
  | [], ts => (ts, none)
  | t :: rest, ts =>
    let t := TrimSpace t
    if t = "" then parseStructTagLoop env typ f fi lastPublic rest ts
    else if t = "-" then
      parseStructTagLoop env typ f fi lastPublic rest { ts with ignored := true }
    else if t = "nil" then
      parseStructTagLoop env typ f fi lastPublic rest { ts with nilOK := true }
    else if t = "tail" then
      let ts := { ts with tail := true }
      if fi ≠ lastPublic then (ts, some (errTailNotLast env typ f))
      else if (env.rtype f.Typ).kind ≠ Kind.Slice then (ts, some (errTailNotSlice env typ f))
      else parseStructTagLoop env typ f fi lastPublic rest ts
    else (ts, some (errUnknownTag env typ f t))

/-- Source `parseStructTag`; `none` is the panic of `typ.Field(fi)`. -/
def parseStructTag (env : Env) (typ : RType) (fi lastPublic : Nat) : Option (tags × error) :=
  match Field env typ fi with
  | none => none
  | some f => some (parseStructTagLoop env typ f fi lastPublic (Split f.Tag ',') tags.zero)

/-- The loop of `lastPublicField` over the indices still to visit. -/
def lastPublicFieldLoop (env : Env) (typ : RType) : List Nat → Nat → Option Nat
  | [], last => some last
  | i :: is, last =>
    match Field env typ i with
    | none => none
    | some f =>
      if f.PkgPath = "" then lastPublicFieldLoop env typ is i
      else lastPublicFieldLoop env typ is last

/-- Source `lastPublicField`; `none` is a panic (`typ` is not a struct type). -/
def lastPublicField (env : Env) (typ : RType) : Option Nat :=
  match NumField env typ with
  | none => none
  | some n => lastPublicFieldLoop env typ (List.range n) 0

/-- Source `isUnit`. -/
def isUnit (k : Kind) : Bool :=
  decide (Kind.Uint.toNat ≤ k.toNat) && decide (k.toNat ≤ Kind.Uintptr.toNat)

/-! ## Memory: the heap of `typeinfo` records and the package variable `typeCache` -/

/-- Ghost record of the calls made to `generate`, `makeDecoder` and `makeWriter`. -/
inductive Event where
  | generate (key : typekey)
  | makeDecoder (key : typekey)
  | makeWriter (key : typekey)
  deriving DecidableEq, Repr

/-- The key a call was made with. -/
def Event.key : Event → typekey
  | .generate k => k
  | .makeDecoder k => k
  | .makeWriter k => k

/-- Go map read `m[key]`; `none` is the nil pointer a missing key yields. -/
def mapGet (m : List (typekey × Nat)) (key : typekey) : Option Nat :=
  match m with
  | [] => none
  | (k, v) :: rest => if k = key then some v else mapGet rest key

/-- Go map write `m[key] = v`. -/
def mapSet (m : List (typekey × Nat)) (key : typekey) (v : Nat) : List (typekey × Nat) :=
  (key, v) :: m.filter (fun e => decide (e.1 ≠ key))

/-- Apply `f` to the element at position `i`. -/
def modifyAt (f : typeinfo → typeinfo) : List typeinfo → Nat → List typeinfo
  | [], _ => []
  | r :: rs, 0 => f r :: rs
  | r :: rs, i + 1 => r :: modifyAt f rs i

/-- The state the code runs on. -/
structure Mem where
  /-- The records allocated by `new(typeinfo)`; a `*typeinfo` is a position in this list. -/
  heap : List typeinfo
  /-- The package variable `typeCache`. -/
  typeCache : List (typekey × Nat)
  /-- Ghost: the generator calls made so far, oldest first. -/
  trace : List Event
  deriving DecidableEq, Repr

/-- The state at program start: `typeCache = make(map[typekey]*typeinfo)`. -/
def Mem.init : Mem := ⟨[], [], []⟩

/-- Append a ghost event. -/
def Mem.log (s : Mem) (ev : Event) : Mem := { s with trace := s.trace ++ [ev] }

/-- Dereference a `*typeinfo`; `none` for an address that was never allocated. -/
def Mem.deref (s : Mem) (info : Nat) : Option typeinfo := s.heap[info]?

/-- The record stored under a key, if any. -/
def Mem.lookup (s : Mem) (key : typekey) : Option Nat := mapGet s.typeCache key

/-- The zero value that `new(typeinfo)` points to. -/
def typeinfo.zero : typeinfo := ⟨none, none, none, none⟩

/-- Outcome of running stateful code. -/
inductive Run (α : Type) where
  | ok (a : α)
  /-- A Go run-time panic. -/
  | panic
  /-- The recursion budget given to the model was used up. -/
  | outOfFuel
  deriving DecidableEq, Repr

/-! ## The generators

`makeDecoder` and `makeWriter` are not part of `typecache.go`. A generator is
modelled by what it can do to the cache: call `cachedTypedInfo1`, call
`structFields`, look at the records allocated so far, and finally return a
function and an error. -/

/-- The body of a generator call. The continuations receive the result of the
call and the heap as it is when the call returns. -/
inductive GenBody where
  | ret (fn : Option Nat) (err : error)
  | callCachedTypedInfo1 (typ : RType) (tg : tags) (k : Nat → List typeinfo → GenBody)
  | callStructFields (typ : RType) (k : List field → error → List typeinfo → GenBody)

/-- The two generators, parameters of the development. -/
structure Generators where
  makeDecoder : RType → tags → GenBody
  makeWriter : RType → tags → GenBody

/-- The type of `cachedTypedInfo1` as code running on a memory. -/
abbrev Resolver := RType → tags → Mem → Run (Nat × Mem)

/-! ## `structFields` -/

/-- The `for` loop of `structFields` over the indices still to visit; `fields`
is the slice built so far. `resolve` is `cachedTypedInfo1`. -/
def structFieldsLoop (env : Env) (resolve : Resolver) (typ : RType) (lastpublic : Nat) :
    List Nat → List field → Mem → Run ((List field × error) × Mem)
  | [], fields, s => .ok ((fields, none), s)
  | i :: is, fields, s =>
    match Field env typ i with
    | none => .panic
    | some f =>
      if f.PkgPath = "" then
        match parseStructTag env typ i lastpublic with
        | none => .panic
        | some (_, some err) => .ok (([], some err), s)
        | some (tg, none) =>
          if tg.ignored then structFieldsLoop env resolve typ lastpublic is fields s
          else
            match resolve f.Typ tg s with
            | .ok (info, s1) =>
              structFieldsLoop env resolve typ lastpublic is (fields ++ [⟨i, info⟩]) s1
            | .panic => .panic
            | .outOfFuel => .outOfFuel
      else structFieldsLoop env resolve typ lastpublic is fields s

/-- Source `structFields`, with `cachedTypedInfo1` passed as `resolve`. -/
def structFields (env : Env) (resolve : Resolver) (typ : RType) (s : Mem) :
    Run ((List field × error) × Mem) :=
  match lastPublicField env typ with
  | none => .panic
  | some lastpublic =>
    match NumField env typ with
    | none => .panic
    | some n => structFieldsLoop env resolve typ lastpublic (List.range n) [] s

/-! ## `generate`, `cachedTypedInfo1`, `cachedTypeInfo` -/

/-- Run a generator body; its calls go to `resolve` and to `structFields`. -/
def runGen (env : Env) (resolve : Resolver) : GenBody → Mem → Run ((Option Nat × error) × Mem)
  | .ret fn err, s => .ok ((fn, err), s)
  | .callCachedTypedInfo1 typ tg k, s =>
    match resolve typ tg s with
    | .ok (info, s1) => runGen env resolve (k info s1.heap) s1
    | .panic => .panic
    | .outOfFuel => .outOfFuel
  | .callStructFields typ k, s =>
    match structFields env resolve typ s with
    | .ok ((fields, err), s1) => runGen env resolve (k fields err s1.heap) s1
    | .panic => .panic
    | .outOfFuel => .outOfFuel

/-- The assignment `i.decoder, i.decoderErr = d, e`. -/
def Mem.setDecoder (s : Mem) (i : Nat) (d : decoder) (e : error) : Mem :=
  { s with heap := modifyAt (fun r => { r with decoder := d, decoderErr := e }) s.heap i }

/-- The assignment `i.writer, i.writerErr = w, e`. -/
def Mem.setWriter (s : Mem) (i : Nat) (w : writer) (e : error) : Mem :=
  { s with heap := modifyAt (fun r => { r with writer := w, writerErr := e }) s.heap i }

/-- Source `(i *typeinfo).generate`. -/
def generate (env : Env) (G : Generators) (resolve : Resolver) (i : Nat) (typ : RType)
    (tg : tags) (s : Mem) : Run Mem :=
  let s0 := (s.log (.generate ⟨typ, tg⟩)).log (.makeDecoder ⟨typ, tg⟩)
  match runGen env resolve (G.makeDecoder typ tg) s0 with
  | .ok ((d, e), s1) =>
    let s2 := (s1.setDecoder i d e).log (.makeWriter ⟨typ, tg⟩)
    match runGen env resolve (G.makeWriter typ tg) s2 with
    | .ok ((w, e), s3) => .ok (s3.setWriter i w e)
    | .panic => .panic
    | .outOfFuel => .outOfFuel
  | .panic => .panic
  | .outOfFuel => .outOfFuel

/-- Source `cachedTypedInfo1`. The first argument bounds the depth of nested
generation; a call that finds its key needs none of it. -/
def cachedTypedInfo1 (env : Env) (G : Generators) : Nat → Resolver
  | 0 => fun typ tg s =>
    match mapGet s.typeCache ⟨typ, tg⟩ with
    | some info => .ok (info, s)
    | none => .outOfFuel
  | fuel + 1 => fun typ tg s =>
    match mapGet s.typeCache ⟨typ, tg⟩ with
    | some info => .ok (info, s)
    | none =>
      let info := s.heap.length
      let s1 : Mem :=
        { s with heap := s.heap ++ [typeinfo.zero],
                 typeCache := mapSet s.typeCache ⟨typ, tg⟩ info }
      match generate env G (cachedTypedInfo1 env G fuel) info typ tg s1 with
      | .ok s2 => .ok (info, s2)
      | .panic => .panic
      | .outOfFuel => .outOfFuel

/-- Source `cachedTypeInfo`, run by one thread on its own. -/
def cachedTypeInfo (env : Env) (G : Generators) (fuel : Nat) : Resolver :=
  fun typ tg s =>
    match mapGet s.typeCache ⟨typ, tg⟩ with
    | some info => .ok (info, s)
    | none => cachedTypedInfo1 env G fuel typ tg s

/-- Source `cachedDecoder`. -/
def cachedDecoder (env : Env) (G : Generators) (fuel : Nat) (typ : RType) (s : Mem) :
    Run ((decoder × error) × Mem) :=
  match cachedTypeInfo env G fuel typ tags.zero s with
  | .ok (info, s1) =>
    match s1.deref info with
    | some r => .ok ((r.decoder, r.writerErr), s1)
    | none => .panic
  | .panic => .panic
  | .outOfFuel => .outOfFuel

/-- Source `cachedWriter`. -/
def cachedWriter (env : Env) (G : Generators) (fuel : Nat) (typ : RType) (s : Mem) :
    Run ((writer × error) × Mem) :=
  match cachedTypeInfo env G fuel typ tags.zero s with
  | .ok (info, s1) =>
    match s1.deref info with
    | some r => .ok ((r.writer, r.writerErr), s1)
    | none => .panic
  | .panic => .panic
  | .outOfFuel => .outOfFuel

/-! ## Threads calling `cachedTypeInfo`

`typeCacheMutex` is a `sync.RWMutex`: the section between `RLock` and `RUnlock`
runs while no thread is between `Lock` and `Unlock`, and the section between
`Lock` and `Unlock` runs while no other thread is in any section. The read
section does not write, so a run of several threads is a sequence of whole
sections, the two sections of each thread in their order. -/

/-- Where a thread stands in its call of `cachedTypeInfo`. -/
inductive Thread where
  /-- Before `typeCacheMutex.RLock()`. -/
  | start
  /-- After `typeCacheMutex.RUnlock()` with `info == nil`, before `typeCacheMutex.Lock()`. -/
  | missed
  /-- Returned `info`. -/
  | done (info : Nat)
  deriving DecidableEq, Repr

/-- The sections a thread has behind it, a thread that returned counting as two. -/
def Thread.rank : Thread → Nat
  | .start => 0
  | .missed => 1
  | .done _ => 2

/-- The next section of a thread in `cachedTypeInfo(typ, tags)`: the lookup
under the read lock, or `cachedTypedInfo1` under the write lock. -/
def threadStep (env : Env) (G : Generators) (fuel : Nat) (typ : RType) (tg : tags)
    (t : Thread) (s : Mem) : Run (Thread × Mem) :=
  match t with
  | .start =>
    match mapGet s.typeCache ⟨typ, tg⟩ with
    | some info => .ok (.done info, s)
    | none => .ok (.missed, s)
  | .missed =>
    match cachedTypedInfo1 env G fuel typ tg s with
    | .ok (info, s2) => .ok (.done info, s2)
    | .panic => .panic
    | .outOfFuel => .outOfFuel
  | .done info => .ok (.done info, s)

/-- Run the threads `th` in the order `sched` says: each entry names the thread
that runs its next section. -/
def runSchedule (env : Env) (G : Generators) (fuel : Nat) (typ : RType) (tg : tags) :
    List Nat → List Thread → Mem → Run (List Thread × Mem)
  | [], th, s => .ok (th, s)
  | t :: rest, th, s =>
    match th[t]? with
    | none => runSchedule env G fuel typ tg rest th s
    | some x =>
      match threadStep env G fuel typ tg x s with
      | .ok (y, s1) => runSchedule env G fuel typ tg rest (th.set t y) s1
      | .panic => .panic
      | .outOfFuel => .outOfFuel

/-! ## Specification vocabulary -/

/-- Every cached pointer is allocated, and no two keys share a record. -/
def Mem.WF (s : Mem) : Prop :=
  (∀ key info, mapGet s.typeCache key = some info → info < s.heap.length) ∧
  (∀ key key2 info, mapGet s.typeCache key = some info →
    mapGet s.typeCache key2 = some info → key = key2)

/-- The key is absent from the cache `c` and present in the cache `c2`. -/
def newKey (c c2 : List (typekey × Nat)) (key : typekey) : Prop :=
  mapGet c key = none ∧ mapGet c2 key ≠ none

instance (c c2 : List (typekey × Nat)) (key : typekey) : Decidable (newKey c c2 key) := by
  unfold newKey; infer_instance

/-- What a run from `s` to `s2` may have done: entries and records are kept as
they are, and a call is logged for a key exactly when the key was added. -/
structure Ext (s s2 : Mem) : Prop where
  cache : ∀ key info, mapGet s.typeCache key = some info → mapGet s2.typeCache key = some info
  heap : s.heap <+: s2.heap
  count : ∀ ev, s2.trace.count ev =
    s.trace.count ev + if newKey s.typeCache s2.typeCache ev.key then 1 else 0
  wf : s.WF → s2.WF
  fresh : ∀ key info, mapGet s.typeCache key = none → mapGet s2.typeCache key = some info →
    s.heap.length ≤ info

/-- What the callers of `cachedTypedInfo1` rely on. -/
def Sound (resolve : Resolver) : Prop :=
  ∀ typ tg s info s2, resolve typ tg s = .ok (info, s2) →
    Ext s s2 ∧ mapGet s2.typeCache ⟨typ, tg⟩ = some info

/-- The eight values of `tags`. -/
def allTags : List tags :=
  [⟨false, false, false⟩, ⟨false, false, true⟩, ⟨false, true, false⟩, ⟨false, true, true⟩,
   ⟨true, false, false⟩, ⟨true, false, true⟩, ⟨true, true, false⟩, ⟨true, true, true⟩]

/-- The keys whose type is one of the types `U`. -/
def keysOf (U : List RType) : List typekey :=
  U.flatMap (fun typ => allTags.map (fun tg => typekey.mk typ tg))

/-- How many of the keys over the types `U` the cache does not hold. -/
def absent (U : List RType) (c : List (typekey × Nat)) : Nat :=
  (keysOf U).countP (fun key => decide (mapGet c key = none))

/-- The field types of the types `U` are among these types. -/
def ClosedTypes (env : Env) (U : List RType) : Prop :=
  ∀ typ ∈ U, ∀ f ∈ (env.rtype typ).fields, f.Typ ∈ U

/-- A generator body that stays within the types `U`: it resolves only these
types and enumerates the fields of struct types only. -/
def Within (env : Env) (U : List RType) : GenBody → Prop
  | .ret _ _ => True
  | .callCachedTypedInfo1 typ _ k => typ ∈ U ∧ ∀ info heap, Within env U (k info heap)
  | .callStructFields typ k =>
    typ ∈ U ∧ (env.rtype typ).kind = Kind.Struct ∧
      ∀ fields err heap, Within env U (k fields err heap)

/-- Every answer of `r1` is an answer of `r2`. -/
def Refines (r1 r2 : Resolver) : Prop :=
  ∀ typ tg s res, r1 typ tg s = .ok res → r2 typ tg s = .ok res

/-- On the types `U` the resolver answers whenever at most `m` keys over these
types are missing from the cache. -/
def TotalOn (U : List RType) (m : Nat) (resolve : Resolver) : Prop :=
  ∀ typ tg s, typ ∈ U → absent U s.typeCache ≤ m → ∃ info s2, resolve typ tg s = .ok (info, s2)

/-- The tokens that `parseStructTag` accepts, after trimming. -/
def validToken (t : String) : Prop := t = "" ∨ t = "-" ∨ t = "nil" ∨ t = "tail"

instance (t : String) : Decidable (validToken t) := by
  unfold validToken; infer_instance

/-- The whitespace-trimmed tokens of a directive. -/
def tokens (directive : String) : List String := (Split directive ',').map TrimSpace

/-- Field `i` is exported and its directive parses to options that do not
ignore it. -/
def eligible (env : Env) (typ : RType) (lastpublic : Nat) (i : Nat) : Bool :=
  match Field env typ i with
  | none => false
  | some f =>
    decide (f.PkgPath = "") &&
      match parseStructTag env typ i lastpublic with
      | some (tg, _) => !tg.ignored
      | none => false

/-! ## A small program on which the model is run -/

/-- The types of the example program:
`0` is `type Node struct { Val uint; hidden uint; Skip uint "-"; Next *Node "nil"; Rest []uint "tail" }`,
`1` is `uint`, `2` is `[]uint`, `3` is `*Node`,
`4` is an integer type with only an encoder, `5` one with only a decoder,
`6` to `10` are struct types with faulty directives, `11` is a struct type
with several tokens in each directive. `IsPrint` is `strconv.IsPrint` on the
ASCII range. -/
def exEnv : Env where
  rtype := fun n =>
    match n with
    | 0 => ⟨"main.Node", Kind.Struct,
        [⟨"Val", "", 1, ""⟩, ⟨"hidden", "main", 1, ""⟩, ⟨"Skip", "", 1, "-"⟩,
         ⟨"Next", "", 3, "nil"⟩, ⟨"Rest", "", 2, "tail"⟩]⟩
    | 1 => ⟨"uint", Kind.Uint, []⟩
    | 2 => ⟨"[]uint", Kind.Slice, []⟩
    | 3 => ⟨"*main.Node", Kind.Pointer, []⟩
    | 4 => ⟨"main.EncodeOnly", Kind.Int, []⟩
    | 5 => ⟨"main.DecodeOnly", Kind.Int, []⟩
    | 6 => ⟨"main.Unknown", Kind.Struct, [⟨"X", "", 1, "foo"⟩]⟩
    | 7 => ⟨"main.Early", Kind.Struct, [⟨"A", "", 2, "tail"⟩, ⟨"B", "", 1, ""⟩, ⟨"C", "", 1, ""⟩]⟩
    | 8 => ⟨"main.Shape", Kind.Struct, [⟨"A", "", 1, "tail"⟩]⟩
    | 9 => ⟨"main.Quoted", Kind.Struct, [⟨"A", "", 1, "a\"b"⟩]⟩
    | 10 => ⟨"main.Late", Kind.Struct, [⟨"A", "", 1, "nil"⟩, ⟨"B", "", 1, "foo"⟩]⟩
    | 11 => ⟨"main.Mixed", Kind.Struct,
        [⟨"A", "", 1, "-,nil"⟩, ⟨"B", "", 1, "nil, -"⟩, ⟨"C", "", 1, " nil ,, nil"⟩,
         ⟨"D", "", 2, "tail,nil"⟩]⟩
    | _ => ⟨"invalid", Kind.Invalid, []⟩
  IsPrint := fun c => decide (32 ≤ c.toNat ∧ c.toNat < 127)

/-- Element type of the pointer and slice types of the example program. -/
def exElem (typ : RType) : RType := if typ = 3 then 0 else 1

/-- How the example generators finish: with the error `e` when there is one,
else with a function for `typ`. -/
def exFinish (typ : RType) (e : error) : GenBody :=
  match e with
  | some msg => .ret none (some msg)
  | none => .ret (some (100 + typ)) none

/-- A generator body in the manner of the `rlp` package: a struct type
enumerates its fields, a pointer or slice type resolves its element type and
passes on the element's error slot `err`, `uint` is supported, and the type
`unsupported` is rejected. -/
def exBody (err : typeinfo → error) (unsupported : RType) (typ : RType) : GenBody :=
  match (exEnv.rtype typ).kind with
  | Kind.Struct => .callStructFields typ (fun _ e _ => exFinish typ e)
  | Kind.Pointer | Kind.Slice =>
    .callCachedTypedInfo1 (exElem typ) tags.zero (fun info heap =>
      exFinish typ ((heap[info]?).bind err))
  | _ =>
    if typ = unsupported then
      .ret none (some ("rlp: type " ++ (exEnv.rtype typ).str ++ " is not RLP-serializable"))
    else .ret (some (100 + typ)) none

/-- The generators of the example program: decoding is not supported for type
`4`, writing is not supported for type `5`. -/
def exGen : Generators where
  makeDecoder := fun typ _ => exBody typeinfo.decoderErr 4 typ
  makeWriter := fun typ _ => exBody typeinfo.writerErr 5 typ

/-- The memory after `cachedDecoder` has resolved type `4` from the initial state. -/
def exMem4 : Mem :=
  ⟨[⟨none, some "rlp: type main.EncodeOnly is not RLP-serializable", some 104, none⟩],
   [(⟨4, tags.zero⟩, 0)],
   [.generate ⟨4, tags.zero⟩, .makeDecoder ⟨4, tags.zero⟩, .makeWriter ⟨4, tags.zero⟩]⟩

/-- The memory after `cachedDecoder` has resolved type `5` from the initial state. -/
def exMem5 : Mem :=
  ⟨[⟨some 105, none, none, some "rlp: type main.DecodeOnly is not RLP-serializable"⟩],
   [(⟨5, tags.zero⟩, 0)],
   [.generate ⟨5, tags.zero⟩, .makeDecoder ⟨5, tags.zero⟩, .makeWriter ⟨5, tags.zero⟩]⟩

/-- The memory after `structFields` has enumerated `main.Mixed` (type `11`)
from the initial state. -/
def exMem11 : Mem :=
  ⟨[⟨some 101, none, some 101, none⟩, ⟨some 102, none, some 102, none⟩,
    ⟨some 101, none, some 101, none⟩],
   [(⟨1, ⟨false, false, false⟩⟩, 2), (⟨2, ⟨true, true, false⟩⟩, 1),
    (⟨1, ⟨true, false, false⟩⟩, 0)],
   [.generate ⟨1, ⟨true, false, false⟩⟩, .makeDecoder ⟨1, ⟨true, false, false⟩⟩,
    .makeWriter ⟨1, ⟨true, false, false⟩⟩, .generate ⟨2, ⟨true, true, false⟩⟩,
    .makeDecoder ⟨2, ⟨true, true, false⟩⟩, .generate ⟨1, ⟨false, false, false⟩⟩,
    .makeDecoder ⟨1, ⟨false, false, false⟩⟩, .makeWriter ⟨1, ⟨false, false, false⟩⟩,
    .makeWriter ⟨2, ⟨true, true, false⟩⟩]⟩

/-- Field `i` is exported and its directive fails to parse, with the message `msg`. -/
def FailsAt (env : Env) (typ : RType) (lastpublic : Nat) (i : Nat) (msg : String) : Prop :=
  ∃ f tg, Field env typ i = some f ∧ f.PkgPath = "" ∧
    parseStructTag env typ i lastpublic = some (tg, some msg)

/-- The entry's field has parsed options with `tail = true`: these are the
options the entry was resolved with. -/
def TailEntry (env : Env) (typ : RType) (lastpublic : Nat) (e : field) : Prop :=
  ∃ tg, parseStructTag env typ e.index lastpublic = some (tg, none) ∧ tg.tail = true

/-- A second small program: `0` is a struct type with unexported fields only,
`1` is `uint`, `2` is `[]uint`, `3` is `struct { A []uint "tail"; B uint "-" }`,
`4` is a struct type whose fields are all ignored, `5` is a struct type
without fields. -/
def exEnv2 : Env where
  rtype := fun n =>
    match n with
    | 0 => ⟨"main.Hidden", Kind.Struct, [⟨"a", "main", 1, ""⟩, ⟨"b", "main", 2, "tail"⟩]⟩
    | 1 => ⟨"uint", Kind.Uint, []⟩
    | 2 => ⟨"[]uint", Kind.Slice, []⟩
    | 3 => ⟨"main.SkipLast", Kind.Struct, [⟨"A", "", 2, "tail"⟩, ⟨"B", "", 1, "-"⟩]⟩
    | 4 => ⟨"main.AllSkipped", Kind.Struct, [⟨"A", "", 1, "-"⟩, ⟨"B", "", 2, " - ,nil"⟩]⟩
    | 5 => ⟨"main.Empty", Kind.Struct, []⟩
    | _ => ⟨"invalid", Kind.Invalid, []⟩
  IsPrint := fun c => decide (32 ≤ c.toNat ∧ c.toNat < 127)

/-- The memory after `structFields` has failed on `main.Late` (type `10` of the
first example program) from the initial state: the record of field `A` is
there. -/
def exMem10 : Mem :=
  ⟨[⟨some 101, none, some 101, none⟩],
   [(⟨1, ⟨true, false, false⟩⟩, 0)],
   [.generate ⟨1, ⟨true, false, false⟩⟩, .makeDecoder ⟨1, ⟨true, false, false⟩⟩,
    .makeWriter ⟨1, ⟨true, false, false⟩⟩]⟩

/-- The memory after type `5` and then type `4` have been resolved from the
initial state, both with the options `tags{}`. -/
def exMem54 : Mem :=
  ⟨[⟨some 105, none, none, some "rlp: type main.DecodeOnly is not RLP-serializable"⟩,
    ⟨none, some "rlp: type main.EncodeOnly is not RLP-serializable", some 104, none⟩],
   [(⟨4, tags.zero⟩, 1), (⟨5, tags.zero⟩, 0)],
   [.generate ⟨5, tags.zero⟩, .makeDecoder ⟨5, tags.zero⟩, .makeWriter ⟨5, tags.zero⟩,
    .generate ⟨4, tags.zero⟩, .makeDecoder ⟨4, tags.zero⟩, .makeWriter ⟨4, tags.zero⟩]⟩

/-- The memory after type `4` has been resolved from the initial state with the
options `tags{}` and then with the options `tags{nilOK: true}`. -/
def exMem44 : Mem :=
  ⟨[⟨none, some "rlp: type main.EncodeOnly is not RLP-serializable", some 104, none⟩,
    ⟨none, some "rlp: type main.EncodeOnly is not RLP-serializable", some 104, none⟩],
   [(⟨4, ⟨true, false, false⟩⟩, 1), (⟨4, tags.zero⟩, 0)],
   [.generate ⟨4, tags.zero⟩, .makeDecoder ⟨4, tags.zero⟩, .makeWriter ⟨4, tags.zero⟩,
    .generate ⟨4, ⟨true, false, false⟩⟩, .makeDecoder ⟨4, ⟨true, false, false⟩⟩,
    .makeWriter ⟨4, ⟨true, false, false⟩⟩]⟩

/-- The memory after the key `(*Node, tags{nilOK: true})` has been resolved
from the initial state: generation resolves `Node`, whose field `Next` has
that very key. -/
def exMemPtr : Mem :=
  ⟨[⟨some 103, none, some 103, none⟩, ⟨some 100, none, some 100, none⟩,
    ⟨some 101, none, some 101, none⟩, ⟨some 102, none, some 102, none⟩],
   [(⟨2, ⟨false, true, false⟩⟩, 3), (⟨1, tags.zero⟩, 2), (⟨0, tags.zero⟩, 1),
    (⟨3, ⟨true, false, false⟩⟩, 0)],
   [.generate ⟨3, ⟨true, false, false⟩⟩, .makeDecoder ⟨3, ⟨true, false, false⟩⟩,
    .generate ⟨0, tags.zero⟩, .makeDecoder ⟨0, tags.zero⟩,
    .generate ⟨1, tags.zero⟩, .makeDecoder ⟨1, tags.zero⟩, .makeWriter ⟨1, tags.zero⟩,
    .generate ⟨2, ⟨false, true, false⟩⟩, .makeDecoder ⟨2, ⟨false, true, false⟩⟩,
    .makeWriter ⟨2, ⟨false, true, false⟩⟩,
    .makeWriter ⟨0, tags.zero⟩, .makeWriter ⟨3, ⟨true, false, false⟩⟩]⟩

/-! ## Basic facts -/

theorem mapGet_filter_ne (m : List (typekey × Nat)) (key key2 : typekey) (h : key2 ≠ key) :
    mapGet (m.filter (fun e => decide (e.1 ≠ key))) key2 = mapGet m key2 := by
  induction m with
  | nil => rfl
  | cons e rest ih =>
    obtain ⟨k, v⟩ := e
    by_cases hk : k = key
    · subst hk
      have : k ≠ key2 := fun h2 => h h2.symm
      simpa [List.filter, mapGet, this] using ih
    · by_cases hk2 : k = key2
      · subst hk2
        simp [List.filter, mapGet, hk]
      · simpa [List.filter, mapGet, hk, hk2] using ih

theorem mapGet_mapSet (m : List (typekey × Nat)) (key key2 : typekey) (v : Nat) :
    mapGet (mapSet m key v) key2 = if key = key2 then some v else mapGet m key2 := by
  unfold mapSet
  by_cases h : key = key2
  · simp [mapGet, h]
  · have h2 : key2 ≠ key := fun e => h e.symm
    have h3 := mapGet_filter_ne m key key2 h2
    simpa [mapGet, h] using h3

theorem modifyAt_length (f : typeinfo → typeinfo) (l : List typeinfo) (i : Nat) :
    (modifyAt f l i).length = l.length := by
  induction l generalizing i with
  | nil => rfl
  | cons r rs ih =>
    cases i with
    | zero => rfl
    | succ i => simp [modifyAt, ih]

theorem modifyAt_append_right (f : typeinfo → typeinfo) (l m : List typeinfo) (i : Nat)
    (h : l.length ≤ i) : modifyAt f (l ++ m) i = l ++ modifyAt f m (i - l.length) := by
  induction l generalizing i with
  | nil => simp
  | cons r rs ih =>
    cases i with
    | zero => simp at h
    | succ i =>
      simp only [List.length_cons, Nat.add_le_add_iff_right] at h
      simp [modifyAt, ih i h]

theorem prefix_modifyAt (f : typeinfo → typeinfo) (l m : List typeinfo) (i : Nat)
    (hp : l <+: m) (h : l.length ≤ i) : l <+: modifyAt f m i := by
  obtain ⟨t, rfl⟩ := hp
  rw [modifyAt_append_right f l t i h]
  exact List.prefix_append _ _

theorem modifyAt_get (f : typeinfo → typeinfo) (l : List typeinfo) (i : Nat) :
    (modifyAt f l i)[i]? = (l[i]?).map f := by
  induction l generalizing i with
  | nil => rfl
  | cons r rs ih =>
    cases i with
    | zero => simp [modifyAt]
    | succ i => simpa [modifyAt] using ih i

theorem modifyAt_get_ne (f : typeinfo → typeinfo) (l : List typeinfo) (i j : Nat) (h : i ≠ j) :
    (modifyAt f l i)[j]? = l[j]? := by
  induction l generalizing i j with
  | nil => rfl
  | cons r rs ih =>
    cases i with
    | zero =>
      cases j with
      | zero => exact absurd rfl h
      | succ j => simp [modifyAt]
    | succ i =>
      cases j with
      | zero => simp [modifyAt]
      | succ j =>
        have : i ≠ j := fun e => h (by rw [e])
        simpa [modifyAt] using ih i j this

theorem Ext.refl (s : Mem) : Ext s s where
  cache := fun _ _ h => h
  heap := List.prefix_refl _
  count := fun ev => by
    have : ¬ newKey s.typeCache s.typeCache ev.key := fun h => h.2 h.1
    simp [this]
  wf := id
  fresh := fun key info h1 h2 => by rw [h1] at h2; cases h2

theorem newKey_trans_count (c c2 c3 : List (typekey × Nat)) (key : typekey)
    (h12 : ∀ info, mapGet c key = some info → mapGet c2 key = some info)
    (h23 : ∀ info, mapGet c2 key = some info → mapGet c3 key = some info) :
    (if newKey c c3 key then 1 else 0) =
      (if newKey c c2 key then 1 else 0) + (if newKey c2 c3 key then 1 else 0) := by
  unfold newKey
  by_cases h1 : mapGet c key = none
  · by_cases h2 : mapGet c2 key = none
    · simp [h1, h2]
    · obtain ⟨info2, h2e⟩ := Option.ne_none_iff_exists'.mp h2
      simp [h1, h2e, h23 info2 h2e]
  · obtain ⟨info, h1e⟩ := Option.ne_none_iff_exists'.mp h1
    simp [h1e, h12 info h1e]

theorem Ext.trans {s s2 s3 : Mem} (h12 : Ext s s2) (h23 : Ext s2 s3) : Ext s s3 where
  cache := fun key info h => h23.cache key info (h12.cache key info h)
  heap := h12.heap.trans h23.heap
  count := fun ev => by
    rw [h23.count ev, h12.count ev,
      newKey_trans_count s.typeCache s2.typeCache s3.typeCache ev.key (h12.cache ev.key)
        (h23.cache ev.key)]
    omega
  wf := fun h => h23.wf (h12.wf h)
  fresh := fun key info h1 h3 => by
    cases h2 : mapGet s2.typeCache key with
    | some info2 =>
      have := h23.cache key info2 h2
      rw [h3] at this
      cases this
      exact h12.fresh key info h1 h2
    | none =>
      have := h23.fresh key info h2 h3
      have := h12.heap.length_le
      omega

/-! ## Every run extends the memory -/

theorem structFieldsLoop_ext (env : Env) (resolve : Resolver) (hres : Sound resolve)
    (typ : RType) (lastpublic : Nat) (is : List Nat) :
    ∀ (fields : List field) (s : Mem) (r : List field × error) (s2 : Mem),
      structFieldsLoop env resolve typ lastpublic is fields s = .ok (r, s2) → Ext s s2 := by
  induction is with
  | nil =>
    intro fields s r s2 h
    simp only [structFieldsLoop, Run.ok.injEq, Prod.mk.injEq] at h
    rw [← h.2]
    exact Ext.refl s
  | cons i is ih =>
    intro fields s r s2 h
    unfold structFieldsLoop at h
    cases hf : Field env typ i with
    | none => simp [hf] at h
    | some f =>
      simp only [hf] at h
      by_cases hp : f.PkgPath = ""
      · simp only [hp, if_true] at h
        rcases hparse : parseStructTag env typ i lastpublic with _ | ⟨tg, _ | err⟩
        · simp [hparse] at h
        · simp only [hparse] at h
          by_cases hi : tg.ignored = true
          · simp only [hi, if_true] at h
            exact ih fields s r s2 h
          · simp only [hi] at h
            cases hr : resolve f.Typ tg s with
            | ok a =>
              obtain ⟨info, s1⟩ := a
              simp only [hr] at h
              exact (hres _ _ _ _ _ hr).1.trans (ih _ s1 r s2 h)
            | panic => simp [hr] at h
            | outOfFuel => simp [hr] at h
        · simp only [hparse, Run.ok.injEq, Prod.mk.injEq] at h
          rw [← h.2]
          exact Ext.refl s
      · simp only [hp, if_false] at h
        exact ih fields s r s2 h

theorem structFields_ext (env : Env) (resolve : Resolver) (hres : Sound resolve)
    (typ : RType) (s : Mem) (r : List field × error) (s2 : Mem)
    (h : structFields env resolve typ s = .ok (r, s2)) : Ext s s2 := by
  unfold structFields at h
  cases hl : lastPublicField env typ with
  | none => simp [hl] at h
  | some lastpublic =>
    cases hn : NumField env typ with
    | none => simp [hl, hn] at h
    | some n =>
      simp only [hl, hn] at h
      exact structFieldsLoop_ext env resolve hres typ lastpublic _ _ s r s2 h

theorem runGen_ext (env : Env) (resolve : Resolver) (hres : Sound resolve) (b : GenBody) :
    ∀ (s : Mem) (r : Option Nat × error) (s2 : Mem),
      runGen env resolve b s = .ok (r, s2) → Ext s s2 := by
  induction b with
  | ret fn err =>
    intro s r s2 h
    simp only [runGen, Run.ok.injEq, Prod.mk.injEq] at h
    rw [← h.2]
    exact Ext.refl s
  | callCachedTypedInfo1 typ tg k ih =>
    intro s r s2 h
    unfold runGen at h
    cases hr : resolve typ tg s with
    | ok a =>
      obtain ⟨info, s1⟩ := a
      simp only [hr] at h
      exact (hres _ _ _ _ _ hr).1.trans (ih _ _ s1 r s2 h)
    | panic => simp [hr] at h
    | outOfFuel => simp [hr] at h
  | callStructFields typ k ih =>
    intro s r s2 h
    unfold runGen at h
    cases hr : structFields env resolve typ s with
    | ok a =>
      obtain ⟨⟨fields, err⟩, s1⟩ := a
      simp only [hr] at h
      exact (structFields_ext env resolve hres typ s _ s1 hr).trans (ih _ _ _ s1 r s2 h)
    | panic => simp [hr] at h
    | outOfFuel => simp [hr] at h

theorem WF_of_eq (s s2 : Mem) (hc : s2.typeCache = s.typeCache)
    (hl : s2.heap.length = s.heap.length) (h : s.WF) : s2.WF := by
  unfold Mem.WF at *
  rw [hc, hl]
  exact h

theorem event_key_count (ev : Event) (key : typekey) :
    (if Event.generate key = ev then 1 else 0) + (if Event.makeDecoder key = ev then 1 else 0)
      + (if Event.makeWriter key = ev then 1 else 0) = if ev.key = key then 1 else 0 := by
  cases ev with
  | generate k =>
    by_cases h : key = k
    · simp [Event.key, h]
    · have h2 : ¬ k = key := fun e => h e.symm
      simp [Event.key, h, h2]
  | makeDecoder k =>
    by_cases h : key = k
    · simp [Event.key, h]
    · have h2 : ¬ k = key := fun e => h e.symm
      simp [Event.key, h, h2]
  | makeWriter k =>
    by_cases h : key = k
    · simp [Event.key, h]
    · have h2 : ¬ k = key := fun e => h e.symm
      simp [Event.key, h, h2]

/-- What one call of `generate` on the record `i` does to the memory. -/
theorem generate_spec (env : Env) (G : Generators) (resolve : Resolver) (hres : Sound resolve)
    (i : Nat) (typ : RType) (tg : tags) (s1 s3 : Mem)
    (h : generate env G resolve i typ tg s1 = .ok s3) :
    (∀ key info, mapGet s1.typeCache key = some info → mapGet s3.typeCache key = some info) ∧
    (∀ l, l <+: s1.heap → l.length ≤ i → l <+: s3.heap) ∧
    (∀ ev, s3.trace.count ev = s1.trace.count ev + (if ev.key = ⟨typ, tg⟩ then 1 else 0)
      + if newKey s1.typeCache s3.typeCache ev.key then 1 else 0) ∧
    (s1.WF → s3.WF) ∧
    (∀ key info, mapGet s1.typeCache key = none → mapGet s3.typeCache key = some info →
      s1.heap.length ≤ info) ∧
    s1.heap.length ≤ s3.heap.length := by
  unfold generate at h
  simp only at h
  cases h1 : runGen env resolve (G.makeDecoder typ tg)
      ((s1.log (.generate ⟨typ, tg⟩)).log (.makeDecoder ⟨typ, tg⟩)) with
  | panic => simp [h1] at h
  | outOfFuel => simp [h1] at h
  | ok a =>
    obtain ⟨⟨d, e⟩, sa⟩ := a
    simp only [h1] at h
    cases h2 : runGen env resolve (G.makeWriter typ tg)
        ((sa.setDecoder i d e).log (.makeWriter ⟨typ, tg⟩)) with
    | panic => simp [h2] at h
    | outOfFuel => simp [h2] at h
    | ok b =>
      obtain ⟨⟨w, e2⟩, sb⟩ := b
      simp only [h2, Run.ok.injEq] at h
      subst h
      have E1 := runGen_ext env resolve hres _ _ _ _ h1
      have E2 := runGen_ext env resolve hres _ _ _ _ h2
      have c1 := E1.cache
      have c2 := E2.cache
      simp only [Mem.log, Mem.setDecoder] at c1 c2
      have hl1 := E1.heap.length_le
      have hl2 := E2.heap.length_le
      simp only [Mem.log, Mem.setDecoder, modifyAt_length] at hl1 hl2
      refine ⟨?_, ?_, ?_, ?_, ?_, ?_⟩
      · intro key info hk
        exact c2 key info (c1 key info hk)
      · intro l hl hi
        have p1 : l <+: sa.heap := hl.trans E1.heap
        have p2 : l <+: sb.heap :=
          (prefix_modifyAt _ l sa.heap i p1 hi).trans E2.heap
        exact prefix_modifyAt _ l sb.heap i p2 hi
      · intro ev
        have k1 := E1.count ev
        have k2 := E2.count ev
        have kt := newKey_trans_count s1.typeCache sa.typeCache sb.typeCache ev.key
          (c1 ev.key) (c2 ev.key)
        have ke := event_key_count ev ⟨typ, tg⟩
        simp only [Mem.log, Mem.setDecoder, Mem.setWriter, List.count_append, List.count_cons,
          List.count_nil, beq_iff_eq, Nat.zero_add] at k1 k2 ⊢
        omega
      · intro hwf
        have w0 : ((s1.log (.generate ⟨typ, tg⟩)).log (.makeDecoder ⟨typ, tg⟩)).WF :=
          WF_of_eq s1 _ rfl rfl hwf
        have wa := E1.wf w0
        have w2 : ((sa.setDecoder i d e).log (.makeWriter ⟨typ, tg⟩)).WF :=
          WF_of_eq sa _ rfl (by simp [Mem.log, Mem.setDecoder, modifyAt_length]) wa
        have wb := E2.wf w2
        exact WF_of_eq sb _ rfl (by simp [Mem.setWriter, modifyAt_length]) wb
      · intro key info hn hs
        simp only [Mem.setWriter] at hs
        rcases hka : mapGet sa.typeCache key with _ | infoa
        · have := E2.fresh key info hka hs
          simp only [Mem.log, Mem.setDecoder, modifyAt_length] at this
          omega
        · have := c2 key infoa hka
          rw [hs] at this
          cases this
          exact E1.fresh key info hn hka
      · simp only [Mem.setWriter, modifyAt_length]
        omega

theorem cachedTypedInfo1_sound (env : Env) (G : Generators) (fuel : Nat) :
    Sound (cachedTypedInfo1 env G fuel) := by
  induction fuel with
  | zero =>
    intro typ tg s info s2 h
    unfold cachedTypedInfo1 at h
    cases hk : mapGet s.typeCache ⟨typ, tg⟩ with
    | none => simp [hk] at h
    | some p =>
      simp only [hk, Run.ok.injEq, Prod.mk.injEq] at h
      obtain ⟨rfl, rfl⟩ := h
      exact ⟨Ext.refl s, hk⟩
  | succ fuel ih =>
    intro typ tg s info s2 h
    unfold cachedTypedInfo1 at h
    cases hk : mapGet s.typeCache ⟨typ, tg⟩ with
    | some p =>
      simp only [hk, Run.ok.injEq, Prod.mk.injEq] at h
      obtain ⟨rfl, rfl⟩ := h
      exact ⟨Ext.refl s, hk⟩
    | none =>
      simp only [hk] at h
      cases hg : generate env G (cachedTypedInfo1 env G fuel) s.heap.length typ tg
          { s with heap := s.heap ++ [typeinfo.zero],
                   typeCache := mapSet s.typeCache ⟨typ, tg⟩ s.heap.length } with
      | panic => simp [hg] at h
      | outOfFuel => simp [hg] at h
      | ok s3 =>
        simp only [hg, Run.ok.injEq, Prod.mk.injEq] at h
        obtain ⟨rfl, rfl⟩ := h
        obtain ⟨gc, gh, gn, gw, gf, gl⟩ := generate_spec env G _ ih _ typ tg _ _ hg
        simp only at gc gh gn gw gf gl
        have hkey : mapGet s3.typeCache ⟨typ, tg⟩ = some s.heap.length :=
          gc _ _ (by rw [mapGet_mapSet]; simp)
        have hmono : ∀ key info, mapGet s.typeCache key = some info →
            mapGet s3.typeCache key = some info := by
          intro key info hki
          apply gc
          rw [mapGet_mapSet]
          have : (⟨typ, tg⟩ : typekey) ≠ key := by
            intro e
            rw [← e, hk] at hki
            cases hki
          simp [this, hki]
        refine ⟨⟨hmono, ?_, ?_, ?_, ?_⟩, hkey⟩
        · exact gh s.heap (List.prefix_append _ _) (Nat.le_refl _)
        · intro ev
          rw [gn ev]
          by_cases he : ev.key = ⟨typ, tg⟩
          · have n1 : newKey s.typeCache s3.typeCache ⟨typ, tg⟩ :=
              ⟨hk, by rw [hkey]; simp⟩
            have n2 : ¬ newKey (mapSet s.typeCache ⟨typ, tg⟩ s.heap.length) s3.typeCache
                ⟨typ, tg⟩ := by
              intro hn
              have := hn.1
              rw [mapGet_mapSet] at this
              simp at this
            simp only [he, n1, n2, if_true, if_false, Nat.add_zero]
          · have he2 : (⟨typ, tg⟩ : typekey) ≠ ev.key := fun e => he e.symm
            have : newKey (mapSet s.typeCache ⟨typ, tg⟩ s.heap.length) s3.typeCache ev.key ↔
                newKey s.typeCache s3.typeCache ev.key := by
              unfold newKey
              rw [mapGet_mapSet]
              simp [he2]
            simp [he, this]
        · intro hwf
          apply gw
          constructor
          · intro key info hki
            rw [mapGet_mapSet] at hki
            simp only [List.length_append, List.length_singleton]
            by_cases e : (⟨typ, tg⟩ : typekey) = key
            · simp only [e, if_true, Option.some.injEq] at hki
              omega
            · simp only [e, if_false] at hki
              have := hwf.1 key info hki
              omega
          · intro key key2 info h1 h2
            rw [mapGet_mapSet] at h1 h2
            by_cases e1 : (⟨typ, tg⟩ : typekey) = key
            · by_cases e2 : (⟨typ, tg⟩ : typekey) = key2
              · rw [← e1, ← e2]
              · simp only [e1, if_true, Option.some.injEq] at h1
                simp only [e2, if_false] at h2
                have := hwf.1 key2 info h2
                omega
            · by_cases e2 : (⟨typ, tg⟩ : typekey) = key2
              · simp only [e2, if_true, Option.some.injEq] at h2
                simp only [e1, if_false] at h1
                have := hwf.1 key info h1
                omega
              · simp only [e1, if_false] at h1
                simp only [e2, if_false] at h2
                exact hwf.2 key key2 info h1 h2
        · intro key info hn hs
          by_cases e : (⟨typ, tg⟩ : typekey) = key
          · rw [← e, hkey] at hs
            cases hs
            exact Nat.le_refl _
          · have := gf key info (by rw [mapGet_mapSet]; simp [e, hn]) hs
            simp only [List.length_append, List.length_singleton] at this
            omega

theorem prefix_getElem (l m : List typeinfo) (i : Nat) (r : typeinfo) (hp : l <+: m)
    (h : l[i]? = some r) : m[i]? = some r := by
  obtain ⟨t, rfl⟩ := hp
  have hi : i < l.length := by
    rcases Nat.lt_or_ge i l.length with hlt | hge
    · exact hlt
    · rw [List.getElem?_eq_none hge] at h
      cases h
  rw [List.getElem?_append_left hi]
  exact h

theorem getElem_of_lt (l : List typeinfo) (i : Nat) (h : i < l.length) : ∃ r, l[i]? = some r :=
  ⟨l[i], List.getElem?_eq_getElem h⟩

/-- The four slots of the record after `generate`: what the two generators returned. -/
theorem generate_slots (env : Env) (G : Generators) (resolve : Resolver) (hres : Sound resolve)
    (i : Nat) (typ : RType) (tg : tags) (s1 s3 : Mem) (hi : i < s1.heap.length)
    (h : generate env G resolve i typ tg s1 = .ok s3) :
    ∃ d e sa w e2 sb,
      runGen env resolve (G.makeDecoder typ tg)
        ((s1.log (.generate ⟨typ, tg⟩)).log (.makeDecoder ⟨typ, tg⟩)) = .ok ((d, e), sa) ∧
      runGen env resolve (G.makeWriter typ tg)
        ((sa.setDecoder i d e).log (.makeWriter ⟨typ, tg⟩)) = .ok ((w, e2), sb) ∧
      s3 = sb.setWriter i w e2 ∧ s3.deref i = some ⟨d, e, w, e2⟩ := by
  unfold generate at h
  simp only at h
  cases h1 : runGen env resolve (G.makeDecoder typ tg)
      ((s1.log (.generate ⟨typ, tg⟩)).log (.makeDecoder ⟨typ, tg⟩)) with
  | panic => simp [h1] at h
  | outOfFuel => simp [h1] at h
  | ok a =>
    obtain ⟨⟨d, e⟩, sa⟩ := a
    simp only [h1] at h
    cases h2 : runGen env resolve (G.makeWriter typ tg)
        ((sa.setDecoder i d e).log (.makeWriter ⟨typ, tg⟩)) with
    | panic => simp [h2] at h
    | outOfFuel => simp [h2] at h
    | ok b =>
      obtain ⟨⟨w, e2⟩, sb⟩ := b
      simp only [h2, Run.ok.injEq] at h
      subst h
      refine ⟨d, e, sa, w, e2, sb, rfl, h2, rfl, ?_⟩
      have E1 := runGen_ext env resolve hres _ _ _ _ h1
      have E2 := runGen_ext env resolve hres _ _ _ _ h2
      have hl1 := E1.heap.length_le
      simp only [Mem.log] at hl1
      obtain ⟨ra, hra⟩ := getElem_of_lt sa.heap i (by omega)
      have hd : ((sa.setDecoder i d e).log (.makeWriter ⟨typ, tg⟩)).heap[i]? =
          some { ra with decoder := d, decoderErr := e } := by
        simp only [Mem.log, Mem.setDecoder, modifyAt_get, hra, Option.map_some']
      have hb := prefix_getElem _ _ i _ E2.heap hd
      simp only [Mem.deref, Mem.setWriter, modifyAt_get, hb, Option.map_some']

theorem cachedTypeInfo_sound (env : Env) (G : Generators) (fuel : Nat) :
    Sound (cachedTypeInfo env G fuel) := by
  intro typ tg s info s2 h
  unfold cachedTypeInfo at h
  cases hk : mapGet s.typeCache ⟨typ, tg⟩ with
  | some p =>
    simp only [hk, Run.ok.injEq, Prod.mk.injEq] at h
    obtain ⟨rfl, rfl⟩ := h
    exact ⟨Ext.refl s, hk⟩
  | none =>
    simp only [hk] at h
    exact cachedTypedInfo1_sound env G fuel typ tg s info s2 h

theorem cachedTypedInfo1_hit (env : Env) (G : Generators) (fuel : Nat) (typ : RType) (tg : tags)
    (s : Mem) (info : Nat) (h : mapGet s.typeCache ⟨typ, tg⟩ = some info) :
    cachedTypedInfo1 env G fuel typ tg s = .ok (info, s) := by
  cases fuel with
  | zero => simp [cachedTypedInfo1, h]
  | succ n => simp [cachedTypedInfo1, h]

theorem cachedTypeInfo_hit (env : Env) (G : Generators) (fuel : Nat) (typ : RType) (tg : tags)
    (s : Mem) (info : Nat) (h : mapGet s.typeCache ⟨typ, tg⟩ = some info) :
    cachedTypeInfo env G fuel typ tg s = .ok (info, s) := by
  simp [cachedTypeInfo, h]

theorem cachedTypeInfo_miss (env : Env) (G : Generators) (fuel : Nat) (typ : RType) (tg : tags)
    (s : Mem) (h : mapGet s.typeCache ⟨typ, tg⟩ = none) :
    cachedTypeInfo env G fuel typ tg s = cachedTypedInfo1 env G fuel typ tg s := by
  simp [cachedTypeInfo, h]

theorem Mem.init_WF : Mem.init.WF := by
  constructor
  · intro key info h
    simp [Mem.init, mapGet] at h
  · intro key key2 info h
    simp [Mem.init, mapGet] at h

/-- On a miss `cachedTypedInfo1` allocates the record, stores it under the
key and runs `generate` on it. -/
theorem cachedTypedInfo1_miss (env : Env) (G : Generators) (fuel : Nat) (typ : RType)
    (tg : tags) (s : Mem) (info : Nat) (s2 : Mem)
    (hk : mapGet s.typeCache ⟨typ, tg⟩ = none)
    (h : cachedTypedInfo1 env G fuel typ tg s = .ok (info, s2)) :
    ∃ fuel2, fuel = fuel2 + 1 ∧ info = s.heap.length ∧
      generate env G (cachedTypedInfo1 env G fuel2) info typ tg
        { s with heap := s.heap ++ [typeinfo.zero],
                 typeCache := mapSet s.typeCache ⟨typ, tg⟩ s.heap.length } = .ok s2 := by
  cases fuel with
  | zero => simp [cachedTypedInfo1, hk] at h
  | succ n =>
    refine ⟨n, rfl, ?_⟩
    unfold cachedTypedInfo1 at h
    simp only [hk] at h
    cases hg : generate env G (cachedTypedInfo1 env G n) s.heap.length typ tg
        { s with heap := s.heap ++ [typeinfo.zero],
                 typeCache := mapSet s.typeCache ⟨typ, tg⟩ s.heap.length } with
    | panic => simp [hg] at h
    | outOfFuel => simp [hg] at h
    | ok s3 =>
      simp only [hg, Run.ok.injEq, Prod.mk.injEq] at h
      obtain ⟨rfl, rfl⟩ := h
      exact ⟨rfl, hg⟩

/-! ## `cachedDecoder` and `cachedWriter` -/

/-- Whatever the type, the error `cachedDecoder` returns is the `writerErr` slot
of the resolved record. -/
theorem cachedDecoder_error_is_writerErr (env : Env) (G : Generators) (fuel : Nat)
    (typ : RType) (s : Mem) (d : decoder) (e : error) (s1 : Mem)
    (h : cachedDecoder env G fuel typ s = .ok ((d, e), s1)) :
    ∃ info r, cachedTypeInfo env G fuel typ tags.zero s = .ok (info, s1) ∧
      s1.deref info = some r ∧ d = r.decoder ∧ e = r.writerErr := by
  unfold cachedDecoder at h
  cases hc : cachedTypeInfo env G fuel typ tags.zero s with
  | panic => simp [hc] at h
  | outOfFuel => simp [hc] at h
  | ok a =>
    obtain ⟨info, s2⟩ := a
    simp only [hc] at h
    cases hr : s2.deref info with
    | none => simp [hr] at h
    | some r =>
      simp only [hr, Run.ok.injEq, Prod.mk.injEq] at h
      obtain ⟨⟨rfl, rfl⟩, rfl⟩ := h
      exact ⟨info, r, rfl, hr, rfl, rfl⟩

/-- C1, evaluated on the example program. Type `4` has a failing decode
generation and a working write generation: `cachedDecoder` returns the nil
function with no error, although the record holds the decode error. Type `5`
has a working decode generation and a failing write generation:
`cachedDecoder` returns the working decoder together with the write error. -/
theorem cachedDecoder_returns_writerErr_eval :
    cachedDecoder exEnv exGen 1 4 Mem.init = .ok ((none, none), exMem4) ∧
    exMem4.lookup ⟨4, tags.zero⟩ = some 0 ∧
    exMem4.deref 0 =
      some ⟨none, some "rlp: type main.EncodeOnly is not RLP-serializable", some 104, none⟩ ∧
    cachedDecoder exEnv exGen 1 5 Mem.init =
      .ok ((some 105, some "rlp: type main.DecodeOnly is not RLP-serializable"), exMem5) ∧
    exMem5.lookup ⟨5, tags.zero⟩ = some 0 ∧
    exMem5.deref 0 =
      some ⟨some 105, none, none, some "rlp: type main.DecodeOnly is not RLP-serializable"⟩ := by
  decide

/-- C2. When the resolution of `(typ, tags{})` returns the record `info`,
`cachedWriter(typ)` returns the `writer` and `writerErr` slots of that record,
which is the record the cache holds under `(typ, tags{})`. When the key was
not cached before the call, these two values are what `makeWriter(typ, tags{})`
returned. -/
theorem cachedWriter_returns_record (env : Env) (G : Generators) (fuel : Nat) (typ : RType)
    (s : Mem) (info : Nat) (s1 : Mem) (hwf : s.WF)
    (h : cachedTypeInfo env G fuel typ tags.zero s = .ok (info, s1)) :
    ∃ r, s1.lookup ⟨typ, tags.zero⟩ = some info ∧ s1.deref info = some r ∧
      cachedWriter env G fuel typ s = .ok ((r.writer, r.writerErr), s1) ∧
      (s.lookup ⟨typ, tags.zero⟩ = none →
        ∃ fuel2 s2 s3, fuel = fuel2 + 1 ∧
          runGen env (cachedTypedInfo1 env G fuel2) (G.makeWriter typ tags.zero) s2 =
            .ok ((r.writer, r.writerErr), s3)) := by
  obtain ⟨hext, hkey⟩ := cachedTypeInfo_sound env G fuel typ tags.zero s info s1 h
  have hlt := (hext.wf hwf).1 _ _ hkey
  obtain ⟨r, hr⟩ := getElem_of_lt s1.heap info hlt
  refine ⟨r, hkey, hr, ?_, ?_⟩
  · unfold cachedWriter
    simp only [h, Mem.deref, hr]
  · intro hnone
    rw [cachedTypeInfo_miss env G fuel typ tags.zero s hnone] at h
    obtain ⟨fuel2, hf, hinfo, hg⟩ := cachedTypedInfo1_miss env G fuel typ tags.zero s info s1 hnone h
    obtain ⟨d, e, sa, w, e2, sb, _, hw, _, hslots⟩ :=
      generate_slots env G _ (cachedTypedInfo1_sound env G fuel2) info typ tags.zero _ s1
        (by rw [hinfo]; simp) hg
    simp only [Mem.deref] at hslots
    rw [hr] at hslots
    cases hslots
    exact ⟨fuel2, _, sb, hf, hw⟩

/-- C2 on the example program: `cachedWriter` of type `5` from the initial state. -/
theorem cachedWriter_returns_record_witness :
    ∃ r, exMem5.lookup ⟨5, tags.zero⟩ = some 0 ∧ exMem5.deref 0 = some r ∧
      cachedWriter exEnv exGen 1 5 Mem.init = .ok ((r.writer, r.writerErr), exMem5) ∧
      (Mem.init.lookup ⟨5, tags.zero⟩ = none →
        ∃ fuel2 s2 s3, 1 = fuel2 + 1 ∧
          runGen exEnv (cachedTypedInfo1 exEnv exGen fuel2) (exGen.makeWriter 5 tags.zero) s2 =
            .ok ((r.writer, r.writerErr), s3)) :=
  cachedWriter_returns_record exEnv exGen 1 5 Mem.init 0 exMem5 Mem.init_WF (by decide)

/-! ## Memoization -/

theorem count_le_succ_of_ext {s s1 : Mem} (h : Ext s s1) (ev : Event) :
    s1.trace.count ev ≤ s.trace.count ev + 1 := by
  rw [h.count ev]
  split <;> omega

/-- C3. A key that is present is answered from the cache: `cachedTypeInfo` and
`cachedTypedInfo1` return the stored record and the memory (cache, records and
the log of generator calls) is the one they found. Consequently, after any
resolution of a key that returned, a second resolution of the key returns the
same record and changes nothing, and over both resolutions `generate`,
`makeDecoder` and `makeWriter` have been called for the key at most once. -/
theorem memoization (env : Env) (G : Generators) (typ : RType) (tg : tags) :
    (∀ s info, s.lookup ⟨typ, tg⟩ = some info → ∀ fuel,
      cachedTypeInfo env G fuel typ tg s = .ok (info, s) ∧
      cachedTypedInfo1 env G fuel typ tg s = .ok (info, s)) ∧
    (∀ s fuel info s1,
      (cachedTypeInfo env G fuel typ tg s = .ok (info, s1) ∨
        cachedTypedInfo1 env G fuel typ tg s = .ok (info, s1)) →
      (∀ fuel2, cachedTypeInfo env G fuel2 typ tg s1 = .ok (info, s1) ∧
        cachedTypedInfo1 env G fuel2 typ tg s1 = .ok (info, s1)) ∧
      s1.trace.count (.generate ⟨typ, tg⟩) ≤ s.trace.count (.generate ⟨typ, tg⟩) + 1 ∧
      s1.trace.count (.makeDecoder ⟨typ, tg⟩) ≤ s.trace.count (.makeDecoder ⟨typ, tg⟩) + 1 ∧
      s1.trace.count (.makeWriter ⟨typ, tg⟩) ≤ s.trace.count (.makeWriter ⟨typ, tg⟩) + 1) := by
  constructor
  · intro s info hk fuel
    exact ⟨cachedTypeInfo_hit env G fuel typ tg s info hk,
      cachedTypedInfo1_hit env G fuel typ tg s info hk⟩
  · intro s fuel info s1 h
    have hs : Ext s s1 ∧ mapGet s1.typeCache ⟨typ, tg⟩ = some info := by
      rcases h with h | h
      · exact cachedTypeInfo_sound env G fuel typ tg s info s1 h
      · exact cachedTypedInfo1_sound env G fuel typ tg s info s1 h
    refine ⟨fun fuel2 => ⟨cachedTypeInfo_hit env G fuel2 typ tg s1 info hs.2,
      cachedTypedInfo1_hit env G fuel2 typ tg s1 info hs.2⟩, ?_, ?_, ?_⟩
    · exact count_le_succ_of_ext hs.1 _
    · exact count_le_succ_of_ext hs.1 _
    · exact count_le_succ_of_ext hs.1 _

/-- C3 on the example program: type `5` is resolved from the initial state and
then once more. -/
theorem memoization_witness :
    (∀ fuel2, cachedTypeInfo exEnv exGen fuel2 5 tags.zero exMem5 = .ok (0, exMem5) ∧
      cachedTypedInfo1 exEnv exGen fuel2 5 tags.zero exMem5 = .ok (0, exMem5)) ∧
    exMem5.trace.count (.generate ⟨5, tags.zero⟩) ≤
      Mem.init.trace.count (.generate ⟨5, tags.zero⟩) + 1 ∧
    exMem5.trace.count (.makeDecoder ⟨5, tags.zero⟩) ≤
      Mem.init.trace.count (.makeDecoder ⟨5, tags.zero⟩) + 1 ∧
    exMem5.trace.count (.makeWriter ⟨5, tags.zero⟩) ≤
      Mem.init.trace.count (.makeWriter ⟨5, tags.zero⟩) + 1 :=
  (memoization exEnv exGen 5 tags.zero).2 Mem.init 1 0 exMem5 (Or.inl (by decide))

/-! ## Error permanence -/

/-- The part of error permanence that the code has: after a first resolution
of a key that was not cached, every later `cachedTypeInfo` returns the same
record and leaves the memory alone, so the record's slots, errors included,
stay as the first resolution left them; `cachedWriter` returns the record's
`writer` and `writerErr` each time, `cachedDecoder` its `decoder` and, as the
source has it, `writerErr`; and each generator has been called for the key
exactly once more than before the first resolution. -/
theorem error_permanence (env : Env) (G : Generators) (fuel : Nat) (typ : RType) (tg : tags)
    (s : Mem) (info : Nat) (s1 : Mem) (hwf : s.WF) (hk : s.lookup ⟨typ, tg⟩ = none)
    (h : cachedTypeInfo env G fuel typ tg s = .ok (info, s1)) :
    ∃ r, s1.deref info = some r ∧
      (∀ fuel2, cachedTypeInfo env G fuel2 typ tg s1 = .ok (info, s1)) ∧
      s1.trace.count (.generate ⟨typ, tg⟩) = s.trace.count (.generate ⟨typ, tg⟩) + 1 ∧
      s1.trace.count (.makeDecoder ⟨typ, tg⟩) = s.trace.count (.makeDecoder ⟨typ, tg⟩) + 1 ∧
      s1.trace.count (.makeWriter ⟨typ, tg⟩) = s.trace.count (.makeWriter ⟨typ, tg⟩) + 1 ∧
      (tg = tags.zero → ∀ fuel2,
        cachedWriter env G fuel2 typ s1 = .ok ((r.writer, r.writerErr), s1) ∧
        cachedDecoder env G fuel2 typ s1 = .ok ((r.decoder, r.writerErr), s1)) := by
  obtain ⟨hext, hkey⟩ := cachedTypeInfo_sound env G fuel typ tg s info s1 h
  have hlt := (hext.wf hwf).1 _ _ hkey
  obtain ⟨r, hr⟩ := getElem_of_lt s1.heap info hlt
  have hnew : newKey s.typeCache s1.typeCache ⟨typ, tg⟩ := ⟨hk, by rw [hkey]; simp⟩
  refine ⟨r, hr, fun fuel2 => cachedTypeInfo_hit env G fuel2 typ tg s1 info hkey, ?_, ?_, ?_, ?_⟩
  · rw [hext.count]
    simp [Event.key, hnew]
  · rw [hext.count]
    simp [Event.key, hnew]
  · rw [hext.count]
    simp [Event.key, hnew]
  · intro htg fuel2
    subst htg
    have hhit := cachedTypeInfo_hit env G fuel2 typ tags.zero s1 info hkey
    constructor
    · unfold cachedWriter
      simp only [hhit, Mem.deref, hr]
    · unfold cachedDecoder
      simp only [hhit, Mem.deref, hr]

/-- C4, evaluated on the example program. Decode generation fails for type `4`
and the first resolution records the decode error in the record; `generate`
has run once. The second resolution through `cachedDecoder` runs no generator
and returns the nil function with no error: not the error that was recorded. -/
theorem error_permanence_cachedDecoder_eval :
    cachedDecoder exEnv exGen 1 4 Mem.init = .ok ((none, none), exMem4) ∧
    (exMem4.deref 0).map typeinfo.decoderErr =
      some (some "rlp: type main.EncodeOnly is not RLP-serializable") ∧
    cachedTypeInfo exEnv exGen 1 4 tags.zero exMem4 = .ok (0, exMem4) ∧
    cachedDecoder exEnv exGen 1 4 exMem4 = .ok ((none, none), exMem4) ∧
    exMem4.trace.count (.generate ⟨4, tags.zero⟩) = 1 := by
  decide

/-! ## Cycle safety -/

theorem structFieldsLoop_mono (env : Env) (r1 r2 : Resolver) (href : Refines r1 r2)
    (typ : RType) (lastpublic : Nat) (is : List Nat) :
    ∀ (fields : List field) (s : Mem) (res : (List field × error) × Mem),
      structFieldsLoop env r1 typ lastpublic is fields s = .ok res →
      structFieldsLoop env r2 typ lastpublic is fields s = .ok res := by
  induction is with
  | nil =>
    intro fields s res h
    simpa [structFieldsLoop] using h
  | cons i is ih =>
    intro fields s res h
    unfold structFieldsLoop at h ⊢
    cases hf : Field env typ i with
    | none => simp [hf] at h
    | some f =>
      simp only [hf] at h ⊢
      by_cases hp : f.PkgPath = ""
      · simp only [hp, if_true] at h ⊢
        rcases hparse : parseStructTag env typ i lastpublic with _ | ⟨tg, _ | err⟩
        · simp [hparse] at h
        · simp only [hparse] at h ⊢
          by_cases hi : tg.ignored = true
          · simp only [hi, if_true] at h ⊢
            exact ih fields s res h
          · simp only [hi] at h ⊢
            cases hr : r1 f.Typ tg s with
            | ok a =>
              obtain ⟨info, s1⟩ := a
              simp only [hr] at h
              simp only [href _ _ _ _ hr]
              exact ih _ s1 res h
            | panic => simp [hr] at h
            | outOfFuel => simp [hr] at h
        · simpa [hparse] using h
      · simp only [hp, if_false] at h ⊢
        exact ih fields s res h

theorem structFields_mono (env : Env) (r1 r2 : Resolver) (href : Refines r1 r2)
    (typ : RType) (s : Mem) (res : (List field × error) × Mem)
    (h : structFields env r1 typ s = .ok res) : structFields env r2 typ s = .ok res := by
  unfold structFields at h ⊢
  cases hl : lastPublicField env typ with
  | none => simp [hl] at h
  | some lastpublic =>
    cases hn : NumField env typ with
    | none => simp [hl, hn] at h
    | some n =>
      simp only [hl, hn] at h ⊢
      exact structFieldsLoop_mono env r1 r2 href typ lastpublic _ _ s res h

theorem runGen_mono (env : Env) (r1 r2 : Resolver) (href : Refines r1 r2) (b : GenBody) :
    ∀ (s : Mem) (res : (Option Nat × error) × Mem),
      runGen env r1 b s = .ok res → runGen env r2 b s = .ok res := by
  induction b with
  | ret fn err =>
    intro s res h
    simpa [runGen] using h
  | callCachedTypedInfo1 typ tg k ih =>
    intro s res h
    unfold runGen at h ⊢
    cases hr : r1 typ tg s with
    | ok a =>
      obtain ⟨info, s1⟩ := a
      simp only [hr] at h
      simp only [href _ _ _ _ hr]
      exact ih _ _ s1 res h
    | panic => simp [hr] at h
    | outOfFuel => simp [hr] at h
  | callStructFields typ k ih =>
    intro s res h
    unfold runGen at h ⊢
    cases hr : structFields env r1 typ s with
    | ok a =>
      obtain ⟨⟨fields, err⟩, s1⟩ := a
      simp only [hr] at h
      simp only [structFields_mono env r1 r2 href typ s _ hr]
      exact ih _ _ _ s1 res h
    | panic => simp [hr] at h
    | outOfFuel => simp [hr] at h

theorem generate_mono (env : Env) (G : Generators) (r1 r2 : Resolver) (href : Refines r1 r2)
    (i : Nat) (typ : RType) (tg : tags) (s s3 : Mem)
    (h : generate env G r1 i typ tg s = .ok s3) : generate env G r2 i typ tg s = .ok s3 := by
  unfold generate at h ⊢
  simp only at h ⊢
  cases h1 : runGen env r1 (G.makeDecoder typ tg)
      ((s.log (.generate ⟨typ, tg⟩)).log (.makeDecoder ⟨typ, tg⟩)) with
  | panic => simp [h1] at h
  | outOfFuel => simp [h1] at h
  | ok a =>
    obtain ⟨⟨d, e⟩, sa⟩ := a
    simp only [h1] at h
    simp only [runGen_mono env r1 r2 href _ _ _ h1]
    cases h2 : runGen env r1 (G.makeWriter typ tg)
        ((sa.setDecoder i d e).log (.makeWriter ⟨typ, tg⟩)) with
    | panic => simp [h2] at h
    | outOfFuel => simp [h2] at h
    | ok b =>
      obtain ⟨⟨w, e2⟩, sb⟩ := b
      simp only [h2] at h
      simp only [runGen_mono env r1 r2 href _ _ _ h2]
      exact h

/-- More budget does not change an answer. -/
theorem cachedTypedInfo1_fuel_succ (env : Env) (G : Generators) (fuel : Nat) :
    Refines (cachedTypedInfo1 env G fuel) (cachedTypedInfo1 env G (fuel + 1)) := by
  induction fuel with
  | zero =>
    intro typ tg s res h
    cases hk : mapGet s.typeCache ⟨typ, tg⟩ with
    | none => simp [cachedTypedInfo1, hk] at h
    | some info =>
      rw [cachedTypedInfo1_hit env G _ typ tg s info hk] at h ⊢
      exact h
  | succ fuel ih =>
    intro typ tg s res h
    cases hk : mapGet s.typeCache ⟨typ, tg⟩ with
    | some info =>
      rw [cachedTypedInfo1_hit env G _ typ tg s info hk] at h ⊢
      exact h
    | none =>
      obtain ⟨info, s2⟩ := res
      obtain ⟨fuel2, hf, hinfo, hg⟩ := cachedTypedInfo1_miss env G _ typ tg s info s2 hk h
      have hf2 : fuel2 = fuel := by omega
      subst hf2
      have hg2 := generate_mono env G _ _ ih _ typ tg _ s2 hg
      rw [hinfo] at hg2 ⊢
      show cachedTypedInfo1 env G ((fuel2 + 1) + 1) typ tg s = _
      unfold cachedTypedInfo1
      simp only [hk, hg2]

theorem cachedTypedInfo1_fuel_le (env : Env) (G : Generators) (fuel fuel2 : Nat)
    (hle : fuel ≤ fuel2) : Refines (cachedTypedInfo1 env G fuel) (cachedTypedInfo1 env G fuel2) := by
  induction fuel2 with
  | zero =>
    have : fuel = 0 := by omega
    subst this
    exact fun _ _ _ _ h => h
  | succ m ih =>
    rcases Nat.lt_or_ge fuel (m + 1) with hlt | hge
    · intro typ tg s res h
      exact cachedTypedInfo1_fuel_succ env G m typ tg s res (ih (by omega) typ tg s res h)
    · have : fuel = m + 1 := by omega
      subst this
      exact fun _ _ _ _ h => h

theorem mem_allTags (tg : tags) : tg ∈ allTags := by
  obtain ⟨a, b, c⟩ := tg
  cases a <;> cases b <;> cases c <;> simp [allTags]

theorem mem_keysOf (U : List RType) (typ : RType) (tg : tags) (h : typ ∈ U) :
    (⟨typ, tg⟩ : typekey) ∈ keysOf U := by
  unfold keysOf
  rw [List.mem_flatMap]
  exact ⟨typ, h, List.mem_map.mpr ⟨tg, mem_allTags tg, rfl⟩⟩

theorem absent_mono (U : List RType) (c c2 : List (typekey × Nat))
    (h : ∀ key info, mapGet c key = some info → mapGet c2 key = some info) :
    absent U c2 ≤ absent U c := by
  unfold absent
  apply List.countP_mono_left
  intro key _ hk
  simp only [decide_eq_true_eq] at hk ⊢
  rcases hc : mapGet c key with _ | info
  · rfl
  · rw [h key info hc] at hk
    cases hk

theorem countP_lt_of_mem {α : Type} (l : List α) (p q : α → Bool)
    (hqp : ∀ x ∈ l, q x = true → p x = true) (a : α) (ha : a ∈ l) (hpa : p a = true)
    (hqa : q a = false) : l.countP q < l.countP p := by
  induction l with
  | nil => cases ha
  | cons x xs ih =>
    have hle : xs.countP q ≤ xs.countP p :=
      List.countP_mono_left (fun y hy => hqp y (List.mem_cons_of_mem x hy))
    rcases List.mem_cons.mp ha with rfl | hmem
    · simp only [List.countP_cons, hpa, hqa, if_true]
      simp only [Bool.false_eq_true, if_false]
      omega
    · have := ih (fun y hy => hqp y (List.mem_cons_of_mem x hy)) hmem
      have hx := hqp x (List.mem_cons_self x xs)
      simp only [List.countP_cons]
      by_cases hq : q x = true
      · simp only [hq, hx hq, if_true]
        omega
      · by_cases hp : p x = true
        · simp only [hq, hp, if_true, if_false, Bool.false_eq_true]
          omega
        · simp only [hq, hp, if_false, Bool.false_eq_true]
          omega

theorem absent_mapSet (U : List RType) (c : List (typekey × Nat)) (typ : RType) (tg : tags) (v : Nat)
    (hlt : typ ∈ U) (hk : mapGet c ⟨typ, tg⟩ = none) :
    absent U (mapSet c ⟨typ, tg⟩ v) < absent U c := by
  unfold absent
  apply countP_lt_of_mem _ _ _ _ ⟨typ, tg⟩ (mem_keysOf U typ tg hlt)
  · simp [hk]
  · simp [mapGet_mapSet]
  · intro key _ hq
    simp only [decide_eq_true_eq, mapGet_mapSet] at hq ⊢
    by_cases e : (⟨typ, tg⟩ : typekey) = key
    · simp [e] at hq
    · simpa [e] using hq

theorem Field_some (env : Env) (typ : RType) (i : Nat)
    (hs : (env.rtype typ).kind = Kind.Struct) (hi : i < (env.rtype typ).fields.length) :
    ∃ f, Field env typ i = some f ∧ f ∈ (env.rtype typ).fields := by
  refine ⟨(env.rtype typ).fields[i], ?_, List.getElem_mem hi⟩
  simp [Field, hs, List.getElem?_eq_getElem hi]

theorem lastPublicFieldLoop_some (env : Env) (typ : RType)
    (hs : (env.rtype typ).kind = Kind.Struct) (is : List Nat)
    (his : ∀ i ∈ is, i < (env.rtype typ).fields.length) :
    ∀ last, ∃ l, lastPublicFieldLoop env typ is last = some l := by
  induction is with
  | nil => exact fun last => ⟨last, rfl⟩
  | cons i is ih =>
    intro last
    obtain ⟨f, hf, _⟩ := Field_some env typ i hs (his i (List.mem_cons_self i is))
    have ih2 := ih (fun j hj => his j (List.mem_cons_of_mem i hj))
    unfold lastPublicFieldLoop
    simp only [hf]
    split
    · exact ih2 i
    · exact ih2 last

theorem lastPublicField_some (env : Env) (typ : RType)
    (hs : (env.rtype typ).kind = Kind.Struct) : ∃ l, lastPublicField env typ = some l := by
  unfold lastPublicField NumField
  simp only [hs, if_true]
  exact lastPublicFieldLoop_some env typ hs _ (fun i hi => List.mem_range.mp hi) 0

theorem structFieldsLoop_total (env : Env) (U : List RType) (m : Nat) (resolve : Resolver)
    (hsound : Sound resolve) (htotal : TotalOn U m resolve) (hclosed : ClosedTypes env U)
    (typ : RType) (hlt : typ ∈ U) (hs : (env.rtype typ).kind = Kind.Struct)
    (lastpublic : Nat) (is : List Nat) (his : ∀ i ∈ is, i < (env.rtype typ).fields.length) :
    ∀ (fields : List field) (s : Mem), absent U s.typeCache ≤ m →
      ∃ r s2, structFieldsLoop env resolve typ lastpublic is fields s = .ok (r, s2) := by
  induction is with
  | nil => exact fun fields s _ => ⟨(fields, none), s, rfl⟩
  | cons i is ih =>
    intro fields s hm
    obtain ⟨f, hf, hmem⟩ := Field_some env typ i hs (his i (List.mem_cons_self i is))
    have ih2 := ih (fun j hj => his j (List.mem_cons_of_mem i hj))
    unfold structFieldsLoop
    simp only [hf]
    by_cases hp : f.PkgPath = ""
    · simp only [hp, if_true]
      have hparse : parseStructTag env typ i lastpublic =
          some (parseStructTagLoop env typ f i lastpublic (Split f.Tag ',') tags.zero) := by
        simp [parseStructTag, hf]
      rcases hres : parseStructTagLoop env typ f i lastpublic (Split f.Tag ',') tags.zero with
        ⟨tg, _ | err⟩
      · simp only [hparse, hres]
        by_cases hi : tg.ignored = true
        · simp only [hi, if_true]
          exact ih2 fields s hm
        · simp only [hi]
          obtain ⟨info, s1, hr⟩ := htotal f.Typ tg s (hclosed typ hlt f hmem) hm
          simp only [hr]
          have hext := (hsound _ _ _ _ _ hr).1
          exact ih2 _ s1 (Nat.le_trans (absent_mono U _ _ hext.cache) hm)
      · simp only [hparse, hres]
        exact ⟨_, _, rfl⟩
    · simp only [hp, if_false]
      exact ih2 fields s hm

theorem structFields_total (env : Env) (U : List RType) (m : Nat) (resolve : Resolver)
    (hsound : Sound resolve) (htotal : TotalOn U m resolve) (hclosed : ClosedTypes env U)
    (typ : RType) (hlt : typ ∈ U) (hs : (env.rtype typ).kind = Kind.Struct) (s : Mem)
    (hm : absent U s.typeCache ≤ m) :
    ∃ r s2, structFields env resolve typ s = .ok (r, s2) := by
  obtain ⟨l, hl⟩ := lastPublicField_some env typ hs
  unfold structFields
  simp only [hl, NumField, hs, if_true]
  exact structFieldsLoop_total env U m resolve hsound htotal hclosed typ hlt hs l _
    (fun i hi => List.mem_range.mp hi) [] s hm

theorem runGen_total (env : Env) (U : List RType) (m : Nat) (resolve : Resolver)
    (hsound : Sound resolve) (htotal : TotalOn U m resolve) (hclosed : ClosedTypes env U)
    (b : GenBody) :
    Within env U b → ∀ s : Mem, absent U s.typeCache ≤ m →
      ∃ r s2, runGen env resolve b s = .ok (r, s2) := by
  induction b with
  | ret fn err => exact fun _ s _ => ⟨(fn, err), s, rfl⟩
  | callCachedTypedInfo1 typ tg k ih =>
    intro hw s hm
    obtain ⟨hlt, hk⟩ := hw
    obtain ⟨info, s1, hr⟩ := htotal typ tg s hlt hm
    have hext := (hsound _ _ _ _ _ hr).1
    unfold runGen
    simp only [hr]
    exact ih info s1.heap (hk info s1.heap) s1 (Nat.le_trans (absent_mono U _ _ hext.cache) hm)
  | callStructFields typ k ih =>
    intro hw s hm
    obtain ⟨hlt, hs, hk⟩ := hw
    obtain ⟨⟨fields, err⟩, s1, hr⟩ :=
      structFields_total env U m resolve hsound htotal hclosed typ hlt hs s hm
    have hext := structFields_ext env resolve hsound typ s _ s1 hr
    unfold runGen
    simp only [hr]
    exact ih fields err s1.heap (hk fields err s1.heap) s1
      (Nat.le_trans (absent_mono U _ _ hext.cache) hm)

theorem generate_total (env : Env) (U : List RType) (m : Nat) (G : Generators) (resolve : Resolver)
    (hsound : Sound resolve) (htotal : TotalOn U m resolve) (hclosed : ClosedTypes env U)
    (i : Nat) (typ : RType) (tg : tags)
    (hd : Within env U (G.makeDecoder typ tg)) (hw : Within env U (G.makeWriter typ tg))
    (s : Mem) (hm : absent U s.typeCache ≤ m) :
    ∃ s3, generate env G resolve i typ tg s = .ok s3 := by
  unfold generate
  simp only
  obtain ⟨⟨d, e⟩, sa, h1⟩ := runGen_total env U m resolve hsound htotal hclosed _ hd
    ((s.log (.generate ⟨typ, tg⟩)).log (.makeDecoder ⟨typ, tg⟩)) hm
  have hext := runGen_ext env resolve hsound _ _ _ _ h1
  have hma : absent U sa.typeCache ≤ m := Nat.le_trans (absent_mono U _ _ hext.cache) hm
  obtain ⟨⟨w, e2⟩, sb, h2⟩ := runGen_total env U m resolve hsound htotal hclosed _ hw
    ((sa.setDecoder i d e).log (.makeWriter ⟨typ, tg⟩)) hma
  simp only [h1, h2]
  exact ⟨_, rfl⟩

theorem cachedTypedInfo1_total (env : Env) (U : List RType) (G : Generators)
    (hclosed : ClosedTypes env U)
    (hG : ∀ typ tg, typ ∈ U →
      Within env U (G.makeDecoder typ tg) ∧ Within env U (G.makeWriter typ tg))
    (fuel : Nat) : TotalOn U fuel (cachedTypedInfo1 env G fuel) := by
  induction fuel with
  | zero =>
    intro typ tg s hlt hm
    rcases hk : mapGet s.typeCache ⟨typ, tg⟩ with _ | info
    · have := absent_mapSet U s.typeCache typ tg 0 hlt hk
      omega
    · exact ⟨info, s, cachedTypedInfo1_hit env G 0 typ tg s info hk⟩
  | succ fuel ih =>
    intro typ tg s hlt hm
    rcases hk : mapGet s.typeCache ⟨typ, tg⟩ with _ | info
    · have hdec := absent_mapSet U s.typeCache typ tg s.heap.length hlt hk
      obtain ⟨s3, hg⟩ := generate_total env U fuel G _ (cachedTypedInfo1_sound env G fuel) ih
        hclosed s.heap.length typ tg (hG typ tg hlt).1 (hG typ tg hlt).2
        { s with heap := s.heap ++ [typeinfo.zero],
                 typeCache := mapSet s.typeCache ⟨typ, tg⟩ s.heap.length } (by simp only; omega)
      refine ⟨s.heap.length, s3, ?_⟩
      unfold cachedTypedInfo1
      simp only [hk, hg]
    · exact ⟨info, s, cachedTypedInfo1_hit env G _ typ tg s info hk⟩

theorem absent_le (U : List RType) (c : List (typekey × Nat)) :
    absent U c ≤ 8 * U.length := by
  unfold absent
  refine Nat.le_trans (List.countP_le_length _) ?_
  unfold keysOf
  induction U with
  | nil => simp
  | cons typ U ih =>
    rw [List.flatMap_cons, List.length_append, List.length_map, List.length_cons]
    have : allTags.length = 8 := rfl
    omega

/-- C5. Let `U` be a finite set of types closed under taking field types
(fields may refer to their own type or to each other in any way), and let the
generators stay within it: for a type of `U` they resolve only types of `U`
through `cachedTypedInfo1` and enumerate fields, through `structFields`, of
struct types of `U` only. Then resolving any type of `U`, with any options and
from any memory, returns: there is a record and a final memory that
`cachedTypedInfo1` yields for every budget from `8 * U.length` on (`U` has
that many keys). The key is then cached under the returned record, and for
every key `generate` has been called once if the resolution added the key to
the cache and not at all otherwise. -/
theorem cycle_safety (env : Env) (U : List RType) (G : Generators)
    (hclosed : ClosedTypes env U)
    (hG : ∀ typ tg, typ ∈ U →
      Within env U (G.makeDecoder typ tg) ∧ Within env U (G.makeWriter typ tg))
    (typ : RType) (tg : tags) (hlt : typ ∈ U) (s : Mem) :
    ∃ info s2,
      (∀ fuel, 8 * U.length ≤ fuel →
        cachedTypedInfo1 env G fuel typ tg s = .ok (info, s2)) ∧
      s2.lookup ⟨typ, tg⟩ = some info ∧
      ∀ key, s2.trace.count (.generate key) =
        s.trace.count (.generate key) +
          if s.lookup key = none ∧ s2.lookup key ≠ none then 1 else 0 := by
  obtain ⟨info, s2, h⟩ :=
    cachedTypedInfo1_total env U G hclosed hG (8 * U.length) typ tg s hlt (absent_le U _)
  obtain ⟨hext, hkey⟩ := cachedTypedInfo1_sound env G _ typ tg s info s2 h
  refine ⟨info, s2, ?_, hkey, ?_⟩
  · intro fuel hle
    exact cachedTypedInfo1_fuel_le env G _ fuel hle typ tg s _ h
  · intro key
    exact hext.count (.generate key)

theorem exEnv_closed : ClosedTypes exEnv (List.range 12) := by
  unfold ClosedTypes
  decide

theorem exFinish_within (typ : RType) (e : error) : Within exEnv (List.range 12) (exFinish typ e) := by
  cases e <;> simp [exFinish, Within]

theorem exBody_within (err : typeinfo → error) (unsupported : RType) (typ : RType)
    (hlt : typ ∈ List.range 12) : Within exEnv (List.range 12) (exBody err unsupported typ) := by
  rw [List.mem_range] at hlt
  interval_cases typ <;> simp only [exBody, exEnv, exElem] <;>
    first
    | exact ⟨by decide, rfl, fun _ e _ => exFinish_within _ e⟩
    | exact ⟨by decide, fun _ _ => exFinish_within _ _⟩
    | (split <;> simp [Within])

theorem exGen_within (typ : RType) (tg : tags) (hlt : typ ∈ List.range 12) :
    Within exEnv (List.range 12) (exGen.makeDecoder typ tg) ∧ Within exEnv (List.range 12) (exGen.makeWriter typ tg) :=
  ⟨exBody_within _ _ typ hlt, exBody_within _ _ typ hlt⟩

/-- C5 on the example program: resolving `Node`, whose field `Next` has the
type `*Node`, which in turn resolves `Node`. -/
theorem cycle_safety_witness :
    ∃ info s2,
      (∀ fuel, 8 * (List.range 12).length ≤ fuel →
        cachedTypedInfo1 exEnv exGen fuel 0 tags.zero Mem.init = .ok (info, s2)) ∧
      s2.lookup ⟨0, tags.zero⟩ = some info ∧
      ∀ key, s2.trace.count (.generate key) =
        Mem.init.trace.count (.generate key) +
          if Mem.init.lookup key = none ∧ s2.lookup key ≠ none then 1 else 0 :=
  cycle_safety exEnv (List.range 12) exGen exEnv_closed (fun typ tg h => exGen_within typ tg h) 0 tags.zero
    (by decide) Mem.init

/-! ## `parseStructTag` -/

theorem parseStructTag_eq (env : Env) (typ : RType) (fi lastPublic : Nat) (f : StructField)
    (hf : Field env typ fi = some f) :
    parseStructTag env typ fi lastPublic =
      some (parseStructTagLoop env typ f fi lastPublic (Split f.Tag ',') tags.zero) := by
  simp [parseStructTag, hf]

theorem loop_cons_empty (env : Env) (typ : RType) (f : StructField) (fi lastPublic : Nat)
    (t : String) (rest : List String) (ts : tags) (h : TrimSpace t = "") :
    parseStructTagLoop env typ f fi lastPublic (t :: rest) ts =
      parseStructTagLoop env typ f fi lastPublic rest ts := by
  simp [parseStructTagLoop, h]

theorem loop_cons_dash (env : Env) (typ : RType) (f : StructField) (fi lastPublic : Nat)
    (t : String) (rest : List String) (ts : tags) (h : TrimSpace t = "-") :
    parseStructTagLoop env typ f fi lastPublic (t :: rest) ts =
      parseStructTagLoop env typ f fi lastPublic rest { ts with ignored := true } := by
  have h1 : ("-" : String) ≠ "" := by decide
  simp [parseStructTagLoop, h, h1]

theorem loop_cons_nil (env : Env) (typ : RType) (f : StructField) (fi lastPublic : Nat)
    (t : String) (rest : List String) (ts : tags) (h : TrimSpace t = "nil") :
    parseStructTagLoop env typ f fi lastPublic (t :: rest) ts =
      parseStructTagLoop env typ f fi lastPublic rest { ts with nilOK := true } := by
  have h1 : ("nil" : String) ≠ "" := by decide
  have h2 : ("nil" : String) ≠ "-" := by decide
  simp [parseStructTagLoop, h, h1, h2]

theorem loop_cons_tail (env : Env) (typ : RType) (f : StructField) (fi lastPublic : Nat)
    (t : String) (rest : List String) (ts : tags) (h : TrimSpace t = "tail") :
    parseStructTagLoop env typ f fi lastPublic (t :: rest) ts =
      if fi ≠ lastPublic then ({ ts with tail := true }, some (errTailNotLast env typ f))
      else if (env.rtype f.Typ).kind ≠ Kind.Slice then
        ({ ts with tail := true }, some (errTailNotSlice env typ f))
      else parseStructTagLoop env typ f fi lastPublic rest { ts with tail := true } := by
  have h1 : ("tail" : String) ≠ "" := by decide
  have h2 : ("tail" : String) ≠ "-" := by decide
  have h3 : ("tail" : String) ≠ "nil" := by decide
  simp [parseStructTagLoop, h, h1, h2, h3]

theorem loop_cons_unknown (env : Env) (typ : RType) (f : StructField) (fi lastPublic : Nat)
    (t : String) (rest : List String) (ts : tags) (h : ¬ validToken (TrimSpace t)) :
    parseStructTagLoop env typ f fi lastPublic (t :: rest) ts =
      (ts, some (errUnknownTag env typ f (TrimSpace t))) := by
  unfold validToken at h
  simp only [not_or] at h
  obtain ⟨h1, h2, h3, h4⟩ := h
  simp [parseStructTagLoop, h1, h2, h3, h4]

/-- The loop on a list of tokens that are all accepted and, when `tail` is
among them, stand on a last field of slice kind: every token sets its flag. -/
theorem loop_valid (env : Env) (typ : RType) (f : StructField) (fi lastPublic : Nat)
    (toks : List String) :
    ∀ ts : tags,
      (∀ t ∈ toks, validToken (TrimSpace t)) →
      ((∃ t ∈ toks, TrimSpace t = "tail") →
        fi = lastPublic ∧ (env.rtype f.Typ).kind = Kind.Slice) →
      parseStructTagLoop env typ f fi lastPublic toks ts =
        (⟨ts.nilOK || toks.any (fun t => decide (TrimSpace t = "nil")),
          ts.tail || toks.any (fun t => decide (TrimSpace t = "tail")),
          ts.ignored || toks.any (fun t => decide (TrimSpace t = "-"))⟩, none) := by
  induction toks with
  | nil =>
    intro ts _ _
    simp [parseStructTagLoop]
  | cons t rest ih =>
    intro ts hv ht
    have hrest : ∀ t2 ∈ rest, validToken (TrimSpace t2) :=
      fun t2 h2 => hv t2 (List.mem_cons_of_mem t h2)
    have htrest : (∃ t2 ∈ rest, TrimSpace t2 = "tail") →
        fi = lastPublic ∧ (env.rtype f.Typ).kind = Kind.Slice :=
      fun ⟨t2, h2, h3⟩ => ht ⟨t2, List.mem_cons_of_mem t h2, h3⟩
    have e1 : ("" : String) ≠ "nil" := by decide
    have e2 : ("" : String) ≠ "tail" := by decide
    have e3 : ("" : String) ≠ "-" := by decide
    have e4 : ("-" : String) ≠ "nil" := by decide
    have e5 : ("-" : String) ≠ "tail" := by decide
    have e6 : ("nil" : String) ≠ "tail" := by decide
    have e7 : ("nil" : String) ≠ "-" := by decide
    have e8 : ("tail" : String) ≠ "nil" := by decide
    have e9 : ("tail" : String) ≠ "-" := by decide
    rcases hv t (List.mem_cons_self t rest) with h | h | h | h
    · rw [loop_cons_empty env typ f fi lastPublic t rest ts h, ih ts hrest htrest]
      simp [List.any_cons, h, e1, e2, e3]
    · rw [loop_cons_dash env typ f fi lastPublic t rest ts h, ih _ hrest htrest]
      simp [List.any_cons, h, e4, e5]
    · rw [loop_cons_nil env typ f fi lastPublic t rest ts h, ih _ hrest htrest]
      simp [List.any_cons, h, e6, e7]
    · obtain ⟨hfi, hk⟩ := ht ⟨t, List.mem_cons_self t rest, h⟩
      rw [loop_cons_tail env typ f fi lastPublic t rest ts h, ih _ hrest htrest]
      simp [List.any_cons, h, e8, e9, hfi, hk]

/-- When the loop ends without an error, every token was accepted and a `tail`
token stood on a last field of slice kind. -/
theorem loop_ok_valid (env : Env) (typ : RType) (f : StructField) (fi lastPublic : Nat)
    (toks : List String) :
    ∀ ts : tags,
      (parseStructTagLoop env typ f fi lastPublic toks ts).2 = none →
      (∀ t ∈ toks, validToken (TrimSpace t)) ∧
      ((∃ t ∈ toks, TrimSpace t = "tail") →
        fi = lastPublic ∧ (env.rtype f.Typ).kind = Kind.Slice) := by
  induction toks with
  | nil =>
    intro ts _
    simp
  | cons t rest ih =>
    intro ts hok
    by_cases hv : validToken (TrimSpace t)
    · have key : ∀ ts2, (parseStructTagLoop env typ f fi lastPublic rest ts2).2 = none →
          (TrimSpace t = "tail" → fi = lastPublic ∧ (env.rtype f.Typ).kind = Kind.Slice) →
          (∀ t2 ∈ t :: rest, validToken (TrimSpace t2)) ∧
          ((∃ t2 ∈ t :: rest, TrimSpace t2 = "tail") →
            fi = lastPublic ∧ (env.rtype f.Typ).kind = Kind.Slice) := by
        intro ts2 h2 htl
        obtain ⟨a, b⟩ := ih ts2 h2
        refine ⟨?_, ?_⟩
        · intro t2 hmem
          rcases List.mem_cons.mp hmem with rfl | hm
          · exact hv
          · exact a t2 hm
        · rintro ⟨t2, hmem, h3⟩
          rcases List.mem_cons.mp hmem with rfl | hm
          · exact htl h3
          · exact b ⟨t2, hm, h3⟩
      rcases hv with h | h | h | h
      · rw [loop_cons_empty env typ f fi lastPublic t rest ts h] at hok
        exact key ts hok (fun h2 => by rw [h] at h2; exact absurd h2 (by decide))
      · rw [loop_cons_dash env typ f fi lastPublic t rest ts h] at hok
        exact key _ hok (fun h2 => by rw [h] at h2; exact absurd h2 (by decide))
      · rw [loop_cons_nil env typ f fi lastPublic t rest ts h] at hok
        exact key _ hok (fun h2 => by rw [h] at h2; exact absurd h2 (by decide))
      · rw [loop_cons_tail env typ f fi lastPublic t rest ts h] at hok
        by_cases hfi : fi = lastPublic
        · by_cases hk : (env.rtype f.Typ).kind = Kind.Slice
          · simp only [hfi, hk, ne_eq, not_true_eq_false, if_false] at hok
            exact key _ (by rw [hfi]; exact hok) (fun _ => ⟨hfi, hk⟩)
          · simp [hfi, hk] at hok
        · simp [hfi] at hok
    · rw [loop_cons_unknown env typ f fi lastPublic t rest ts hv] at hok
      simp at hok

/-- Accepted tokens in front of the rest of a directive only set flags. -/
theorem loop_append_valid (env : Env) (typ : RType) (f : StructField) (fi lastPublic : Nat)
    (pre rest : List String) :
    ∀ ts : tags,
      (∀ t ∈ pre, validToken (TrimSpace t)) →
      ((∃ t ∈ pre, TrimSpace t = "tail") →
        fi = lastPublic ∧ (env.rtype f.Typ).kind = Kind.Slice) →
      ∃ ts2, parseStructTagLoop env typ f fi lastPublic (pre ++ rest) ts =
        parseStructTagLoop env typ f fi lastPublic rest ts2 := by
  induction pre with
  | nil => exact fun ts _ _ => ⟨ts, rfl⟩
  | cons t pre ih =>
    intro ts hv ht
    have hrest : ∀ t2 ∈ pre, validToken (TrimSpace t2) :=
      fun t2 h2 => hv t2 (List.mem_cons_of_mem t h2)
    have htrest : (∃ t2 ∈ pre, TrimSpace t2 = "tail") →
        fi = lastPublic ∧ (env.rtype f.Typ).kind = Kind.Slice :=
      fun ⟨t2, h2, h3⟩ => ht ⟨t2, List.mem_cons_of_mem t h2, h3⟩
    rw [List.cons_append]
    rcases hv t (List.mem_cons_self t pre) with h | h | h | h
    · rw [loop_cons_empty env typ f fi lastPublic t _ ts h]
      exact ih ts hrest htrest
    · rw [loop_cons_dash env typ f fi lastPublic t _ ts h]
      exact ih _ hrest htrest
    · rw [loop_cons_nil env typ f fi lastPublic t _ ts h]
      exact ih _ hrest htrest
    · obtain ⟨hfi, hk⟩ := ht ⟨t, List.mem_cons_self t pre, h⟩
      rw [loop_cons_tail env typ f fi lastPublic t _ ts h]
      simp only [hk, ne_eq, not_true_eq_false, if_false, hfi]
      have := ih { ts with tail := true } hrest htrest
      rw [hfi] at this
      exact this

/-- A `tail` token among accepted tokens, on a field that is not the last one
or not of slice kind, makes the loop fail at the first `tail` token. -/
theorem loop_tail_fail (env : Env) (typ : RType) (f : StructField) (fi lastPublic : Nat)
    (toks : List String) :
    ∀ ts : tags,
      (∀ t ∈ toks, validToken (TrimSpace t)) →
      (∃ t ∈ toks, TrimSpace t = "tail") →
      ¬ (fi = lastPublic ∧ (env.rtype f.Typ).kind = Kind.Slice) →
      ∃ ts2, ts2.tail = true ∧
        parseStructTagLoop env typ f fi lastPublic toks ts =
          (ts2, some (if fi ≠ lastPublic then errTailNotLast env typ f
            else errTailNotSlice env typ f)) := by
  induction toks with
  | nil =>
    rintro ts _ ⟨t, hm, _⟩ _
    cases hm
  | cons t rest ih =>
    intro ts hv ht hbad
    have hrest : ∀ t2 ∈ rest, validToken (TrimSpace t2) :=
      fun t2 h2 => hv t2 (List.mem_cons_of_mem t h2)
    have htrest : TrimSpace t ≠ "tail" → ∃ t2 ∈ rest, TrimSpace t2 = "tail" := by
      intro hne
      obtain ⟨t2, hm, h2⟩ := ht
      rcases List.mem_cons.mp hm with rfl | hm2
      · exact absurd h2 hne
      · exact ⟨t2, hm2, h2⟩
    rcases hv t (List.mem_cons_self t rest) with h | h | h | h
    · rw [loop_cons_empty env typ f fi lastPublic t _ ts h]
      exact ih ts hrest (htrest (by rw [h]; decide)) hbad
    · rw [loop_cons_dash env typ f fi lastPublic t _ ts h]
      exact ih _ hrest (htrest (by rw [h]; decide)) hbad
    · rw [loop_cons_nil env typ f fi lastPublic t _ ts h]
      exact ih _ hrest (htrest (by rw [h]; decide)) hbad
    · rw [loop_cons_tail env typ f fi lastPublic t _ ts h]
      by_cases hfi : fi = lastPublic
      · have hk : (env.rtype f.Typ).kind ≠ Kind.Slice := fun hk => hbad ⟨hfi, hk⟩
        exact ⟨{ ts with tail := true }, rfl, by simp [hfi, hk]⟩
      · exact ⟨{ ts with tail := true }, rfl, by simp [hfi]⟩

theorem mem_tokens (directive t : String) :
    t ∈ tokens directive ↔ ∃ u ∈ Split directive ',', TrimSpace u = t := by
  simp [tokens, List.mem_map]

theorem any_token (directive t : String) :
    (Split directive ',').any (fun u => decide (TrimSpace u = t)) = true ↔
      t ∈ tokens directive := by
  simp [tokens, List.any_eq_true, List.mem_map]

/-- C6. Let the directive of field `fi` consist of accepted tokens, `tail`
among them. Then `parseStructTag` fails with the error of line 112 when
`fi != lastPublic`, fails with the error of line 115 when `fi == lastPublic`
and the field's kind is not `reflect.Slice`, and returns no error when
`fi == lastPublic` and the kind is `reflect.Slice`; the returned options have
`tail = true`. -/
theorem tail_validation (env : Env) (typ : RType) (fi lastPublic : Nat) (f : StructField)
    (hf : Field env typ fi = some f)
    (hvalid : ∀ t ∈ tokens f.Tag, validToken t) (htail : "tail" ∈ tokens f.Tag) :
    ∃ ts err, parseStructTag env typ fi lastPublic = some (ts, err) ∧ ts.tail = true ∧
      (fi ≠ lastPublic → err = some (errTailNotLast env typ f)) ∧
      (fi = lastPublic → (env.rtype f.Typ).kind ≠ Kind.Slice →
        err = some (errTailNotSlice env typ f)) ∧
      (fi = lastPublic → (env.rtype f.Typ).kind = Kind.Slice → err = none) := by
  rw [parseStructTag_eq env typ fi lastPublic f hf]
  have hv : ∀ t ∈ Split f.Tag ',', validToken (TrimSpace t) :=
    fun t ht => hvalid _ ((mem_tokens _ _).mpr ⟨t, ht, rfl⟩)
  have ht : ∃ t ∈ Split f.Tag ',', TrimSpace t = "tail" := (mem_tokens _ _).mp htail
  by_cases hgood : fi = lastPublic ∧ (env.rtype f.Typ).kind = Kind.Slice
  · have h := loop_valid env typ f fi lastPublic _ tags.zero hv (fun _ => hgood)
    refine ⟨_, _, congrArg some h, ?_, ?_, ?_, ?_⟩
    · simp only [tags.zero, Bool.false_or]
      exact (any_token _ _).mpr htail
    · exact fun hne => absurd hgood.1 hne
    · exact fun _ hne => absurd hgood.2 hne
    · exact fun _ _ => rfl
  · obtain ⟨ts2, htl, h⟩ := loop_tail_fail env typ f fi lastPublic _ tags.zero hv ht hgood
    refine ⟨_, _, congrArg some h, htl, ?_, ?_, ?_⟩
    · intro hne
      simp [hne]
    · intro he _
      simp [he]
    · exact fun he hk => absurd ⟨he, hk⟩ hgood

/-- C6 on the example program: `tail` on the first of three fields, on a last
field of kind `uint`, and on the last field `Rest []uint` of `Node`. -/
theorem tail_validation_witness :
    (∃ ts err, parseStructTag exEnv 7 0 2 = some (ts, err) ∧ ts.tail = true ∧
      ((0 : Nat) ≠ 2 → err = some (errTailNotLast exEnv 7 ⟨"A", "", 2, "tail"⟩)) ∧
      ((0 : Nat) = 2 → (exEnv.rtype 2).kind ≠ Kind.Slice →
        err = some (errTailNotSlice exEnv 7 ⟨"A", "", 2, "tail"⟩)) ∧
      ((0 : Nat) = 2 → (exEnv.rtype 2).kind = Kind.Slice → err = none)) ∧
    parseStructTag exEnv 8 0 0 = some (⟨false, true, false⟩,
      some "rlp: invalid struct tag \"tail\" for main.Shape.A (field type is not slice)") ∧
    parseStructTag exEnv 0 4 4 = some (⟨false, true, false⟩, none) :=
  ⟨tail_validation exEnv 7 0 2 ⟨"A", "", 2, "tail"⟩ (by decide) (by decide) (by decide),
    by decide, by decide⟩

theorem Contains_append_left (a b sub : String) (h : Contains a sub) :
    Contains (a ++ b) sub := by
  unfold Contains at *
  rw [String.data_append]
  exact h.trans (List.infix_append' [] a.data b.data |> fun h2 => by simpa using h2)

theorem Contains_append_right (a b sub : String) (h : Contains b sub) :
    Contains (a ++ b) sub := by
  unfold Contains at *
  rw [String.data_append]
  exact h.trans (List.suffix_append a.data b.data).isInfix

theorem Contains_self (a : String) : Contains a a := List.infix_refl _

/-- A token of printable characters other than the double quote and the
backslash is quoted by putting it between double quotes. -/
theorem Quote_plain (IsPrint : Char → Bool) (t : String)
    (h : ∀ c ∈ t.data, IsPrint c = true ∧ c ≠ '"' ∧ c ≠ '\\') :
    (Quote IsPrint t).data = '"' :: (t.data ++ ['"']) := by
  have key : ∀ l : List Char, (∀ c ∈ l, IsPrint c = true ∧ c ≠ '"' ∧ c ≠ '\\') →
      l.flatMap (appendEscapedRune IsPrint) = l := by
    intro l
    induction l with
    | nil => intro _; rfl
    | cons c cs ih =>
      intro hl
      obtain ⟨h1, h2, h3⟩ := hl c (List.mem_cons_self c cs)
      rw [List.flatMap_cons, ih (fun d hd => hl d (List.mem_cons_of_mem c hd))]
      simp [appendEscapedRune, h1, h2, h3]
  simp only [Quote, key t.data h]

theorem Contains_Quote_plain (IsPrint : Char → Bool) (t : String)
    (h : ∀ c ∈ t.data, IsPrint c = true ∧ c ≠ '"' ∧ c ≠ '\\') :
    Contains (Quote IsPrint t) t := by
  unfold Contains
  rw [Quote_plain IsPrint t h]
  exact ⟨['"'], ['"'], by simp⟩

/-- C7, as the code has it. Let a token of the directive of field `fi` trim to
something other than the empty string, `-`, `nil` and `tail`, the tokens before
it being accepted ones (a `tail` among them standing on a last field of slice
kind). Then `parseStructTag` fails with the error of line 118 for that trimmed
token. The message contains the token as `%q` renders it (`strconv.Quote`),
the type as `%v` renders it (`typ.String()`), and the field's name; it
contains the trimmed token itself when the token consists of printable
characters other than the double quote and the backslash. -/
theorem unknown_directive (env : Env) (typ : RType) (fi lastPublic : Nat) (f : StructField)
    (pre post : List String) (t : String)
    (hf : Field env typ fi = some f)
    (hsplit : Split f.Tag ',' = pre ++ t :: post)
    (hpre : ∀ u ∈ pre, validToken (TrimSpace u))
    (hpretail : (∃ u ∈ pre, TrimSpace u = "tail") →
      fi = lastPublic ∧ (env.rtype f.Typ).kind = Kind.Slice)
    (ht : ¬ validToken (TrimSpace t)) :
    ∃ ts msg, parseStructTag env typ fi lastPublic = some (ts, some msg) ∧
      msg = errUnknownTag env typ f (TrimSpace t) ∧
      Contains msg (Quote env.IsPrint (TrimSpace t)) ∧
      Contains msg (env.rtype typ).str ∧
      Contains msg f.Name ∧
      ((∀ c ∈ (TrimSpace t).data, env.IsPrint c = true ∧ c ≠ '"' ∧ c ≠ '\\') →
        Contains msg (TrimSpace t)) := by
  obtain ⟨ts2, h2⟩ :=
    loop_append_valid env typ f fi lastPublic pre (t :: post) tags.zero hpre hpretail
  rw [loop_cons_unknown env typ f fi lastPublic t post ts2 ht] at h2
  have hq : Contains (errUnknownTag env typ f (TrimSpace t))
      (Quote env.IsPrint (TrimSpace t)) := by
    unfold errUnknownTag
    exact Contains_append_left _ _ _ (Contains_append_left _ _ _ (Contains_append_left _ _ _
      (Contains_append_left _ _ _ (Contains_append_right _ _ _ (Contains_self _)))))
  refine ⟨ts2, _, ?_, rfl, hq, ?_, ?_, ?_⟩
  · rw [parseStructTag_eq env typ fi lastPublic f hf, hsplit, h2]
  · unfold errUnknownTag
    exact Contains_append_left _ _ _ (Contains_append_left _ _ _
      (Contains_append_right _ _ _ (Contains_self _)))
  · unfold errUnknownTag
    exact Contains_append_right _ _ _ (Contains_self _)
  · intro hplain
    unfold Contains at hq ⊢
    exact (Contains_Quote_plain env.IsPrint _ hplain).trans hq

/-- C7 on the example program: the directive `foo` of `main.Unknown.X`. -/
theorem unknown_directive_witness :
    ∃ ts msg, parseStructTag exEnv 6 0 0 = some (ts, some msg) ∧
      msg = errUnknownTag exEnv 6 ⟨"X", "", 1, "foo"⟩ (TrimSpace "foo") ∧
      Contains msg (Quote exEnv.IsPrint (TrimSpace "foo")) ∧
      Contains msg (exEnv.rtype 6).str ∧
      Contains msg (StructField.mk "X" "" 1 "foo").Name ∧
      ((∀ c ∈ (TrimSpace "foo").data, exEnv.IsPrint c = true ∧ c ≠ '"' ∧ c ≠ '\\') →
        Contains msg (TrimSpace "foo")) :=
  unknown_directive exEnv 6 0 0 ⟨"X", "", 1, "foo"⟩ [] [] "foo" (by decide) (by decide)
    (by decide) (by decide) (by decide)

/-- C7 as stated fails on the example program: the directive of
`main.Quoted.A` is the one token `a"b`, which is none of the accepted tokens;
`parseStructTag` fails, and its message, which has the token as `"a\"b"`, does
not contain the token. -/
theorem unknown_directive_counterexample :
    Split (StructField.mk "A" "" 1 "a\"b").Tag ',' = [] ++ "a\"b" :: [] ∧
    ¬ validToken (TrimSpace "a\"b") ∧
    parseStructTag exEnv 9 0 0 =
      some (tags.zero, some "rlp: unknown struct tag \"a\\\"b\" on main.Quoted.A") ∧
    ¬ Contains "rlp: unknown struct tag \"a\\\"b\" on main.Quoted.A" (TrimSpace "a\"b") := by
  decide

/-- What `parseStructTag` returns for a field, in terms of the trimmed tokens
of its directive. -/
theorem parseStructTag_spec (env : Env) (typ : RType) (fi lastPublic : Nat) (f : StructField)
    (hf : Field env typ fi = some f) :
    ∃ ts err, parseStructTag env typ fi lastPublic = some (ts, err) ∧
      (err = none ↔
        (∀ t ∈ tokens f.Tag, validToken t) ∧
        ("tail" ∈ tokens f.Tag → fi = lastPublic ∧ (env.rtype f.Typ).kind = Kind.Slice)) ∧
      (err = none →
        (ts.ignored = true ↔ "-" ∈ tokens f.Tag) ∧
        (ts.nilOK = true ↔ "nil" ∈ tokens f.Tag) ∧
        (ts.tail = true ↔ "tail" ∈ tokens f.Tag)) := by
  rw [parseStructTag_eq env typ fi lastPublic f hf]
  have hiff : ((∀ t ∈ tokens f.Tag, validToken t) ∧
        ("tail" ∈ tokens f.Tag → fi = lastPublic ∧ (env.rtype f.Typ).kind = Kind.Slice)) ↔
      ((∀ t ∈ Split f.Tag ',', validToken (TrimSpace t)) ∧
        ((∃ t ∈ Split f.Tag ',', TrimSpace t = "tail") →
          fi = lastPublic ∧ (env.rtype f.Typ).kind = Kind.Slice)) := by
    constructor
    · rintro ⟨a, b⟩
      exact ⟨fun t ht => a _ ((mem_tokens _ _).mpr ⟨t, ht, rfl⟩),
        fun h => b ((mem_tokens _ _).mpr h)⟩
    · rintro ⟨a, b⟩
      refine ⟨?_, fun h => b ((mem_tokens _ _).mp h)⟩
      intro t ht
      obtain ⟨u, hu, rfl⟩ := (mem_tokens _ _).mp ht
      exact a u hu
  refine ⟨_, _, rfl, ?_, ?_⟩
  · rw [hiff]
    constructor
    · exact loop_ok_valid env typ f fi lastPublic _ tags.zero
    · rintro ⟨a, b⟩
      rw [loop_valid env typ f fi lastPublic _ tags.zero a b]
  · intro hok
    obtain ⟨a, b⟩ := loop_ok_valid env typ f fi lastPublic _ tags.zero hok
    rw [loop_valid env typ f fi lastPublic _ tags.zero a b]
    simp only [tags.zero, Bool.false_or]
    exact ⟨any_token _ _, any_token _ _, any_token _ _⟩

/-- C8. For the field `fi` of a struct type, with the directive split on commas
and every token trimmed: `parseStructTag` returns no error iff every token is
one of the empty string, `-`, `nil`, `tail` and, if `tail` occurs,
`fi == lastPublic` and the field's kind is `reflect.Slice`; it then returns
`ignored`, `nilOK` and `tail` true iff `-`, `nil` and `tail` occur. Hence a
field whose directive has the same set of trimmed tokens (and the same answers
to `fi == lastPublic` and to the kind being slice) succeeds iff this one does,
with the same options; and the empty directive gives `tags{}` and no error. -/
theorem directive_composition (env : Env) (typ : RType) (fi lastPublic : Nat)
    (f : StructField) (hf : Field env typ fi = some f) :
    ∃ ts err, parseStructTag env typ fi lastPublic = some (ts, err) ∧
      (err = none ↔
        (∀ t ∈ tokens f.Tag, t = "" ∨ t = "-" ∨ t = "nil" ∨ t = "tail") ∧
        ("tail" ∈ tokens f.Tag → fi = lastPublic ∧ (env.rtype f.Typ).kind = Kind.Slice)) ∧
      (err = none →
        (ts.ignored = true ↔ "-" ∈ tokens f.Tag) ∧
        (ts.nilOK = true ↔ "nil" ∈ tokens f.Tag) ∧
        (ts.tail = true ↔ "tail" ∈ tokens f.Tag)) ∧
      (∀ typ2 fi2 lastPublic2 f2, Field env typ2 fi2 = some f2 →
        (∀ t, t ∈ tokens f.Tag ↔ t ∈ tokens f2.Tag) →
        (fi = lastPublic ↔ fi2 = lastPublic2) →
        ((env.rtype f.Typ).kind = Kind.Slice ↔ (env.rtype f2.Typ).kind = Kind.Slice) →
        ∃ ts2 err2, parseStructTag env typ2 fi2 lastPublic2 = some (ts2, err2) ∧
          (err = none ↔ err2 = none) ∧ (err = none → ts2 = ts)) ∧
      (f.Tag = "" → ts = tags.zero ∧ err = none) := by
  obtain ⟨ts, err, hp, hiff, hflags⟩ := parseStructTag_spec env typ fi lastPublic f hf
  refine ⟨ts, err, hp, hiff, hflags, ?_, ?_⟩
  · intro typ2 fi2 lastPublic2 f2 hf2 htok hlast hkind
    obtain ⟨ts2, err2, hp2, hiff2, hflags2⟩ :=
      parseStructTag_spec env typ2 fi2 lastPublic2 f2 hf2
    have hsame : err = none ↔ err2 = none := by
      rw [hiff, hiff2]
      simp only [htok, hlast, hkind]
    refine ⟨ts2, err2, hp2, hsame, ?_⟩
    intro hok
    obtain ⟨a, b, c⟩ := hflags hok
    obtain ⟨a2, b2, c2⟩ := hflags2 (hsame.mp hok)
    obtain ⟨n1, t1, i1⟩ := ts
    obtain ⟨n2, t2, i2⟩ := ts2
    simp only at a b c a2 b2 c2
    have hi : i2 = i1 := by
      rw [Bool.eq_iff_iff, a2, a, htok]
    have hn : n2 = n1 := by
      rw [Bool.eq_iff_iff, b2, b, htok]
    have ht : t2 = t1 := by
      rw [Bool.eq_iff_iff, c2, c, htok]
    rw [hi, hn, ht]
  · intro hempty
    have htoks : tokens f.Tag = [""] := by
      rw [hempty]
      decide
    have hok : err = none := by
      rw [hiff, htoks]
      refine ⟨?_, ?_⟩
      · intro t ht
        rw [List.mem_singleton] at ht
        exact Or.inl ht
      · intro ht
        rw [List.mem_singleton] at ht
        exact absurd ht (by decide)
    obtain ⟨a, b, c⟩ := hflags hok
    rw [htoks] at a b c
    obtain ⟨n1, t1, i1⟩ := ts
    simp only [List.mem_singleton] at a b c
    have e1 : ¬ ("-" : String) = "" := by decide
    have e2 : ¬ ("nil" : String) = "" := by decide
    have e3 : ¬ ("tail" : String) = "" := by decide
    simp only [e1, e2, e3, iff_false, Bool.not_eq_true] at a b c
    subst a b c
    exact ⟨rfl, hok⟩

/-- C8 on the example program: the directive `-,nil` of `main.Mixed.A`. -/
theorem directive_composition_witness :
    ∃ ts err, parseStructTag exEnv 11 0 3 = some (ts, err) ∧
      (err = none ↔
        (∀ t ∈ tokens (StructField.mk "A" "" 1 "-,nil").Tag,
          t = "" ∨ t = "-" ∨ t = "nil" ∨ t = "tail") ∧
        ("tail" ∈ tokens (StructField.mk "A" "" 1 "-,nil").Tag →
          (0 : Nat) = 3 ∧ (exEnv.rtype (StructField.mk "A" "" 1 "-,nil").Typ).kind = Kind.Slice)) ∧
      (err = none →
        (ts.ignored = true ↔ "-" ∈ tokens (StructField.mk "A" "" 1 "-,nil").Tag) ∧
        (ts.nilOK = true ↔ "nil" ∈ tokens (StructField.mk "A" "" 1 "-,nil").Tag) ∧
        (ts.tail = true ↔ "tail" ∈ tokens (StructField.mk "A" "" 1 "-,nil").Tag)) ∧
      (∀ typ2 fi2 lastPublic2 f2, Field exEnv typ2 fi2 = some f2 →
        (∀ t, t ∈ tokens (StructField.mk "A" "" 1 "-,nil").Tag ↔ t ∈ tokens f2.Tag) →
        ((0 : Nat) = 3 ↔ fi2 = lastPublic2) →
        ((exEnv.rtype (StructField.mk "A" "" 1 "-,nil").Typ).kind = Kind.Slice ↔
          (exEnv.rtype f2.Typ).kind = Kind.Slice) →
        ∃ ts2 err2, parseStructTag exEnv typ2 fi2 lastPublic2 = some (ts2, err2) ∧
          (err = none ↔ err2 = none) ∧ (err = none → ts2 = ts)) ∧
      ((StructField.mk "A" "" 1 "-,nil").Tag = "" → ts = tags.zero ∧ err = none) :=
  directive_composition exEnv 11 0 3 ⟨"A", "", 1, "-,nil"⟩ (by decide)

/-! ## `structFields` -/

/-- The loop of `structFields`, when it ends without an error: the entries it
appends are those of the eligible indices, in the order visited, and the record
of each is the one `resolve` returned for the field's type and options. -/
theorem structFieldsLoop_spec (env : Env) (resolve : Resolver) (typ : RType)
    (lastpublic : Nat) (is : List Nat) :
    ∀ (acc : List field) (s : Mem) (fields : List field) (s2 : Mem),
      structFieldsLoop env resolve typ lastpublic is acc s = .ok ((fields, none), s2) →
      ∃ new, fields = acc ++ new ∧
        new.map field.index = is.filter (eligible env typ lastpublic) ∧
        ∀ e ∈ new, ∃ f tg, Field env typ e.index = some f ∧ f.PkgPath = "" ∧
          parseStructTag env typ e.index lastpublic = some (tg, none) ∧ tg.ignored = false ∧
          (Sound resolve → mapGet s2.typeCache ⟨f.Typ, tg⟩ = some e.info) := by
  induction is with
  | nil =>
    intro acc s fields s2 h
    simp only [structFieldsLoop, Run.ok.injEq, Prod.mk.injEq, and_true] at h
    exact ⟨[], by simp [h.1], rfl, by simp⟩
  | cons i is ih =>
    intro acc s fields s2 h
    unfold structFieldsLoop at h
    cases hf : Field env typ i with
    | none => simp [hf] at h
    | some f =>
      simp only [hf] at h
      by_cases hp : f.PkgPath = ""
      · simp only [hp, if_true] at h
        rcases hparse : parseStructTag env typ i lastpublic with _ | ⟨tg, _ | err⟩
        · simp [hparse] at h
        · simp only [hparse] at h
          by_cases hi : tg.ignored = true
          · simp only [hi, if_true] at h
            obtain ⟨new, h1, h2, h3⟩ := ih acc s fields s2 h
            refine ⟨new, h1, ?_, h3⟩
            rw [h2]
            simp [List.filter_cons, eligible, hf, hparse, hi]
          · simp only [hi] at h
            cases hr : resolve f.Typ tg s with
            | ok a =>
              obtain ⟨info, s1⟩ := a
              simp only [hr] at h
              obtain ⟨new, h1, h2, h3⟩ := ih _ s1 fields s2 h
              refine ⟨⟨i, info⟩ :: new, by simp [h1], ?_, ?_⟩
              · rw [List.map_cons, h2]
                simp [List.filter_cons, eligible, hf, hparse, hi, hp]
              · intro e he
                rcases List.mem_cons.mp he with rfl | hm
                · refine ⟨f, tg, hf, hp, hparse, by simpa using hi, ?_⟩
                  intro hsound
                  have hk := (hsound _ _ _ _ _ hr).2
                  exact (structFieldsLoop_ext env resolve hsound typ lastpublic is _ s1 _ s2
                    h).cache _ _ hk
                · exact h3 e hm
            | panic => simp [hr] at h
            | outOfFuel => simp [hr] at h
        · simp [hparse] at h
      · simp only [hp, if_false] at h
        obtain ⟨new, h1, h2, h3⟩ := ih acc s fields s2 h
        refine ⟨new, h1, ?_, h3⟩
        rw [h2]
        simp [List.filter_cons, eligible, hf, hp]

theorem Field_lt (env : Env) (typ : RType) (i : Nat) (f : StructField)
    (h : Field env typ i = some f) : i < (env.rtype typ).fields.length := by
  unfold Field at h
  split at h
  · rcases Nat.lt_or_ge i (env.rtype typ).fields.length with hlt | hge
    · exact hlt
    · rw [List.getElem?_eq_none hge] at h
      cases h
  · cases h

/-- What a call of `structFields` that ends without an error returns. -/
theorem structFields_spec (env : Env) (resolve : Resolver) (typ : RType) (s : Mem)
    (fields : List field) (s2 : Mem)
    (h : structFields env resolve typ s = .ok ((fields, none), s2)) :
    ∃ lastpublic, lastPublicField env typ = some lastpublic ∧
      fields.map field.index =
        (List.range (env.rtype typ).fields.length).filter (eligible env typ lastpublic) ∧
      ∀ e ∈ fields, ∃ f tg, Field env typ e.index = some f ∧ f.PkgPath = "" ∧
        parseStructTag env typ e.index lastpublic = some (tg, none) ∧ tg.ignored = false ∧
        (Sound resolve → mapGet s2.typeCache ⟨f.Typ, tg⟩ = some e.info) := by
  unfold structFields at h
  cases hl : lastPublicField env typ with
  | none => simp [hl] at h
  | some lastpublic =>
    cases hn : NumField env typ with
    | none => simp [hl, hn] at h
    | some n =>
      simp only [hl, hn] at h
      have hn2 : n = (env.rtype typ).fields.length := by
        unfold NumField at hn
        split at hn
        · exact (Option.some.inj hn).symm
        · cases hn
      obtain ⟨new, h1, h2, h3⟩ := structFieldsLoop_spec env resolve typ lastpublic _ _ s _ s2 h
      rw [List.nil_append] at h1
      subst h1
      exact ⟨lastpublic, rfl, by rw [h2, hn2], h3⟩

/-- C9. When `structFields` returns without an error, the indices of the
returned entries are exactly the indices of the exported fields whose parsed
options have `ignored = false`; they stand in strictly increasing order, so
none is repeated; and the record of each entry is the record the cache holds,
when `structFields` returns, under the key made of the field's type and the
field's parsed options. -/
theorem field_enumeration (env : Env) (G : Generators) (fuel : Nat) (typ : RType) (s : Mem)
    (fields : List field) (s2 : Mem)
    (h : structFields env (cachedTypedInfo1 env G fuel) typ s = .ok ((fields, none), s2)) :
    ∃ lastpublic, lastPublicField env typ = some lastpublic ∧
      (∀ i, i ∈ fields.map field.index ↔
        ∃ f tg err, Field env typ i = some f ∧ f.PkgPath = "" ∧
          parseStructTag env typ i lastpublic = some (tg, err) ∧ tg.ignored = false) ∧
      (fields.map field.index).Pairwise (fun a b => a < b) ∧
      (fields.map field.index).Nodup ∧
      ∀ e ∈ fields, ∃ f tg, Field env typ e.index = some f ∧
        parseStructTag env typ e.index lastpublic = some (tg, none) ∧
        s2.lookup ⟨f.Typ, tg⟩ = some e.info := by
  obtain ⟨lastpublic, hl, hidx, hent⟩ := structFields_spec env _ typ s fields s2 h
  have hpw : (fields.map field.index).Pairwise (fun a b => a < b) := by
    rw [hidx]
    exact (List.pairwise_lt_range _).filter _
  refine ⟨lastpublic, hl, ?_, hpw, ?_, ?_⟩
  · intro i
    constructor
    · intro hi
      obtain ⟨e, he, rfl⟩ := List.mem_map.mp hi
      obtain ⟨f, tg, h1, h2, h3, h4, _⟩ := hent e he
      exact ⟨f, tg, none, h1, h2, h3, h4⟩
    · rintro ⟨f, tg, err, h1, h2, h3, h4⟩
      rw [hidx, List.mem_filter]
      refine ⟨List.mem_range.mpr (Field_lt env typ i f h1), ?_⟩
      simp [eligible, h1, h2, h3, h4]
  · exact hpw.imp (fun hab => Nat.ne_of_lt hab)
  · intro e he
    obtain ⟨f, tg, h1, _, h3, _, h5⟩ := hent e he
    exact ⟨f, tg, h1, h3, h5 (cachedTypedInfo1_sound env G fuel)⟩

/-- C9 on the example program: the fields of `main.Mixed`, of which `A` and `B`
are ignored. -/
theorem field_enumeration_witness :
    ∃ lastpublic, lastPublicField exEnv 11 = some lastpublic ∧
      (∀ i, i ∈ [(⟨2, 0⟩ : field), ⟨3, 1⟩].map field.index ↔
        ∃ f tg err, Field exEnv 11 i = some f ∧ f.PkgPath = "" ∧
          parseStructTag exEnv 11 i lastpublic = some (tg, err) ∧ tg.ignored = false) ∧
      ([(⟨2, 0⟩ : field), ⟨3, 1⟩].map field.index).Pairwise (fun a b => a < b) ∧
      ([(⟨2, 0⟩ : field), ⟨3, 1⟩].map field.index).Nodup ∧
      ∀ e ∈ [(⟨2, 0⟩ : field), ⟨3, 1⟩], ∃ f tg, Field exEnv 11 e.index = some f ∧
        parseStructTag exEnv 11 e.index lastpublic = some (tg, none) ∧
        exMem11.lookup ⟨f.Typ, tg⟩ = some e.info :=
  field_enumeration exEnv exGen 2 11 Mem.init [⟨2, 0⟩, ⟨3, 1⟩] exMem11 (by decide)

/-- When the loop of `structFields` ends with an error, the list it returns is nil. -/
theorem structFieldsLoop_err_nil (env : Env) (resolve : Resolver) (typ : RType)
    (lastpublic : Nat) (is : List Nat) :
    ∀ (acc : List field) (s : Mem) (fields : List field) (msg : String) (s2 : Mem),
      structFieldsLoop env resolve typ lastpublic is acc s = .ok ((fields, some msg), s2) →
      fields = [] := by
  induction is with
  | nil =>
    intro acc s fields msg s2 h
    simp [structFieldsLoop] at h
  | cons i is ih =>
    intro acc s fields msg s2 h
    unfold structFieldsLoop at h
    cases hf : Field env typ i with
    | none => simp [hf] at h
    | some f =>
      simp only [hf] at h
      by_cases hp : f.PkgPath = ""
      · simp only [hp, if_true] at h
        rcases hparse : parseStructTag env typ i lastpublic with _ | ⟨tg, _ | err⟩
        · simp [hparse] at h
        · simp only [hparse] at h
          by_cases hi : tg.ignored = true
          · simp only [hi, if_true] at h
            exact ih acc s fields msg s2 h
          · simp only [hi] at h
            cases hr : resolve f.Typ tg s with
            | ok a =>
              obtain ⟨info, s1⟩ := a
              simp only [hr] at h
              exact ih _ s1 fields msg s2 h
            | panic => simp [hr] at h
            | outOfFuel => simp [hr] at h
        · simp only [hparse, Run.ok.injEq, Prod.mk.injEq] at h
          exact h.1.1.symm
      · simp only [hp, if_false] at h
        exact ih acc s fields msg s2 h

theorem structFields_err_nil (env : Env) (resolve : Resolver) (typ : RType) (s : Mem)
    (fields : List field) (msg : String) (s2 : Mem)
    (h : structFields env resolve typ s = .ok ((fields, some msg), s2)) : fields = [] := by
  unfold structFields at h
  cases hl : lastPublicField env typ with
  | none => simp [hl] at h
  | some lastpublic =>
    cases hn : NumField env typ with
    | none => simp [hl, hn] at h
    | some n =>
      simp only [hl, hn] at h
      exact structFieldsLoop_err_nil env resolve typ lastpublic _ _ s fields msg s2 h

/-- C10. Let field `i` of a struct type be exported and let `-` be one of the
trimmed tokens of its directive, whatever the other tokens. Then, whatever
`cachedTypedInfo1` does (`resolve`), no entry of a list returned by
`structFields` has the index `i`; and the turn of the loop for field `i`
resolves nothing: either the directive parses, the options are ignored ones and
the loop goes on to the next index with the same list and the same memory, or
the directive does not parse and the loop returns that error, the memory being
as it was. -/
theorem ignored_fields_excluded (env : Env) (typ : RType) (i : Nat) (f : StructField)
    (hf : Field env typ i = some f) (hp : f.PkgPath = "") (hdash : "-" ∈ tokens f.Tag) :
    (∀ (resolve : Resolver) (s : Mem) (fields : List field) (err : error) (s2 : Mem),
      structFields env resolve typ s = .ok ((fields, err), s2) →
      ∀ e ∈ fields, e.index ≠ i) ∧
    (∀ (resolve : Resolver) (lastpublic : Nat) (rest : List Nat) (acc : List field) (s : Mem),
      ∃ tg err, parseStructTag env typ i lastpublic = some (tg, err) ∧
        (err = none → tg.ignored = true ∧
          structFieldsLoop env resolve typ lastpublic (i :: rest) acc s =
            structFieldsLoop env resolve typ lastpublic rest acc s) ∧
        (∀ msg, err = some msg →
          structFieldsLoop env resolve typ lastpublic (i :: rest) acc s =
            .ok (([], some msg), s))) := by
  constructor
  · intro resolve s fields err s2 h e he hidx
    cases err with
    | some msg =>
      rw [structFields_err_nil env resolve typ s fields msg s2 h] at he
      cases he
    | none =>
      obtain ⟨lastpublic, _, _, hent⟩ := structFields_spec env resolve typ s fields s2 h
      obtain ⟨f2, tg, h1, _, h3, h4, _⟩ := hent e he
      rw [hidx, hf] at h1
      cases h1
      obtain ⟨ts, err, hparse, _, hflags⟩ := parseStructTag_spec env typ i lastpublic f hf
      rw [hidx, hparse] at h3
      cases h3
      have := ((hflags rfl).1).mpr hdash
      rw [h4] at this
      cases this
  · intro resolve lastpublic rest acc s
    obtain ⟨ts, err, hparse, _, hflags⟩ := parseStructTag_spec env typ i lastpublic f hf
    refine ⟨ts, err, hparse, ?_, ?_⟩
    · intro hnone
      subst hnone
      have hi := ((hflags rfl).1).mpr hdash
      refine ⟨hi, ?_⟩
      conv_lhs => unfold structFieldsLoop
      simp only [hf, hp, if_true, hparse, hi]
    · intro msg hmsg
      subst hmsg
      conv_lhs => unfold structFieldsLoop
      simp only [hf, hp, if_true, hparse]

/-- C10 on the example program: field `A` of `main.Mixed`, with the directive `-,nil`. -/
theorem ignored_fields_excluded_witness :
    (∀ (resolve : Resolver) (s : Mem) (fields : List field) (err : error) (s2 : Mem),
      structFields exEnv resolve 11 s = .ok ((fields, err), s2) →
      ∀ e ∈ fields, e.index ≠ 0) ∧
    (∀ (resolve : Resolver) (lastpublic : Nat) (rest : List Nat) (acc : List field) (s : Mem),
      ∃ tg err, parseStructTag exEnv 11 0 lastpublic = some (tg, err) ∧
        (err = none → tg.ignored = true ∧
          structFieldsLoop exEnv resolve 11 lastpublic (0 :: rest) acc s =
            structFieldsLoop exEnv resolve 11 lastpublic rest acc s) ∧
        (∀ msg, err = some msg →
          structFieldsLoop exEnv resolve 11 lastpublic (0 :: rest) acc s =
            .ok (([], some msg), s))) :=
  ignored_fields_excluded exEnv 11 0 ⟨"A", "", 1, "-,nil"⟩ (by decide) (by decide) (by decide)

/-! ## `lastPublicField` -/

/-- The loop of `lastPublicField` over increasing indices: it returns `last`
when none of them is exported, else the greatest exported one. -/
theorem lastPublicFieldLoop_spec (env : Env) (typ : RType) (is : List Nat) :
    ∀ (last l : Nat), is.Pairwise (fun a b => a < b) →
      lastPublicFieldLoop env typ is last = some l →
      ((∀ i ∈ is, ∀ f, Field env typ i = some f → f.PkgPath ≠ "") ∧ l = last) ∨
      (l ∈ is ∧ (∃ f, Field env typ l = some f ∧ f.PkgPath = "") ∧
        ∀ i ∈ is, ∀ f, Field env typ i = some f → f.PkgPath = "" → i ≤ l) := by
  induction is with
  | nil =>
    intro last l _ h
    simp only [lastPublicFieldLoop, Option.some.injEq] at h
    exact Or.inl ⟨by simp, h.symm⟩
  | cons j is ih =>
    intro last l hpw h
    obtain ⟨hj, hrest⟩ := List.pairwise_cons.mp hpw
    unfold lastPublicFieldLoop at h
    cases hf : Field env typ j with
    | none => simp [hf] at h
    | some fj =>
      simp only [hf] at h
      by_cases hp : fj.PkgPath = ""
      · simp only [hp, if_true] at h
        right
        rcases ih j l hrest h with ⟨hnone, hl⟩ | ⟨hmem, hex, hmax⟩
        · subst hl
          refine ⟨List.mem_cons_self _ _, ⟨fj, hf, hp⟩, ?_⟩
          intro i hi f hfi hpi
          rcases List.mem_cons.mp hi with rfl | hi2
          · exact Nat.le_refl _
          · exact absurd hpi (hnone i hi2 f hfi)
        · refine ⟨List.mem_cons_of_mem _ hmem, hex, ?_⟩
          intro i hi f hfi hpi
          rcases List.mem_cons.mp hi with rfl | hi2
          · exact Nat.le_of_lt (hj l hmem)
          · exact hmax i hi2 f hfi hpi
      · simp only [hp, if_false] at h
        rcases ih last l hrest h with ⟨hnone, hl⟩ | ⟨hmem, hex, hmax⟩
        · left
          refine ⟨?_, hl⟩
          intro i hi f hfi
          rcases List.mem_cons.mp hi with rfl | hi2
          · rw [hf] at hfi
            cases hfi
            exact hp
          · exact hnone i hi2 f hfi
        · right
          refine ⟨List.mem_cons_of_mem _ hmem, hex, ?_⟩
          intro i hi f hfi hpi
          rcases List.mem_cons.mp hi with rfl | hi2
          · rw [hf] at hfi
            cases hfi
            exact absurd hpi hp
          · exact hmax i hi2 f hfi hpi

/-- What `lastPublicField` returns: the greatest index of an exported field,
or `0` when no field is exported. -/
theorem lastPublicField_spec (env : Env) (typ : RType) (l : Nat)
    (h : lastPublicField env typ = some l) :
    ((∀ i f, Field env typ i = some f → f.PkgPath ≠ "") ∧ l = 0) ∨
    ((∃ f, Field env typ l = some f ∧ f.PkgPath = "") ∧
      ∀ i f, Field env typ i = some f → f.PkgPath = "" → i ≤ l) := by
  unfold lastPublicField at h
  cases hn : NumField env typ with
  | none => simp [hn] at h
  | some n =>
    simp only [hn] at h
    have hn2 : n = (env.rtype typ).fields.length := by
      unfold NumField at hn
      split at hn
      · exact (Option.some.inj hn).symm
      · cases hn
    have hrange : ∀ i f, Field env typ i = some f → i ∈ List.range n := by
      intro i f hf
      rw [hn2]
      exact List.mem_range.mpr (Field_lt env typ i f hf)
    rcases lastPublicFieldLoop_spec env typ _ 0 l (List.pairwise_lt_range n) h with
      ⟨hnone, hl⟩ | ⟨_, hex, hmax⟩
    · exact Or.inl ⟨fun i f hf => hnone i (hrange i f hf) f hf, hl⟩
    · exact Or.inr ⟨hex, fun i f hf hp => hmax i (hrange i f hf) f hf hp⟩

/-- C17. For a struct type `lastPublicField` returns a result `l`. When the
type has an exported field (one with an empty `PkgPath`, whatever its
directive), field `l` is exported and no exported field has a greater index;
when it has none, `l` is `0`. -/
theorem lastPublicField_greatest (env : Env) (typ : RType)
    (hs : (env.rtype typ).kind = Kind.Struct) :
    ∃ l, lastPublicField env typ = some l ∧
      ((∃ i f, Field env typ i = some f ∧ f.PkgPath = "") →
        (∃ f, Field env typ l = some f ∧ f.PkgPath = "") ∧
        ∀ i f, Field env typ i = some f → f.PkgPath = "" → i ≤ l) ∧
      ((∀ i f, Field env typ i = some f → f.PkgPath ≠ "") → l = 0) := by
  obtain ⟨l, hl⟩ := lastPublicField_some env typ hs
  refine ⟨l, hl, ?_, ?_⟩
  · rintro ⟨i, f, hf, hp⟩
    rcases lastPublicField_spec env typ l hl with ⟨hnone, _⟩ | h
    · exact absurd hp (hnone i f hf)
    · exact h
  · intro hnone
    rcases lastPublicField_spec env typ l hl with ⟨_, h0⟩ | ⟨⟨f, hf, hp⟩, _⟩
    · exact h0
    · exact absurd hp (hnone l f hf)

/-- C17 on the example program: in `main.Mixed` the last exported field is `D`,
index `3`; in `Node` it is `Rest`, index `4`, and the exported field `Skip`
with the directive `-` counts like any other. -/
theorem lastPublicField_greatest_witness :
    (∃ l, lastPublicField exEnv 11 = some l ∧
      ((∃ i f, Field exEnv 11 i = some f ∧ f.PkgPath = "") →
        (∃ f, Field exEnv 11 l = some f ∧ f.PkgPath = "") ∧
        ∀ i f, Field exEnv 11 i = some f → f.PkgPath = "" → i ≤ l) ∧
      ((∀ i f, Field exEnv 11 i = some f → f.PkgPath ≠ "") → l = 0)) ∧
    lastPublicField exEnv 11 = some 3 ∧ lastPublicField exEnv 0 = some 4 :=
  ⟨lastPublicField_greatest exEnv 11 (by decide), by decide, by decide⟩

/-! ## Errors of `structFields` -/

/-- When the loop of `structFields` ends without an error, no field it visited
failed to parse. -/
theorem structFieldsLoop_ok_noerr (env : Env) (resolve : Resolver) (typ : RType)
    (lastpublic : Nat) (is : List Nat) :
    ∀ (acc : List field) (s : Mem) (fields : List field) (s2 : Mem),
      structFieldsLoop env resolve typ lastpublic is acc s = .ok ((fields, none), s2) →
      ∀ i ∈ is, ∀ msg, ¬ FailsAt env typ lastpublic i msg := by
  induction is with
  | nil =>
    intro acc s fields s2 _ i hi
    cases hi
  | cons j is ih =>
    intro acc s fields s2 h
    have hcons : ∀ (acc2 : List field) (s1 : Mem),
        structFieldsLoop env resolve typ lastpublic is acc2 s1 = .ok ((fields, none), s2) →
        (∀ msg, ¬ FailsAt env typ lastpublic j msg) →
        ∀ i ∈ j :: is, ∀ msg, ¬ FailsAt env typ lastpublic i msg := by
      intro acc2 s1 h2 hj i hi msg
      rcases List.mem_cons.mp hi with rfl | hi2
      · exact hj msg
      · exact ih acc2 s1 fields s2 h2 i hi2 msg
    unfold structFieldsLoop at h
    cases hf : Field env typ j with
    | none => simp [hf] at h
    | some f =>
      simp only [hf] at h
      by_cases hp : f.PkgPath = ""
      · simp only [hp, if_true] at h
        rcases hparse : parseStructTag env typ j lastpublic with _ | ⟨tg, _ | err⟩
        · simp [hparse] at h
        · have hj : ∀ msg, ¬ FailsAt env typ lastpublic j msg := by
            rintro msg ⟨f2, tg2, _, _, h3⟩
            rw [hparse] at h3
            cases h3
          simp only [hparse] at h
          by_cases hi : tg.ignored = true
          · simp only [hi, if_true] at h
            exact hcons acc s h hj
          · simp only [hi] at h
            cases hr : resolve f.Typ tg s with
            | ok a =>
              obtain ⟨info, s1⟩ := a
              simp only [hr] at h
              exact hcons _ s1 h hj
            | panic => simp [hr] at h
            | outOfFuel => simp [hr] at h
        · simp [hparse] at h
      · simp only [hp, if_false] at h
        refine hcons acc s h ?_
        rintro msg ⟨f2, tg2, h1, h2, _⟩
        rw [hf] at h1
        cases h1
        exact hp h2

/-- When the loop of `structFields` ends with an error, it is the error of the
first field it visited that fails to parse, and the fields resolved before
that one are in the cache. -/
theorem structFieldsLoop_err_spec (env : Env) (resolve : Resolver) (typ : RType)
    (lastpublic : Nat) (is : List Nat) :
    ∀ (acc : List field) (s : Mem) (fields : List field) (msg : String) (s2 : Mem),
      structFieldsLoop env resolve typ lastpublic is acc s = .ok ((fields, some msg), s2) →
      ∃ pre j post, is = pre ++ j :: post ∧ FailsAt env typ lastpublic j msg ∧
        (∀ i ∈ pre, ∀ m, ¬ FailsAt env typ lastpublic i m) ∧
        (Sound resolve → ∀ i ∈ pre, ∀ f tg, Field env typ i = some f → f.PkgPath = "" →
          parseStructTag env typ i lastpublic = some (tg, none) → tg.ignored = false →
          ∃ info, mapGet s2.typeCache ⟨f.Typ, tg⟩ = some info) := by
  induction is with
  | nil =>
    intro acc s fields msg s2 h
    simp [structFieldsLoop] at h
  | cons j is ih =>
    intro acc s fields msg s2 h
    have hcons : ∀ (acc2 : List field) (s1 : Mem),
        structFieldsLoop env resolve typ lastpublic is acc2 s1 = .ok ((fields, some msg), s2) →
        (∀ m, ¬ FailsAt env typ lastpublic j m) →
        (Sound resolve → ∀ f tg, Field env typ j = some f → f.PkgPath = "" →
          parseStructTag env typ j lastpublic = some (tg, none) → tg.ignored = false →
          ∃ info, mapGet s2.typeCache ⟨f.Typ, tg⟩ = some info) →
        ∃ pre k post, j :: is = pre ++ k :: post ∧ FailsAt env typ lastpublic k msg ∧
          (∀ i ∈ pre, ∀ m, ¬ FailsAt env typ lastpublic i m) ∧
          (Sound resolve → ∀ i ∈ pre, ∀ f tg, Field env typ i = some f → f.PkgPath = "" →
            parseStructTag env typ i lastpublic = some (tg, none) → tg.ignored = false →
            ∃ info, mapGet s2.typeCache ⟨f.Typ, tg⟩ = some info) := by
      intro acc2 s1 h2 hj hjres
      obtain ⟨pre, k, post, he, hk, hpre, hres⟩ := ih acc2 s1 fields msg s2 h2
      refine ⟨j :: pre, k, post, by rw [he]; rfl, hk, ?_, ?_⟩
      · intro i hi m
        rcases List.mem_cons.mp hi with rfl | hi2
        · exact hj m
        · exact hpre i hi2 m
      · intro hsound i hi f tg h1 h2 h3 h4
        rcases List.mem_cons.mp hi with rfl | hi2
        · exact hjres hsound f tg h1 h2 h3 h4
        · exact hres hsound i hi2 f tg h1 h2 h3 h4
    unfold structFieldsLoop at h
    cases hf : Field env typ j with
    | none => simp [hf] at h
    | some f =>
      simp only [hf] at h
      by_cases hp : f.PkgPath = ""
      · simp only [hp, if_true] at h
        rcases hparse : parseStructTag env typ j lastpublic with _ | ⟨tg, _ | err⟩
        · simp [hparse] at h
        · have hj : ∀ m, ¬ FailsAt env typ lastpublic j m := by
            rintro m ⟨f2, tg2, _, _, h3⟩
            rw [hparse] at h3
            cases h3
          simp only [hparse] at h
          by_cases hi : tg.ignored = true
          · simp only [hi, if_true] at h
            refine hcons acc s h hj ?_
            intro _ f2 tg2 _ _ h3 h4
            rw [hparse] at h3
            cases h3
            rw [hi] at h4
            cases h4
          · simp only [hi] at h
            cases hr : resolve f.Typ tg s with
            | ok a =>
              obtain ⟨info, s1⟩ := a
              simp only [hr] at h
              refine hcons _ s1 h hj ?_
              intro hsound f2 tg2 h1 _ h3 _
              rw [hf] at h1
              cases h1
              rw [hparse] at h3
              cases h3
              have hk := (hsound _ _ _ _ _ hr).2
              exact ⟨info, (structFieldsLoop_ext env resolve hsound typ lastpublic is _ s1 _ s2
                h).cache _ _ hk⟩
            | panic => simp [hr] at h
            | outOfFuel => simp [hr] at h
        · simp only [hparse, Run.ok.injEq, Prod.mk.injEq, Option.some.injEq] at h
          obtain ⟨⟨_, hmsg⟩, _⟩ := h
          subst hmsg
          exact ⟨[], j, is, rfl, ⟨f, tg, hf, hp, hparse⟩, by simp, by simp⟩
      · simp only [hp, if_false] at h
        refine hcons acc s h ?_ ?_
        · rintro m ⟨f2, tg2, h1, h2, _⟩
          rw [hf] at h1
          cases h1
          exact hp h2
        · intro _ f2 tg2 h1 h2 _ _
          rw [hf] at h1
          cases h1
          exact absurd h2 hp

/-- In a splitting of `0, ..., n - 1` the indices below the split point stand
before it. -/
theorem range_split_lt (n : Nat) (pre post : List Nat) (j : Nat)
    (h : List.range n = pre ++ j :: post) : ∀ i, i < j → i ∈ pre := by
  intro i hij
  have hpw := List.pairwise_lt_range n
  rw [h] at hpw
  have hjn : j ∈ List.range n := by rw [h]; simp
  have hin : i ∈ List.range n :=
    List.mem_range.mpr (Nat.lt_trans hij (List.mem_range.mp hjn))
  rw [h] at hin
  rcases List.mem_append.mp hin with hp | hq
  · exact hp
  · obtain ⟨_, hjpost, _⟩ := List.pairwise_append.mp hpw
    obtain ⟨hlt, _⟩ := List.pairwise_cons.mp hjpost
    rcases List.mem_cons.mp hq with rfl | hi2
    · exact absurd hij (Nat.lt_irrefl _)
    · exact absurd (hlt i hi2) (Nat.lt_asymm hij)

/-- The loop of `structFields` returns when `resolve` answers for the field
types. -/
theorem structFieldsLoop_answers (env : Env) (resolve : Resolver) (typ : RType)
    (hs : (env.rtype typ).kind = Kind.Struct)
    (hans : ∀ i f, Field env typ i = some f → ∀ tg s, ∃ info s2,
      resolve f.Typ tg s = .ok (info, s2))
    (lastpublic : Nat) (is : List Nat) (his : ∀ i ∈ is, i < (env.rtype typ).fields.length) :
    ∀ (acc : List field) (s : Mem),
      ∃ r s2, structFieldsLoop env resolve typ lastpublic is acc s = .ok (r, s2) := by
  induction is with
  | nil => exact fun acc s => ⟨(acc, none), s, rfl⟩
  | cons i is ih =>
    intro acc s
    obtain ⟨f, hf, _⟩ := Field_some env typ i hs (his i (List.mem_cons_self i is))
    have ih2 := ih (fun j hj => his j (List.mem_cons_of_mem i hj))
    unfold structFieldsLoop
    simp only [hf]
    by_cases hp : f.PkgPath = ""
    · simp only [hp, if_true]
      rw [parseStructTag_eq env typ i lastpublic f hf]
      rcases hres : parseStructTagLoop env typ f i lastpublic (Split f.Tag ',') tags.zero with
        ⟨tg, _ | err⟩
      · simp only
        by_cases hi : tg.ignored = true
        · simp only [hi, if_true]
          exact ih2 acc s
        · simp only [hi]
          obtain ⟨info, s1, hr⟩ := hans i f hf tg s
          simp only [hr]
          exact ih2 _ s1
      · exact ⟨_, _, rfl⟩
    · simp only [hp, if_false]
      exact ih2 acc s

theorem Field_mem (env : Env) (typ : RType) (i : Nat) (f : StructField)
    (h : Field env typ i = some f) : f ∈ (env.rtype typ).fields := by
  unfold Field at h
  split at h
  · exact List.getElem?_mem h
  · cases h

theorem NumField_eq (env : Env) (typ : RType) (n : Nat) (h : NumField env typ = some n) :
    n = (env.rtype typ).fields.length := by
  unfold NumField at h
  split at h
  · exact (Option.some.inj h).symm
  · cases h

/-- What a call of `structFields` that ends with an error returns. -/
theorem structFields_err_spec (env : Env) (resolve : Resolver) (typ : RType) (s : Mem)
    (fields : List field) (msg : String) (s2 : Mem)
    (h : structFields env resolve typ s = .ok ((fields, some msg), s2)) :
    ∃ lastpublic j, lastPublicField env typ = some lastpublic ∧
      FailsAt env typ lastpublic j msg ∧
      (∀ i, i < j → ∀ m, ¬ FailsAt env typ lastpublic i m) ∧
      (Sound resolve → ∀ i, i < j → ∀ f tg, Field env typ i = some f → f.PkgPath = "" →
        parseStructTag env typ i lastpublic = some (tg, none) → tg.ignored = false →
        ∃ info, mapGet s2.typeCache ⟨f.Typ, tg⟩ = some info) := by
  unfold structFields at h
  cases hl : lastPublicField env typ with
  | none => simp [hl] at h
  | some lastpublic =>
    cases hn : NumField env typ with
    | none => simp [hl, hn] at h
    | some n =>
      simp only [hl, hn] at h
      obtain ⟨pre, j, post, he, hj, hpre, hres⟩ :=
        structFieldsLoop_err_spec env resolve typ lastpublic _ _ s fields msg s2 h
      have hlt := range_split_lt n pre post j he
      exact ⟨lastpublic, j, rfl, hj, fun i hi m => hpre i (hlt i hi) m,
        fun hsound i hi => hres hsound i (hlt i hi)⟩

/-- What a call of `structFields` that ends without an error says about the
directives: none fails to parse. -/
theorem structFields_ok_noerr (env : Env) (resolve : Resolver) (typ : RType) (s : Mem)
    (fields : List field) (s2 : Mem) (lastpublic : Nat)
    (hl : lastPublicField env typ = some lastpublic)
    (h : structFields env resolve typ s = .ok ((fields, none), s2)) :
    ∀ i msg, ¬ FailsAt env typ lastpublic i msg := by
  unfold structFields at h
  cases hn : NumField env typ with
  | none => simp [hl, hn] at h
  | some n =>
    simp only [hl, hn] at h
    intro i msg hfail
    obtain ⟨f, _, hf, _, _⟩ := id hfail
    have hi : i ∈ List.range n := by
      rw [NumField_eq env typ n hn]
      exact List.mem_range.mpr (Field_lt env typ i f hf)
    exact structFieldsLoop_ok_noerr env resolve typ lastpublic _ _ s fields s2 h i hi msg hfail

theorem structFields_answers (env : Env) (resolve : Resolver) (typ : RType)
    (hs : (env.rtype typ).kind = Kind.Struct)
    (hans : ∀ i f, Field env typ i = some f → ∀ tg s, ∃ info s2,
      resolve f.Typ tg s = .ok (info, s2))
    (s : Mem) :
    ∃ lastpublic r s2, lastPublicField env typ = some lastpublic ∧
      structFields env resolve typ s = .ok (r, s2) := by
  obtain ⟨l, hl⟩ := lastPublicField_some env typ hs
  obtain ⟨r, s2, h⟩ := structFieldsLoop_answers env resolve typ hs hans l
    (List.range (env.rtype typ).fields.length) (fun i hi => List.mem_range.mp hi) [] s
  refine ⟨l, r, s2, hl, ?_⟩
  unfold structFields
  simp only [hl, NumField, hs, if_true]
  exact h

/-- C11. For a struct type, `cachedTypedInfo1` (`resolve`) answering for the
field types, `structFields` returns; it returns an error iff the directive of
some exported field fails to parse; the list is then nil and the error is that
of the first such field in declaration order. A struct type whose fields are
all unexported or validly ignored (one without fields among them) gives the
empty list and no error. -/
theorem field_enumeration_errors (env : Env) (resolve : Resolver) (typ : RType) (s : Mem)
    (hs : (env.rtype typ).kind = Kind.Struct)
    (hans : ∀ i f, Field env typ i = some f → ∀ tg s, ∃ info s2,
      resolve f.Typ tg s = .ok (info, s2)) :
    ∃ lastpublic fields err s2, lastPublicField env typ = some lastpublic ∧
      structFields env resolve typ s = .ok ((fields, err), s2) ∧
      (err ≠ none ↔ ∃ i msg, FailsAt env typ lastpublic i msg) ∧
      (∀ msg, err = some msg → fields = [] ∧
        ∃ j, FailsAt env typ lastpublic j msg ∧
          ∀ i, i < j → ∀ m, ¬ FailsAt env typ lastpublic i m) ∧
      ((∀ i f, Field env typ i = some f → f.PkgPath ≠ "" ∨
          ∃ tg, parseStructTag env typ i lastpublic = some (tg, none) ∧ tg.ignored = true) →
        fields = [] ∧ err = none) := by
  obtain ⟨lp, ⟨fields, err⟩, s2, hl, h⟩ := structFields_answers env resolve typ hs hans s
  have hfirst : ∀ msg, err = some msg → fields = [] ∧
      ∃ j, FailsAt env typ lp j msg ∧ ∀ i, i < j → ∀ m, ¬ FailsAt env typ lp i m := by
    intro msg he
    subst he
    obtain ⟨lp2, j, hl2, hj, hpre, _⟩ := structFields_err_spec env resolve typ s fields msg s2 h
    rw [hl] at hl2
    cases hl2
    exact ⟨structFields_err_nil env resolve typ s fields msg s2 h, j, hj, hpre⟩
  have hiff : err ≠ none ↔ ∃ i msg, FailsAt env typ lp i msg := by
    constructor
    · intro hne
      obtain ⟨msg, he⟩ := Option.ne_none_iff_exists'.mp hne
      obtain ⟨_, j, hj, _⟩ := hfirst msg he
      exact ⟨j, msg, hj⟩
    · rintro ⟨i, msg, hfail⟩ he
      subst he
      exact structFields_ok_noerr env resolve typ s fields s2 lp hl h i msg hfail
  refine ⟨lp, fields, err, s2, hl, h, hiff, hfirst, ?_⟩
  intro hnone
  have herr : err = none := by
    by_contra hne
    obtain ⟨i, msg, f, tg, hf, hp, hparse⟩ := hiff.mp hne
    rcases hnone i f hf with hp2 | ⟨tg2, hparse2, _⟩
    · exact hp2 hp
    · rw [hparse] at hparse2
      cases hparse2
  subst herr
  refine ⟨?_, rfl⟩
  obtain ⟨lp2, hl2, _, hent⟩ := structFields_spec env resolve typ s fields s2 h
  rw [hl] at hl2
  cases hl2
  apply List.eq_nil_iff_forall_not_mem.mpr
  intro e he
  obtain ⟨f, tg, hf, hp, hparse, hign, _⟩ := hent e he
  rcases hnone e.index f hf with hp2 | ⟨tg2, hparse2, hign2⟩
  · exact hp2 hp
  · rw [hparse] at hparse2
    cases hparse2
    rw [hign] at hign2
    cases hign2

/-- The example generators answer, with the budget `96`, for the field types
of the types of the first example program. -/
theorem exEnv_answers (typ : RType) (htyp : typ ∈ List.range 12) :
    ∀ i f, Field exEnv typ i = some f → ∀ tg s, ∃ info s2,
      cachedTypedInfo1 exEnv exGen 96 f.Typ tg s = .ok (info, s2) := by
  intro i f hf tg s
  exact cachedTypedInfo1_total exEnv (List.range 12) exGen exEnv_closed
    (fun t g h => exGen_within t g h) 96 f.Typ tg s
    (exEnv_closed typ htyp f (Field_mem exEnv typ i f hf))
    (Nat.le_trans (absent_le _ _) (by simp))

/-- C11 on the example programs: `main.Late` fails at its second field; a
struct type with unexported fields only, one with ignored fields only and one
without fields give the empty list and no error. -/
theorem field_enumeration_errors_witness :
    (∃ lastpublic fields err s2, lastPublicField exEnv 10 = some lastpublic ∧
      structFields exEnv (cachedTypedInfo1 exEnv exGen 96) 10 Mem.init =
        .ok ((fields, err), s2) ∧
      (err ≠ none ↔ ∃ i msg, FailsAt exEnv 10 lastpublic i msg) ∧
      (∀ msg, err = some msg → fields = [] ∧
        ∃ j, FailsAt exEnv 10 lastpublic j msg ∧
          ∀ i, i < j → ∀ m, ¬ FailsAt exEnv 10 lastpublic i m) ∧
      ((∀ i f, Field exEnv 10 i = some f → f.PkgPath ≠ "" ∨
          ∃ tg, parseStructTag exEnv 10 i lastpublic = some (tg, none) ∧ tg.ignored = true) →
        fields = [] ∧ err = none)) ∧
    structFields exEnv (cachedTypedInfo1 exEnv exGen 2) 10 Mem.init =
      .ok (([], some "rlp: unknown struct tag \"foo\" on main.Late.B"), exMem10) ∧
    structFields exEnv2 (cachedTypedInfo1 exEnv2 exGen 0) 0 Mem.init =
      .ok (([], none), Mem.init) ∧
    structFields exEnv2 (cachedTypedInfo1 exEnv2 exGen 0) 4 Mem.init =
      .ok (([], none), Mem.init) ∧
    structFields exEnv2 (cachedTypedInfo1 exEnv2 exGen 0) 5 Mem.init =
      .ok (([], none), Mem.init) :=
  ⟨field_enumeration_errors exEnv (cachedTypedInfo1 exEnv exGen 96) 10 Mem.init (by decide)
      (exEnv_answers 10 (by decide)),
    by decide, by decide, by decide, by decide⟩

/-- C20. When `structFields` returns an error, it is the error of the first
exported field `j` that fails to parse; the cache then holds a record under
the key (field type, parsed options) of every exported, non-ignored field
before `j`, and every entry it held before the call. On the example program a
failed call on `main.Late` from the empty cache leaves an entry behind. -/
theorem failed_structFields_not_rolled_back (env : Env) (G : Generators) (fuel : Nat)
    (typ : RType) (s : Mem) (fields : List field) (msg : String) (s2 : Mem)
    (h : structFields env (cachedTypedInfo1 env G fuel) typ s = .ok ((fields, some msg), s2)) :
    (∃ lastpublic j, lastPublicField env typ = some lastpublic ∧
      FailsAt env typ lastpublic j msg ∧
      (∀ i, i < j → ∀ m, ¬ FailsAt env typ lastpublic i m) ∧
      (∀ i, i < j → ∀ f tg, Field env typ i = some f → f.PkgPath = "" →
        parseStructTag env typ i lastpublic = some (tg, none) → tg.ignored = false →
        ∃ info, s2.lookup ⟨f.Typ, tg⟩ = some info) ∧
      (∀ key info, s.lookup key = some info → s2.lookup key = some info)) ∧
    (∃ msg1 s3,
      structFields exEnv (cachedTypedInfo1 exEnv exGen 2) 10 Mem.init =
        .ok (([], some msg1), s3) ∧
      (∀ key info, Mem.init.lookup key = some info → s3.lookup key = some info) ∧
      (∃ key, Mem.init.lookup key = none ∧ s3.lookup key ≠ none) ∧
      Mem.init.typeCache.length < s3.typeCache.length) := by
  constructor
  · obtain ⟨lp, j, hl, hj, hpre, hres⟩ := structFields_err_spec env _ typ s fields msg s2 h
    have hsound := cachedTypedInfo1_sound env G fuel
    exact ⟨lp, j, hl, hj, hpre, hres hsound,
      (structFields_ext env _ hsound typ s _ s2 h).cache⟩
  · refine ⟨"rlp: unknown struct tag \"foo\" on main.Late.B", exMem10, by decide, ?_, ?_,
      by decide⟩
    · intro key info hk
      simp [Mem.lookup, Mem.init, mapGet] at hk
    · exact ⟨⟨1, ⟨true, false, false⟩⟩, by decide, by decide⟩

/-- C20 on the example program: `structFields` on `main.Late` from the empty
cache fails at field `B`, after the record of field `A` has been cached. -/
theorem failed_structFields_not_rolled_back_witness :
    (∃ lastpublic j, lastPublicField exEnv 10 = some lastpublic ∧
      FailsAt exEnv 10 lastpublic j "rlp: unknown struct tag \"foo\" on main.Late.B" ∧
      (∀ i, i < j → ∀ m, ¬ FailsAt exEnv 10 lastpublic i m) ∧
      (∀ i, i < j → ∀ f tg, Field exEnv 10 i = some f → f.PkgPath = "" →
        parseStructTag exEnv 10 i lastpublic = some (tg, none) → tg.ignored = false →
        ∃ info, exMem10.lookup ⟨f.Typ, tg⟩ = some info) ∧
      (∀ key info, Mem.init.lookup key = some info → exMem10.lookup key = some info)) ∧
    (∃ msg1 s3,
      structFields exEnv (cachedTypedInfo1 exEnv exGen 2) 10 Mem.init =
        .ok (([], some msg1), s3) ∧
      (∀ key info, Mem.init.lookup key = some info → s3.lookup key = some info) ∧
      (∃ key, Mem.init.lookup key = none ∧ s3.lookup key ≠ none) ∧
      Mem.init.typeCache.length < s3.typeCache.length) :=
  failed_structFields_not_rolled_back exEnv exGen 2 10 Mem.init []
    "rlp: unknown struct tag \"foo\" on main.Late.B" exMem10 (by decide)

/-! ## Permanence -/

/-- C12. Whatever call of `cachedTypeInfo`, `cachedTypedInfo1` or
`structFields` leads from the memory `s` to the memory `s2`: every key of the
cache of `s` is a key of the cache of `s2` with the same record, and every
record of `s` has in `s2` the slot values it had in `s`. -/
theorem cache_entries_permanent (env : Env) (G : Generators) (fuel : Nat) (typ : RType) (tg : tags)
    (s s2 : Mem)
    (h : (∃ info, cachedTypeInfo env G fuel typ tg s = .ok (info, s2)) ∨
      (∃ info, cachedTypedInfo1 env G fuel typ tg s = .ok (info, s2)) ∨
      (∃ r, structFields env (cachedTypedInfo1 env G fuel) typ s = .ok (r, s2))) :
    (∀ key info, s.lookup key = some info → s2.lookup key = some info) ∧
    (∀ info r, s.deref info = some r → s2.deref info = some r) := by
  have hext : Ext s s2 := by
    rcases h with ⟨info, h⟩ | ⟨info, h⟩ | ⟨r, h⟩
    · exact (cachedTypeInfo_sound env G fuel typ tg s info s2 h).1
    · exact (cachedTypedInfo1_sound env G fuel typ tg s info s2 h).1
    · exact structFields_ext env _ (cachedTypedInfo1_sound env G fuel) typ s r s2 h
  exact ⟨hext.cache, fun info r hr => prefix_getElem _ _ info r hext.heap hr⟩

/-- C12 on the example program: type `4` is resolved in the memory that holds
type `5`. -/
theorem cache_entries_permanent_witness :
    (∀ key info, exMem5.lookup key = some info → exMem54.lookup key = some info) ∧
    (∀ info r, exMem5.deref info = some r → exMem54.deref info = some r) :=
  cache_entries_permanent exEnv exGen 1 4 tags.zero exMem5 exMem54 (Or.inl ⟨1, by decide⟩)

/-! ## The `tail` entry -/

/-- In a list with strictly increasing indices, an entry whose index is not
exceeded is the last one. -/
theorem getLast_of_max (l : List field) (e : field)
    (hpw : (l.map field.index).Pairwise (fun a b => a < b)) (he : e ∈ l)
    (hmax : ∀ x ∈ l, x.index ≤ e.index) : l.getLast? = some e := by
  induction l with
  | nil => cases he
  | cons a rest ih =>
    cases rest with
    | nil =>
      rcases List.mem_cons.mp he with rfl | h2
      · rfl
      · cases h2
    | cons b rest2 =>
      rw [List.getLast?_cons_cons]
      rw [List.map_cons] at hpw
      obtain ⟨ha, hrest⟩ := List.pairwise_cons.mp hpw
      rcases List.mem_cons.mp he with rfl | h2
      · have hb := ha b.index (by simp)
        have := hmax b (by simp)
        omega
      · exact ih hrest h2 (fun x hx => hmax x (List.mem_cons_of_mem a hx))

/-- C19. When `structFields` returns without an error: an entry whose field
was parsed to options with `tail = true`, the options it was resolved with,
is the last entry of the list and its field's kind is `reflect.Slice`; so at
most one entry is such. -/
theorem tail_is_last (env : Env) (resolve : Resolver) (typ : RType) (s : Mem)
    (fields : List field) (s2 : Mem)
    (h : structFields env resolve typ s = .ok ((fields, none), s2)) :
    ∃ lastpublic, lastPublicField env typ = some lastpublic ∧
      (∀ e ∈ fields, TailEntry env typ lastpublic e →
        fields.getLast? = some e ∧
        ∃ f, Field env typ e.index = some f ∧ (env.rtype f.Typ).kind = Kind.Slice) ∧
      (∀ e ∈ fields, ∀ e2 ∈ fields, TailEntry env typ lastpublic e →
        TailEntry env typ lastpublic e2 → e = e2) := by
  obtain ⟨lp, hl, hidx, hent⟩ := structFields_spec env resolve typ s fields s2 h
  have hpw : (fields.map field.index).Pairwise (fun a b => a < b) := by
    rw [hidx]
    exact (List.pairwise_lt_range _).filter _
  have hle : ∀ x ∈ fields, x.index ≤ lp := by
    intro x hx
    obtain ⟨f, tg, hf, hp, _⟩ := hent x hx
    rcases lastPublicField_spec env typ lp hl with ⟨hnone, _⟩ | ⟨_, hmax⟩
    · exact absurd hp (hnone x.index f hf)
    · exact hmax x.index f hf hp
  have hlast : ∀ e ∈ fields, TailEntry env typ lp e →
      fields.getLast? = some e ∧
      ∃ f, Field env typ e.index = some f ∧ (env.rtype f.Typ).kind = Kind.Slice := by
    rintro e he ⟨tg, hparse, htail⟩
    obtain ⟨f, tg2, hf, _, _, _, _⟩ := hent e he
    obtain ⟨ts, err, hp2, hiff, hflags⟩ := parseStructTag_spec env typ e.index lp f hf
    rw [hparse] at hp2
    cases hp2
    have hmem := ((hflags rfl).2.2).mp htail
    obtain ⟨hidx2, hkind⟩ := (hiff.mp rfl).2 hmem
    refine ⟨getLast_of_max fields e hpw he ?_, f, hf, hkind⟩
    intro x hx
    rw [hidx2]
    exact hle x hx
  refine ⟨lp, hl, hlast, ?_⟩
  intro e he e2 he2 ht ht2
  have h1 := (hlast e he ht).1
  have h2 := (hlast e2 he2 ht2).1
  rw [h1] at h2
  exact Option.some.inj h2

/-- C19 on the example program: the entries of `main.Mixed`, of which the last
one, field `D` with the directive `tail,nil`, is the `tail` entry. -/
theorem tail_is_last_witness :
    (∃ lastpublic, lastPublicField exEnv 11 = some lastpublic ∧
      (∀ e ∈ [(⟨2, 0⟩ : field), ⟨3, 1⟩], TailEntry exEnv 11 lastpublic e →
        [(⟨2, 0⟩ : field), ⟨3, 1⟩].getLast? = some e ∧
        ∃ f, Field exEnv 11 e.index = some f ∧ (exEnv.rtype f.Typ).kind = Kind.Slice) ∧
      (∀ e ∈ [(⟨2, 0⟩ : field), ⟨3, 1⟩], ∀ e2 ∈ [(⟨2, 0⟩ : field), ⟨3, 1⟩],
        TailEntry exEnv 11 lastpublic e → TailEntry exEnv 11 lastpublic e2 → e = e2)) ∧
    TailEntry exEnv 11 3 ⟨3, 1⟩ :=
  ⟨tail_is_last exEnv (cachedTypedInfo1 exEnv exGen 2) 11 Mem.init [⟨2, 0⟩, ⟨3, 1⟩] exMem11
      (by decide),
    ⟨⟨true, true, false⟩, by decide, rfl⟩⟩

/-! ## The messages of the `tail` errors -/

theorem errTailNotLast_text (env : Env) (typ : RType) (f : StructField) :
    Contains (errTailNotLast env typ f) "must be on last field" := by
  unfold errTailNotLast
  exact Contains_append_right _ _ _ (by decide)

theorem errTailNotSlice_text (env : Env) (typ : RType) (f : StructField) :
    Contains (errTailNotSlice env typ f) "field type is not slice" := by
  unfold errTailNotSlice
  exact Contains_append_right _ _ _ (by decide)

/-- C13, as the code has it. Let a token of the directive of field `fi` trim to
`tail`, the tokens before it being accepted ones that did not fail. When
`fi != lastPublic`, `parseStructTag` fails with the message of line 112, which
contains the text `must be on last field`; when `fi == lastPublic` and the
field's kind is not `reflect.Slice`, it fails with the message of line 115,
which contains the text `field type is not slice`. -/
theorem tail_error_messages (env : Env) (typ : RType) (fi lastPublic : Nat) (f : StructField)
    (pre post : List String) (t : String)
    (hf : Field env typ fi = some f)
    (hsplit : Split f.Tag ',' = pre ++ t :: post)
    (hpre : ∀ u ∈ pre, validToken (TrimSpace u))
    (hpretail : (∃ u ∈ pre, TrimSpace u = "tail") →
      fi = lastPublic ∧ (env.rtype f.Typ).kind = Kind.Slice)
    (ht : TrimSpace t = "tail") :
    (fi ≠ lastPublic →
      ∃ ts msg, parseStructTag env typ fi lastPublic = some (ts, some msg) ∧
        msg = errTailNotLast env typ f ∧ Contains msg "must be on last field") ∧
    (fi = lastPublic → (env.rtype f.Typ).kind ≠ Kind.Slice →
      ∃ ts msg, parseStructTag env typ fi lastPublic = some (ts, some msg) ∧
        msg = errTailNotSlice env typ f ∧ Contains msg "field type is not slice") := by
  obtain ⟨ts2, h2⟩ :=
    loop_append_valid env typ f fi lastPublic pre (t :: post) tags.zero hpre hpretail
  rw [loop_cons_tail env typ f fi lastPublic t post ts2 ht] at h2
  rw [parseStructTag_eq env typ fi lastPublic f hf, hsplit, h2]
  constructor
  · intro hne
    exact ⟨{ ts2 with tail := true }, _, by simp [hne], rfl, errTailNotLast_text env typ f⟩
  · intro he hk
    exact ⟨{ ts2 with tail := true }, _, by simp [he, hk], rfl,
      errTailNotSlice_text env typ f⟩

/-- C13 on the example program: `tail` on the first of the three fields of
`main.Early`. -/
theorem tail_error_messages_witness :
    ((0 : Nat) ≠ 2 →
      ∃ ts msg, parseStructTag exEnv 7 0 2 = some (ts, some msg) ∧
        msg = errTailNotLast exEnv 7 ⟨"A", "", 2, "tail"⟩ ∧
        Contains msg "must be on last field") ∧
    ((0 : Nat) = 2 → (exEnv.rtype (StructField.mk "A" "" 2 "tail").Typ).kind ≠ Kind.Slice →
      ∃ ts msg, parseStructTag exEnv 7 0 2 = some (ts, some msg) ∧
        msg = errTailNotSlice exEnv 7 ⟨"A", "", 2, "tail"⟩ ∧
        Contains msg "field type is not slice") :=
  tail_error_messages exEnv 7 0 2 ⟨"A", "", 2, "tail"⟩ [] [] "tail" (by decide) (by decide)
    (by decide) (by decide) (by decide)

set_option maxRecDepth 8000 in
/-- C13 as stated fails on the example program: `main.Shape.A` is the last
field, has the directive `tail` and the kind `uint`; `parseStructTag` rejects
it with a message that says `field type is not slice` and does not contain
the text `field type is not a sequence`. -/
theorem tail_error_messages_counterexample :
    lastPublicField exEnv 8 = some 0 ∧
    (exEnv.rtype (StructField.mk "A" "" 1 "tail").Typ).kind ≠ Kind.Slice ∧
    parseStructTag exEnv 8 0 0 = some (⟨false, true, false⟩,
      some "rlp: invalid struct tag \"tail\" for main.Shape.A (field type is not slice)") ∧
    ¬ Contains "rlp: invalid struct tag \"tail\" for main.Shape.A (field type is not slice)"
      "field type is not a sequence" := by
  decide

/-! ## Insert before generate -/

theorem runGen_nested_hit (env : Env) (resolve : Resolver) (typ : RType) (tg : tags)
    (k : Nat → List typeinfo → GenBody) (s : Mem) (info : Nat)
    (h : resolve typ tg s = .ok (info, s)) :
    runGen env resolve (.callCachedTypedInfo1 typ tg k) s =
      runGen env resolve (k info s.heap) s := by
  conv_lhs => unfold runGen
  simp only [h]

/-- C15. On a miss `cachedTypedInfo1` allocates a fresh record (an address not
in use, holding the zero value), stores it under the key, and only then runs
`generate` on it: `makeDecoder` and `makeWriter` start in memories whose cache
maps the key to that record, which is the record returned. In every memory
generation goes through from there, a nested `cachedTypedInfo1` for the key
returns this record and leaves the memory, the log of generator calls
included, as it is. -/
theorem insert_before_generate (env : Env) (G : Generators) (fuel : Nat) (typ : RType)
    (tg : tags) (s : Mem) (info : Nat) (s2 : Mem)
    (hk : s.lookup ⟨typ, tg⟩ = none)
    (h : cachedTypedInfo1 env G fuel typ tg s = .ok (info, s2)) :
    ∃ fuel2 s1 d e sa w e2 sb,
      fuel = fuel2 + 1 ∧
      s1 = { s with heap := s.heap ++ [typeinfo.zero],
                    typeCache := mapSet s.typeCache ⟨typ, tg⟩ s.heap.length } ∧
      info = s.heap.length ∧ s.deref info = none ∧
      s1.lookup ⟨typ, tg⟩ = some info ∧ s1.deref info = some typeinfo.zero ∧
      generate env G (cachedTypedInfo1 env G fuel2) info typ tg s1 = .ok s2 ∧
      runGen env (cachedTypedInfo1 env G fuel2) (G.makeDecoder typ tg)
        ((s1.log (.generate ⟨typ, tg⟩)).log (.makeDecoder ⟨typ, tg⟩)) = .ok ((d, e), sa) ∧
      runGen env (cachedTypedInfo1 env G fuel2) (G.makeWriter typ tg)
        ((sa.setDecoder info d e).log (.makeWriter ⟨typ, tg⟩)) = .ok ((w, e2), sb) ∧
      ∀ s3, (Ext ((s1.log (.generate ⟨typ, tg⟩)).log (.makeDecoder ⟨typ, tg⟩)) s3 ∨
          Ext ((sa.setDecoder info d e).log (.makeWriter ⟨typ, tg⟩)) s3) →
        s3.lookup ⟨typ, tg⟩ = some info ∧
        ∀ fuel3, cachedTypedInfo1 env G fuel3 typ tg s3 = .ok (info, s3) ∧
          ∀ k, runGen env (cachedTypedInfo1 env G fuel3) (.callCachedTypedInfo1 typ tg k) s3 =
            runGen env (cachedTypedInfo1 env G fuel3) (k info s3.heap) s3 := by
  obtain ⟨fuel2, hf, hinfo, hg⟩ := cachedTypedInfo1_miss env G fuel typ tg s info s2 hk h
  have hlt : info < (s.heap ++ [typeinfo.zero]).length := by rw [hinfo]; simp
  obtain ⟨d, e, sa, w, e2, sb, hd, hw, _, _⟩ :=
    generate_slots env G _ (cachedTypedInfo1_sound env G fuel2) info typ tg _ s2 hlt hg
  have hs1 : mapGet (mapSet s.typeCache ⟨typ, tg⟩ s.heap.length) ⟨typ, tg⟩ = some info := by
    rw [mapGet_mapSet, hinfo]
    simp
  have hsa : mapGet sa.typeCache ⟨typ, tg⟩ = some info :=
    (runGen_ext env _ (cachedTypedInfo1_sound env G fuel2) _ _ _ _ hd).cache _ _ hs1
  refine ⟨fuel2, _, d, e, sa, w, e2, sb, hf, rfl, hinfo, ?_, hs1, ?_, hg, hd, hw, ?_⟩
  · rw [hinfo]
    simp [Mem.deref]
  · rw [hinfo]
    simp [Mem.deref]
  · intro s3 h3
    have hk3 : mapGet s3.typeCache ⟨typ, tg⟩ = some info := by
      rcases h3 with h3 | h3
      · exact h3.cache _ _ hs1
      · exact h3.cache _ _ hsa
    refine ⟨hk3, fun fuel3 => ?_⟩
    have hhit := cachedTypedInfo1_hit env G fuel3 typ tg s3 info hk3
    exact ⟨hhit, fun k => runGen_nested_hit env _ typ tg k s3 info hhit⟩

/-- C15 on the example program: resolving `(*Node, tags{nilOK: true})` from the
initial state; generation resolves `Node` and meets the key again at the field
`Next`. -/
theorem insert_before_generate_witness :
    ∃ fuel2 s1 d e sa w e2 sb,
      3 = fuel2 + 1 ∧
      s1 = { Mem.init with heap := Mem.init.heap ++ [typeinfo.zero],
                           typeCache := mapSet Mem.init.typeCache ⟨3, ⟨true, false, false⟩⟩
                             Mem.init.heap.length } ∧
      0 = Mem.init.heap.length ∧ Mem.init.deref 0 = none ∧
      s1.lookup ⟨3, ⟨true, false, false⟩⟩ = some 0 ∧ s1.deref 0 = some typeinfo.zero ∧
      generate exEnv exGen (cachedTypedInfo1 exEnv exGen fuel2) 0 3 ⟨true, false, false⟩ s1 =
        .ok exMemPtr ∧
      runGen exEnv (cachedTypedInfo1 exEnv exGen fuel2)
        (exGen.makeDecoder 3 ⟨true, false, false⟩)
        ((s1.log (.generate ⟨3, ⟨true, false, false⟩⟩)).log
          (.makeDecoder ⟨3, ⟨true, false, false⟩⟩)) = .ok ((d, e), sa) ∧
      runGen exEnv (cachedTypedInfo1 exEnv exGen fuel2)
        (exGen.makeWriter 3 ⟨true, false, false⟩)
        ((sa.setDecoder 0 d e).log (.makeWriter ⟨3, ⟨true, false, false⟩⟩)) =
          .ok ((w, e2), sb) ∧
      ∀ s3, (Ext ((s1.log (.generate ⟨3, ⟨true, false, false⟩⟩)).log
            (.makeDecoder ⟨3, ⟨true, false, false⟩⟩)) s3 ∨
          Ext ((sa.setDecoder 0 d e).log (.makeWriter ⟨3, ⟨true, false, false⟩⟩)) s3) →
        s3.lookup ⟨3, ⟨true, false, false⟩⟩ = some 0 ∧
        ∀ fuel3, cachedTypedInfo1 exEnv exGen fuel3 3 ⟨true, false, false⟩ s3 = .ok (0, s3) ∧
          ∀ k, runGen exEnv (cachedTypedInfo1 exEnv exGen fuel3)
              (.callCachedTypedInfo1 3 ⟨true, false, false⟩ k) s3 =
            runGen exEnv (cachedTypedInfo1 exEnv exGen fuel3) (k 0 s3.heap) s3 :=
  insert_before_generate exEnv exGen 3 3 ⟨true, false, false⟩ Mem.init 0 exMemPtr
    (by decide) (by decide)

/-! ## Generation fills both directions -/

/-- C16. When `cachedTypedInfo1` has resolved a key that was not cached, the
returned record holds in `decoder`, `decoderErr` what `makeDecoder(typ, tags)`
returned and in `writer`, `writerErr` what `makeWriter(typ, tags)` returned,
whether either of them failed or not; `generate`, `makeDecoder` and
`makeWriter` have each been called once for the key, with the `typ` and
`tags` of the key. -/
theorem generation_fills_both (env : Env) (G : Generators) (fuel : Nat) (typ : RType)
    (tg : tags) (s : Mem) (info : Nat) (s2 : Mem)
    (hk : s.lookup ⟨typ, tg⟩ = none)
    (h : cachedTypedInfo1 env G fuel typ tg s = .ok (info, s2)) :
    ∃ fuel2 s0 d e sa w e2 sb,
      fuel = fuel2 + 1 ∧
      s0 = (({ s with heap := s.heap ++ [typeinfo.zero],
                      typeCache := mapSet s.typeCache ⟨typ, tg⟩ s.heap.length } : Mem).log
              (.generate ⟨typ, tg⟩)).log (.makeDecoder ⟨typ, tg⟩) ∧
      runGen env (cachedTypedInfo1 env G fuel2) (G.makeDecoder typ tg) s0 = .ok ((d, e), sa) ∧
      runGen env (cachedTypedInfo1 env G fuel2) (G.makeWriter typ tg)
        ((sa.setDecoder info d e).log (.makeWriter ⟨typ, tg⟩)) = .ok ((w, e2), sb) ∧
      s2.deref info = some ⟨d, e, w, e2⟩ ∧
      s2.trace.count (.generate ⟨typ, tg⟩) = s.trace.count (.generate ⟨typ, tg⟩) + 1 ∧
      s2.trace.count (.makeDecoder ⟨typ, tg⟩) = s.trace.count (.makeDecoder ⟨typ, tg⟩) + 1 ∧
      s2.trace.count (.makeWriter ⟨typ, tg⟩) = s.trace.count (.makeWriter ⟨typ, tg⟩) + 1 := by
  obtain ⟨fuel2, hf, hinfo, hg⟩ := cachedTypedInfo1_miss env G fuel typ tg s info s2 hk h
  have hlt : info < (s.heap ++ [typeinfo.zero]).length := by rw [hinfo]; simp
  obtain ⟨d, e, sa, w, e2, sb, hd, hw, _, hslots⟩ :=
    generate_slots env G _ (cachedTypedInfo1_sound env G fuel2) info typ tg _ s2 hlt hg
  obtain ⟨hext, hkey⟩ := cachedTypedInfo1_sound env G fuel typ tg s info s2 h
  have hnew : newKey s.typeCache s2.typeCache ⟨typ, tg⟩ := ⟨hk, by rw [hkey]; simp⟩
  refine ⟨fuel2, _, d, e, sa, w, e2, sb, hf, rfl, hd, hw, hslots, ?_, ?_, ?_⟩
  · rw [hext.count]
    simp [Event.key, hnew]
  · rw [hext.count]
    simp [Event.key, hnew]
  · rw [hext.count]
    simp [Event.key, hnew]

/-- C16 on the example program: type `4`, whose decode generation fails and
whose write generation works. -/
theorem generation_fills_both_witness :
    ∃ fuel2 s0 d e sa w e2 sb,
      1 = fuel2 + 1 ∧
      s0 = (({ Mem.init with heap := Mem.init.heap ++ [typeinfo.zero],
                             typeCache := mapSet Mem.init.typeCache ⟨4, tags.zero⟩
                               Mem.init.heap.length } : Mem).log
              (.generate ⟨4, tags.zero⟩)).log (.makeDecoder ⟨4, tags.zero⟩) ∧
      runGen exEnv (cachedTypedInfo1 exEnv exGen fuel2) (exGen.makeDecoder 4 tags.zero) s0 =
        .ok ((d, e), sa) ∧
      runGen exEnv (cachedTypedInfo1 exEnv exGen fuel2) (exGen.makeWriter 4 tags.zero)
        ((sa.setDecoder 0 d e).log (.makeWriter ⟨4, tags.zero⟩)) = .ok ((w, e2), sb) ∧
      exMem4.deref 0 = some ⟨d, e, w, e2⟩ ∧
      exMem4.trace.count (.generate ⟨4, tags.zero⟩) =
        Mem.init.trace.count (.generate ⟨4, tags.zero⟩) + 1 ∧
      exMem4.trace.count (.makeDecoder ⟨4, tags.zero⟩) =
        Mem.init.trace.count (.makeDecoder ⟨4, tags.zero⟩) + 1 ∧
      exMem4.trace.count (.makeWriter ⟨4, tags.zero⟩) =
        Mem.init.trace.count (.makeWriter ⟨4, tags.zero⟩) + 1 :=
  generation_fills_both exEnv exGen 1 4 tags.zero Mem.init 0 exMem4 (by decide) (by decide)

/-! ## Key identity -/

/-- C18. Let neither `(typ, t1)` nor `(typ, t2)` be cached, `t1 != t2`, and let
the two keys be resolved one after the other. Then the cache holds both keys,
under two different records, and `generate` has been called once for each of
them. A further resolution of a key equal to one of them returns the record
it has and leaves the memory, and so the entries of the cache, as they are. -/
theorem key_identity (env : Env) (G : Generators) (fuel fuel2 : Nat) (typ : RType)
    (t1 t2 : tags) (s : Mem) (i1 : Nat) (s1 : Mem) (i2 : Nat) (s2 : Mem)
    (hwf : s.WF) (hne : t1 ≠ t2)
    (hk1 : s.lookup ⟨typ, t1⟩ = none) (hk2 : s.lookup ⟨typ, t2⟩ = none)
    (h1 : cachedTypedInfo1 env G fuel typ t1 s = .ok (i1, s1))
    (h2 : cachedTypedInfo1 env G fuel2 typ t2 s1 = .ok (i2, s2)) :
    s2.lookup ⟨typ, t1⟩ = some i1 ∧ s2.lookup ⟨typ, t2⟩ = some i2 ∧ i1 ≠ i2 ∧
    s2.trace.count (.generate ⟨typ, t1⟩) = s.trace.count (.generate ⟨typ, t1⟩) + 1 ∧
    s2.trace.count (.generate ⟨typ, t2⟩) = s.trace.count (.generate ⟨typ, t2⟩) + 1 ∧
    (∀ fuel3, cachedTypedInfo1 env G fuel3 typ t1 s2 = .ok (i1, s2) ∧
      cachedTypedInfo1 env G fuel3 typ t2 s2 = .ok (i2, s2)) := by
  obtain ⟨e1, hs1⟩ := cachedTypedInfo1_sound env G fuel typ t1 s i1 s1 h1
  obtain ⟨e2, hs2⟩ := cachedTypedInfo1_sound env G fuel2 typ t2 s1 i2 s2 h2
  have hs21 : mapGet s2.typeCache ⟨typ, t1⟩ = some i1 := e2.cache _ _ hs1
  have e12 := e1.trans e2
  have hwf2 := e12.wf hwf
  refine ⟨hs21, hs2, ?_, ?_, ?_, ?_⟩
  · intro heq
    rw [heq] at hs21
    have := hwf2.2 _ _ _ hs21 hs2
    exact hne (by injection this)
  · rw [e12.count]
    have hnew : newKey s.typeCache s2.typeCache ⟨typ, t1⟩ := ⟨hk1, by rw [hs21]; simp⟩
    simp [Event.key, hnew]
  · rw [e12.count]
    have hnew : newKey s.typeCache s2.typeCache ⟨typ, t2⟩ := ⟨hk2, by rw [hs2]; simp⟩
    simp [Event.key, hnew]
  · intro fuel3
    exact ⟨cachedTypedInfo1_hit env G fuel3 typ t1 s2 i1 hs21,
      cachedTypedInfo1_hit env G fuel3 typ t2 s2 i2 hs2⟩

/-- C18 on the example program: type `4` with the options `tags{}` and then
with the options `tags{nilOK: true}`. -/
theorem key_identity_witness :
    exMem44.lookup ⟨4, tags.zero⟩ = some 0 ∧
    exMem44.lookup ⟨4, ⟨true, false, false⟩⟩ = some 1 ∧ (0 : Nat) ≠ 1 ∧
    exMem44.trace.count (.generate ⟨4, tags.zero⟩) =
      Mem.init.trace.count (.generate ⟨4, tags.zero⟩) + 1 ∧
    exMem44.trace.count (.generate ⟨4, ⟨true, false, false⟩⟩) =
      Mem.init.trace.count (.generate ⟨4, ⟨true, false, false⟩⟩) + 1 ∧
    (∀ fuel3, cachedTypedInfo1 exEnv exGen fuel3 4 tags.zero exMem44 = .ok (0, exMem44) ∧
      cachedTypedInfo1 exEnv exGen fuel3 4 ⟨true, false, false⟩ exMem44 = .ok (1, exMem44)) :=
  key_identity exEnv exGen 1 1 4 tags.zero ⟨true, false, false⟩ Mem.init 0 exMem4 1 exMem44
    Mem.init_WF (by decide) (by decide) (by decide) (by decide) (by decide)

/-! ## Concurrent first use -/

/-- One section of a thread: it returns when `cachedTypedInfo1` does, keeps
what the memory holds, takes the thread forward, and a thread that has
returned holds the record cached under the key. -/
theorem threadStep_spec (env : Env) (G : Generators) (fuel : Nat) (typ : RType) (tg : tags)
    (htotal : ∀ s, ∃ info s2, cachedTypedInfo1 env G fuel typ tg s = .ok (info, s2))
    (x : Thread) (s : Mem)
    (hx : ∀ info, x = Thread.done info → mapGet s.typeCache ⟨typ, tg⟩ = some info) :
    ∃ y s1, threadStep env G fuel typ tg x s = .ok (y, s1) ∧ Ext s s1 ∧
      (∀ info, y = Thread.done info → mapGet s1.typeCache ⟨typ, tg⟩ = some info) ∧
      (2 ≤ y.rank ∨ x.rank + 1 ≤ y.rank) ∧
      (∀ info, x = Thread.done info → y = Thread.done info) ∧
      (mapGet s1.typeCache ⟨typ, tg⟩ ≠ none →
        mapGet s.typeCache ⟨typ, tg⟩ ≠ none ∨ ∃ info, y = Thread.done info) := by
  cases x with
  | start =>
    rcases hk : mapGet s.typeCache ⟨typ, tg⟩ with _ | info
    · refine ⟨.missed, s, by simp [threadStep, hk], Ext.refl s, ?_,
        Or.inr (by simp [Thread.rank]), ?_, ?_⟩
      · intro info h
        cases h
      · intro info h
        cases h
      · intro h
        exact absurd hk h
    · refine ⟨.done info, s, by simp [threadStep, hk], Ext.refl s, ?_,
        Or.inl (by simp [Thread.rank]), ?_, ?_⟩
      · intro info2 h
        cases h
        exact hk
      · intro info2 h
        cases h
      · intro _
        exact Or.inr ⟨info, rfl⟩
  | missed =>
    obtain ⟨info, s2, h⟩ := htotal s
    obtain ⟨hext, hkey⟩ := cachedTypedInfo1_sound env G fuel typ tg s info s2 h
    refine ⟨.done info, s2, by simp [threadStep, h], hext, ?_,
      Or.inl (by simp [Thread.rank]), ?_, ?_⟩
    · intro info2 h2
      cases h2
      exact hkey
    · intro info2 h2
      cases h2
    · intro _
      exact Or.inr ⟨info, rfl⟩
  | done info =>
    exact ⟨.done info, s, rfl, Ext.refl s, fun info2 h2 => hx info2 h2,
      Or.inl (by simp [Thread.rank]), fun _ h2 => h2, fun h => Or.inl h⟩

/-- A run of threads under any schedule. -/
theorem runSchedule_spec (env : Env) (G : Generators) (fuel : Nat) (typ : RType) (tg : tags)
    (htotal : ∀ s, ∃ info s2, cachedTypedInfo1 env G fuel typ tg s = .ok (info, s2))
    (sched : List Nat) :
    ∀ (th : List Thread) (s : Mem),
      (∀ (t : Nat) (info : Nat), th[t]? = some (Thread.done info) →
        mapGet s.typeCache ⟨typ, tg⟩ = some info) →
      (mapGet s.typeCache ⟨typ, tg⟩ ≠ none →
        ∃ (t : Nat) (info : Nat), th[t]? = some (Thread.done info)) →
      ∃ th2 s2, runSchedule env G fuel typ tg sched th s = .ok (th2, s2) ∧
        th2.length = th.length ∧ Ext s s2 ∧
        (∀ (t : Nat) (info : Nat), th2[t]? = some (Thread.done info) →
          mapGet s2.typeCache ⟨typ, tg⟩ = some info) ∧
        (mapGet s2.typeCache ⟨typ, tg⟩ ≠ none →
          ∃ (t : Nat) (info : Nat), th2[t]? = some (Thread.done info)) ∧
        (∀ (t : Nat) (x : Thread), th[t]? = some x → 2 ≤ x.rank + sched.count t →
          ∃ info, th2[t]? = some (Thread.done info)) := by
  induction sched with
  | nil =>
    intro th s hinv hK
    refine ⟨th, s, rfl, rfl, Ext.refl s, hinv, hK, ?_⟩
    intro t x hx hr
    cases x with
    | start => simp [Thread.rank] at hr
    | missed => simp [Thread.rank] at hr
    | done info => exact ⟨info, hx⟩
  | cons t rest ih =>
    intro th s hinv hK
    unfold runSchedule
    rcases ht : th[t]? with _ | x
    · simp only
      obtain ⟨th2, s2, h1, h2, h3, h4, h6, h5⟩ := ih th s hinv hK
      refine ⟨th2, s2, h1, h2, h3, h4, h6, ?_⟩
      intro u xu hu hr
      have hne : u ≠ t := by
        intro e
        rw [e, ht] at hu
        cases hu
      rw [List.count_cons_of_ne hne] at hr
      exact h5 u xu hu hr
    · simp only
      obtain ⟨y, s1, hstep, hext, hy, hrank, hkeep, hback⟩ :=
        threadStep_spec env G fuel typ tg htotal x s (fun info e => hinv t info (by rw [ht, e]))
      simp only [hstep]
      have htl : t < th.length := by
        rcases Nat.lt_or_ge t th.length with h | h
        · exact h
        · rw [List.getElem?_eq_none h] at ht
          cases ht
      have hinv2 : ∀ (u : Nat) (info : Nat), (th.set t y)[u]? = some (Thread.done info) →
          mapGet s1.typeCache ⟨typ, tg⟩ = some info := by
        intro u info hu
        by_cases e : t = u
        · subst e
          rw [List.getElem?_set_self htl] at hu
          exact hy info (Option.some.inj hu)
        · rw [List.getElem?_set_ne e] at hu
          exact hext.cache _ _ (hinv u info hu)
      have hK2 : mapGet s1.typeCache ⟨typ, tg⟩ ≠ none →
          ∃ (u : Nat) (info : Nat), (th.set t y)[u]? = some (Thread.done info) := by
        intro hpres
        rcases hback hpres with hold | ⟨info, hyd⟩
        · obtain ⟨u, info, hu⟩ := hK hold
          by_cases e : t = u
          · subst e
            rw [ht] at hu
            refine ⟨t, info, ?_⟩
            rw [List.getElem?_set_self htl, hkeep info (Option.some.inj hu)]
          · exact ⟨u, info, by rw [List.getElem?_set_ne e]; exact hu⟩
        · exact ⟨t, info, by rw [List.getElem?_set_self htl, hyd]⟩
      obtain ⟨th2, s2, h1, h2, h3, h4, h6, h5⟩ := ih (th.set t y) s1 hinv2 hK2
      refine ⟨th2, s2, h1, by rw [h2, List.length_set], hext.trans h3, h4, h6, ?_⟩
      intro u xu hu hr
      by_cases e : t = u
      · subst e
        rw [ht] at hu
        cases hu
        rw [List.count_cons_self] at hr
        refine h5 t y (List.getElem?_set_self htl) ?_
        rcases hrank with h | h <;> omega
      · have hne : u ≠ t := fun e2 => e e2.symm
        rw [List.count_cons_of_ne hne] at hr
        exact h5 u xu (by rw [List.getElem?_set_ne e]; exact hu) hr

theorem getElem_replicate_start (N t : Nat) (x : Thread)
    (h : (List.replicate N Thread.start)[t]? = some x) : x = Thread.start ∧ t < N := by
  rcases Nat.lt_or_ge t N with hlt | hge
  · rw [List.getElem?_eq_getElem (by simpa using hlt)] at h
    simp at h
    exact ⟨h.symm, hlt⟩
  · rw [List.getElem?_eq_none (by simpa using hge)] at h
    cases h

/-- C14. Threads are run section by section, as the read/write lock lets them
(see `runSchedule`). Let the types `U` and the generators be as for cycle
safety, so that generation returns. Let `N` threads call `cachedTypeInfo` for
one key of `U` that is not cached, and let `sched` be any order in which they
run their sections. Then the run returns; every thread that has returned
holds the record the cache has under the key, so all hold the same; a thread
that had its two turns has returned; and `generate` has been called for the
key once if any thread has returned, and not at all otherwise. -/
theorem concurrent_first_use (env : Env) (U : List RType) (G : Generators)
    (hclosed : ClosedTypes env U)
    (hG : ∀ typ tg, typ ∈ U →
      Within env U (G.makeDecoder typ tg) ∧ Within env U (G.makeWriter typ tg))
    (typ : RType) (tg : tags) (hlt : typ ∈ U) (fuel : Nat) (hfuel : 8 * U.length ≤ fuel)
    (s : Mem) (hk : s.lookup ⟨typ, tg⟩ = none) (N : Nat) (sched : List Nat) :
    ∃ th s2,
      runSchedule env G fuel typ tg sched (List.replicate N Thread.start) s = .ok (th, s2) ∧
      th.length = N ∧
      (∀ (t : Nat) (info : Nat), th[t]? = some (Thread.done info) →
        s2.lookup ⟨typ, tg⟩ = some info) ∧
      (∀ (t u : Nat) (i1 i2 : Nat), th[t]? = some (Thread.done i1) →
        th[u]? = some (Thread.done i2) → i1 = i2) ∧
      (∀ t, t < N → 2 ≤ sched.count t → ∃ info, th[t]? = some (Thread.done info)) ∧
      ((∃ (t : Nat) (info : Nat), th[t]? = some (Thread.done info)) →
        s2.trace.count (.generate ⟨typ, tg⟩) = s.trace.count (.generate ⟨typ, tg⟩) + 1) ∧
      ((∀ (t : Nat) (info : Nat), th[t]? ≠ some (Thread.done info)) →
        s2.trace.count (.generate ⟨typ, tg⟩) = s.trace.count (.generate ⟨typ, tg⟩)) := by
  have htotal : ∀ s, ∃ info s2, cachedTypedInfo1 env G fuel typ tg s = .ok (info, s2) :=
    fun s => cachedTypedInfo1_total env U G hclosed hG fuel typ tg s hlt
      (Nat.le_trans (absent_le U _) hfuel)
  obtain ⟨th, s2, hrun, hlen, hext, hinv, hK, hprog⟩ :=
    runSchedule_spec env G fuel typ tg htotal sched (List.replicate N Thread.start) s
      (by
        intro t info h
        have := (getElem_replicate_start N t _ h).1
        cases this)
      (fun h => absurd hk h)
  refine ⟨th, s2, hrun, by simpa using hlen, hinv, ?_, ?_, ?_, ?_⟩
  · intro t u i1 i2 h1 h2
    have a := hinv t i1 h1
    have b := hinv u i2 h2
    rw [a] at b
    exact Option.some.inj b
  · intro t ht hc
    have hget : (List.replicate N Thread.start)[t]? = some Thread.start := by
      rw [List.getElem?_eq_getElem (by simpa using ht)]
      simp
    exact hprog t Thread.start hget (by simpa [Thread.rank] using hc)
  · rintro ⟨t, info, h⟩
    rw [hext.count]
    have hnew : newKey s.typeCache s2.typeCache ⟨typ, tg⟩ :=
      ⟨hk, by rw [hinv t info h]; simp⟩
    simp only [Event.key, hnew, if_true]
  · intro hnone
    rw [hext.count]
    have hnew : ¬ newKey s.typeCache s2.typeCache ⟨typ, tg⟩ := by
      rintro ⟨_, hpres⟩
      obtain ⟨t, info, h⟩ := hK hpres
      exact hnone t info h
    simp only [Event.key, hnew, if_false, Nat.add_zero]

/-- C14 on the example program: three threads resolve type `5` from the empty
cache; all three miss under the read lock before any of them takes the write
lock. -/
theorem concurrent_first_use_witness :
    (∃ th s2,
      runSchedule exEnv exGen 96 5 tags.zero [0, 1, 2, 1, 0, 2]
        (List.replicate 3 Thread.start) Mem.init = .ok (th, s2) ∧
      th.length = 3 ∧
      (∀ (t : Nat) (info : Nat), th[t]? = some (Thread.done info) →
        s2.lookup ⟨5, tags.zero⟩ = some info) ∧
      (∀ (t u : Nat) (i1 i2 : Nat), th[t]? = some (Thread.done i1) →
        th[u]? = some (Thread.done i2) → i1 = i2) ∧
      (∀ t, t < 3 → 2 ≤ [0, 1, 2, 1, 0, 2].count t →
        ∃ info, th[t]? = some (Thread.done info)) ∧
      ((∃ (t : Nat) (info : Nat), th[t]? = some (Thread.done info)) →
        s2.trace.count (.generate ⟨5, tags.zero⟩) =
          Mem.init.trace.count (.generate ⟨5, tags.zero⟩) + 1) ∧
      ((∀ (t : Nat) (info : Nat), th[t]? ≠ some (Thread.done info)) →
        s2.trace.count (.generate ⟨5, tags.zero⟩) =
          Mem.init.trace.count (.generate ⟨5, tags.zero⟩))) ∧
    runSchedule exEnv exGen 1 5 tags.zero [0, 1, 2, 1, 0, 2]
      (List.replicate 3 Thread.start) Mem.init =
        .ok ([Thread.done 0, Thread.done 0, Thread.done 0], exMem5) :=
  ⟨concurrent_first_use exEnv (List.range 12) exGen exEnv_closed
      (fun typ tg h => exGen_within typ tg h) 5 tags.zero (by decide) 96 (by decide) Mem.init
      (by decide) 3 [0, 1, 2, 1, 0, 2],
    by decide⟩

end rlp
